import Mathlib

/-!
Mukitty: terminal pixel-graphics transport.

A shallow embedding of `src/mukitty.c` (and of the sibling `src/main.c` and
the allocator `src/arena.c`) and theorems about it.

Conventions of the embedding.

* C `int` values are `Int`.  Signed overflow is undefined behaviour in C and
  lies outside the model: `int` arithmetic is exact, with two exceptions.
  `updateWindowSize` checks its own size computation and reports an overflow
  as `none`; the cell-to-pixel products of `process_input` wrap modulo
  `2 ^ 32`, as the compiled code computes them.
* `size_t` values are `Nat`.  In `kitty_update_display`, whose sizes are
  computed from `Config`, every `size_t` operation that can wrap is reduced
  modulo `2 ^ 64` explicitly.  The index of `base64_encode` stays below
  `input_length + 3` and is exact.
* A byte buffer is a `List Nat`; the framebuffer pointer `fb` is `none` for
  `NULL`.
* `crt_set_pixel`, `kitty_update_display`, `updateWindowSize` and
  `process_input` return `Option`: `none` stands for a store or a load
  outside the buffer addressed, a failed allocation that is then written
  through, a division by zero (undefined behaviour), or for a loop that does
  not end.  `base64_encode` itself reads its input with a default of 0; its
  caller checks that the reads are in bounds.
* Standard output is the list of the stdio calls made on it, in order.
* In `arena.c` every `size_t` operation is reduced modulo `2 ^ 64`; a region
  is the list of the bytes of its `items`, and `armalloc` is `none` when it
  writes outside the block `malloc` returned.
-/

namespace Mukitty

/-! ## Data model -/

/-- The global `Config` structure of `mukitty.c`. -/
structure ConfigT where
  ghostty_mode : Bool
  kitty_mode : Bool
  width_chars : Int
  height_chars : Int
  width : Int
  height : Int
  render_id : Nat
  deriving DecidableEq, Repr

/-- The static `clip_rect` structure of `mukitty.c`. -/
structure ClipRect where
  x : Int
  y : Int
  w : Int
  h : Int
  enabled : Bool
  deriving DecidableEq, Repr

/-- One stdio call on standard output. `printf` carries the formatted text,
`fwrite` the bytes written. -/
inductive Write where
  | printf (text : String)
  | fwrite (bytes : List Nat)
  | fflush
  deriving DecidableEq, Repr

/-- The process-wide state of `mukitty.c`: `Config`, `clip_rect`, the
framebuffer pointer `fb`, `frame_number`, and what has been written to
standard output and standard error. -/
structure State where
  Config : ConfigT
  clip_rect : ClipRect
  fb : Option (List Nat)
  frame_number : Int
  out : List Write
  err : List String
  deriving DecidableEq, Repr

/-! ## Framebuffer: `crt_set_pixel` -/

/-- The three stores `dst[0] = r; dst[1] = g; dst[2] = b` at byte offset
`off` of a buffer. -/
def store3 (buf : List Nat) (off r g b : Nat) : List Nat :=
  ((buf.set off r).set (off + 1) g).set (off + 2) b

/-- `crt_set_pixel` of `mukitty.c` (lines 335-350).  The result is `none` when
the three stores fall outside the framebuffer (or `fb` is `NULL`). -/
def crt_set_pixel (s : State) (x y : Int) (color : Nat) : Option State :=
  if x ≥ s.Config.width ∨ y ≥ s.Config.height then some s
  else if s.clip_rect.enabled = true ∧
      (x < s.clip_rect.x ∨ y < s.clip_rect.y ∨
       x ≥ s.clip_rect.x + s.clip_rect.w ∨
       y ≥ s.clip_rect.y + s.clip_rect.h) then some s
  else
    let off : Int := x * 3 + y * s.Config.width * 3
    match s.fb with
    | none => none
    | some buf =>
      if 0 ≤ off ∧ off + 3 ≤ (buf.length : Int) then
        some { s with fb := some (store3 buf off.toNat
          ((color >>> 16) &&& 0xff) ((color >>> 8) &&& 0xff) (color &&& 0xff)) }
      else none

/-- `crt_set_pixel` of `main.c` (lines 274-284) and of `mukitty.cpp`, the
sibling shells: the bounds test also rejects negative coordinates.  `w` and
`h` are `SCREEN_W`, `SCREEN_H` (respectively `Config.width`, `Config.height`). -/
def crt_set_pixel_main (w h : Int) (fb : List Nat) (x y : Int) (color : Nat) :
    Option (List Nat) :=
  if x < 0 ∨ x ≥ w ∨ y < 0 ∨ y ≥ h then some fb
  else
    let off : Int := x * 3 + y * w * 3
    if 0 ≤ off ∧ off + 3 ≤ (fb.length : Int) then
      some (store3 fb off.toNat
        ((color >>> 16) &&& 0xff) ((color >>> 8) &&& 0xff) (color &&& 0xff))
    else none

/-! ## Base64: `base64_encode` -/

/-- The `base64_table` string of `base64_encode`, as character codes. -/
def base64_table : List Nat :=
  "ABCDEFGHIJKLMNOPQRSTUVWXYZabcdefghijklmnopqrstuvwxyz0123456789+/".toList.map Char.toNat

/-- The loop of `base64_encode` (`mukitty.c` lines 90-102, `main.c` lines
46-58): `i` is the input index, `enc` the characters written so far
(`encoded_data[0..j)`).  `fuel` bounds the number of iterations; the index
`i` stays below `input_length + 3` and is exact (a buffer in memory is
shorter than `2 ^ 64 - 3` bytes).  `0x3D` is `'='`. -/
def base64_loop (data : List Nat) (input_length : Nat) :
    Nat → Nat → List Nat → List Nat
  | 0, _, enc => enc
  | fuel + 1, i, enc =>
    if i < input_length then
      let octet_a := data.getD i 0
      let octet_b := if i + 1 < input_length then data.getD (i + 1) 0 else 0
      let octet_c := if i + 2 < input_length then data.getD (i + 2) 0 else 0
      let triple := ((octet_a <<< 16) + (octet_b <<< 8) + octet_c) % 2 ^ 32
      base64_loop data input_length fuel (i + 3)
        (enc ++ [base64_table.getD ((triple >>> 18) &&& 0x3F) 0,
                 base64_table.getD ((triple >>> 12) &&& 0x3F) 0,
                 if i + 1 < input_length then
                   base64_table.getD ((triple >>> 6) &&& 0x3F) 0 else 0x3D,
                 if i + 2 < input_length then
                   base64_table.getD (triple &&& 0x3F) 0 else 0x3D])
    else enc

/-- `base64_encode`: the characters written to `encoded_data` for the first
`input_length` bytes of `data` (`mukitty.c` passes the framebuffer `fb` as
`data`).  The C function returns their number `j`, the length of this list.
The loop runs at most `input_length` times, which is the fuel given. -/
def base64_encode (data : List Nat) (input_length : Nat) : List Nat :=
  base64_loop data input_length input_length 0 []

/-- The value of one character of the standard base64 alphabet (RFC 4648,
table 1), `none` for any other character. -/
def rfc4648_value (c : Nat) : Option Nat :=
  if 65 ≤ c ∧ c ≤ 90 then some (c - 65)
  else if 97 ≤ c ∧ c ≤ 122 then some (c - 97 + 26)
  else if 48 ≤ c ∧ c ≤ 57 then some (c - 48 + 52)
  else if c = 43 then some 62
  else if c = 47 then some 63
  else none

/-- A standard base64 decoder (RFC 4648 section 4), written from the
standard and not from the source: the input is read in groups of four
characters; a group ending in `=` or `==` is the last one and yields two
bytes or one byte; the unused low bits of a padded group must be zero; any
other input is rejected. -/
def rfc4648_decode : List Nat → Option (List Nat)
  | c0 :: c1 :: c2 :: c3 :: rest =>
    match rfc4648_value c0, rfc4648_value c1 with
    | some v0, some v1 =>
      if c3 = 0x3D then
        if rest ≠ [] then none
        else if c2 = 0x3D then
          if v1 % 16 = 0 then some [v0 * 4 + v1 / 16] else none
        else
          match rfc4648_value c2 with
          | some v2 =>
            if v2 % 4 = 0 then some [v0 * 4 + v1 / 16, v1 % 16 * 16 + v2 / 4]
            else none
          | none => none
      else
        match rfc4648_value c2, rfc4648_value c3, rfc4648_decode rest with
        | some v2, some v3, some tail =>
          some ((v0 * 4 + v1 / 16) :: (v1 % 16 * 16 + v2 / 4) :: (v2 % 4 * 64 + v3) :: tail)
        | _, _, _ => none
    | _, _ => none
  | [] => some []
  | _ => none

/-- The four characters one iteration of the loop of `base64_encode` writes
for the octets `a`, `b`, `c`; `has_b` and `has_c` are the tests
`i + 1 < input_length` and `i + 2 < input_length`. -/
def encode_group (a b c : Nat) (has_b has_c : Bool) : List Nat :=
  let triple := ((a <<< 16) + (b <<< 8) + c) % 2 ^ 32
  [base64_table.getD ((triple >>> 18) &&& 0x3F) 0,
   base64_table.getD ((triple >>> 12) &&& 0x3F) 0,
   if has_b = true then base64_table.getD ((triple >>> 6) &&& 0x3F) 0 else 0x3D,
   if has_c = true then base64_table.getD (triple &&& 0x3F) 0 else 0x3D]

/-- The output of `base64_encode` described on the input list, three bytes
at a time (shown equal to `base64_encode` in `base64_encode_eq`). -/
def encode_groups : List Nat → List Nat
  | a :: b :: c :: rest => encode_group a b c true true ++ encode_groups rest
  | [a, b] => encode_group a b 0 true false
  | [a] => encode_group a 0 0 false false
  | [] => []

/-! ## Protocol transmitter: `kitty_update_display` -/

/-- The macro `TRACE_LOGS` of `mukitty.c` (`#define TRACE_LOGS 1`). -/
def TRACE_LOGS : Bool := true

/-- Conversion of an `int` to `size_t` (64 bits): reduction modulo `2 ^ 64`. -/
def size_t (n : Int) : Nat := (n % 2 ^ 64).toNat

/-- The text of the header `printf` of one loop iteration of
`kitty_update_display` (`mukitty.c` lines 159-189): `%lu` and `%d` print
decimal numbers, `\x1b` is `\033`. -/
def kitty_header (cfg : ConfigT) (frame_number : Int) (encoded_offset more_chunks : Nat) :
    String :=
  if encoded_offset = 0 then
    if cfg.ghostty_mode = true then
      "\x1b_Ga=" ++ (if frame_number = 0 then "T" else "t") ++ ",i=" ++ toString cfg.render_id
        ++ ",f=24,s=" ++ toString cfg.width ++ ",v=" ++ toString cfg.height
        ++ ",q=2,c=" ++ toString cfg.width_chars ++ ",r=" ++ toString cfg.height_chars
        ++ ",m=" ++ toString more_chunks ++ ";"
    else if frame_number = 0 then
      "\x1b_Ga=T,i=" ++ toString cfg.render_id
        ++ ",f=24,s=" ++ toString cfg.width ++ ",v=" ++ toString cfg.height
        ++ ",q=2,c=" ++ toString cfg.width_chars ++ ",r=" ++ toString cfg.height_chars
        ++ ",m=" ++ toString more_chunks ++ ";"
    else
      "\x1b_Ga=f,r=1,i=" ++ toString cfg.render_id
        ++ ",f=24,x=0,y=0,s=" ++ toString cfg.width ++ ",v=" ++ toString cfg.height
        ++ ",m=" ++ toString more_chunks ++ ";"
  else
    if cfg.ghostty_mode = true then
      "\x1b_Gm=" ++ toString more_chunks ++ ";"
    else if frame_number = 0 then
      "\x1b_Gm=" ++ toString more_chunks ++ ";"
    else
      "\x1b_Ga=f,r=1,m=" ++ toString more_chunks ++ ";"

/-- The `while` loop of `kitty_update_display` (`mukitty.c` lines 157-197),
started at `encoded_offset`: the stdio calls it makes, in order.  Each
iteration prints the header, writes `this_size` bytes of `encoded_data` at
`encoded_offset`, prints the terminator `ESC \` and flushes.  The result is
`none` when `fwrite` would read past the `encoded_size` characters of the
scratch buffer, or when `fuel` iterations do not end the loop. -/
def kitty_loop (cfg : ConfigT) (frame_number : Int) (encoded_data : List Nat)
    (encoded_size : Nat) : Nat → Nat → Option (List Write)
  | 0, encoded_offset => if encoded_offset < encoded_size then none else some []
  | fuel + 1, encoded_offset =>
    if encoded_offset < encoded_size then
      let chunk_size := 4096
      let more_chunks : Nat :=
        if (encoded_offset + chunk_size) % 2 ^ 64 < encoded_size then 1 else 0
      let this_size := if more_chunks ≠ 0 then 4096 else encoded_size - encoded_offset
      if encoded_offset + this_size ≤ encoded_size then
        match kitty_loop cfg frame_number encoded_data encoded_size fuel
            ((encoded_offset + this_size) % 2 ^ 64) with
        | none => none
        | some rest =>
          some (Write.printf (kitty_header cfg frame_number encoded_offset more_chunks)
            :: Write.fwrite ((encoded_data.drop encoded_offset).take this_size)
            :: Write.printf "\x1b\\"
            :: Write.fflush
            :: rest)
      else none
    else some []

/-- The text of the activation `printf` (`mukitty.c` line 202). -/
def activation_header (cfg : ConfigT) : String :=
  "\x1b_Ga=a,c=1,i=" ++ toString cfg.render_id ++ ";"

/-- `kitty_update_display` of `mukitty.c` (lines 138-218).  `malloc_ok` tells
whether `malloc` returned the scratch buffer.  The result is `none` when
`base64_encode` reads past the framebuffer or writes past the scratch
buffer, when `fwrite` reads past the scratch buffer, or when the loop does
not end. -/
def kitty_update_display (malloc_ok : Bool) (s : State) : Option State :=
  let bitmap_size : Nat := size_t (s.Config.width * s.Config.height * 3)
  let encoded_size : Nat := (4 * ((bitmap_size + 2) % 2 ^ 64 / 3)) % 2 ^ 64
  if malloc_ok = false then
    some { s with err := s.err ++ ["Memory allocation failed\n"] }
  else
    let data := s.fb.getD []
    if bitmap_size ≤ data.length then
      let encoded_data := base64_encode data bitmap_size
      if encoded_data.length ≤ encoded_size then
        match kitty_loop s.Config s.frame_number encoded_data encoded_size encoded_size 0 with
        | none => none
        | some packets =>
          let out1 := s.out ++ packets
          let out2 :=
            if s.Config.kitty_mode = true ∧ s.frame_number > 0 then
              out1 ++ [Write.printf (activation_header s.Config), Write.printf "\x1b\\"]
            else out1
          if s.frame_number = 0 then
            some { s with
              out := (if TRACE_LOGS = true ∧ s.Config.ghostty_mode = true then
                        out2 ++ [Write.printf "\r\n"] else out2) ++ [Write.fflush],
              frame_number := s.frame_number + 1 }
          else some { s with out := out2 ++ [Write.fflush] }
      else none
    else none

/-- The framebuffer is allocated with `Config.width * Config.height * 3`
bytes, a size that fits in an `int`. -/
def FbReady (s : State) : Prop :=
  ∃ buf, s.fb = some buf ∧
    (buf.length : Int) = s.Config.width * s.Config.height * 3 ∧
    s.Config.width * s.Config.height * 3 < 2 ^ 31

/-! ### Reading a trace of stdio calls -/

/-- A data packet of the graphics protocol: the header text and the payload
bytes. -/
structure Packet where
  header : String
  payload : List Nat
  deriving DecidableEq, Repr

/-- The data packets of a trace: every `printf` followed directly by an
`fwrite` is the header and the payload of one data packet. -/
def data_packets : List Write → List Packet
  | Write.printf h :: Write.fwrite p :: rest => ⟨h, p⟩ :: data_packets rest
  | _ :: rest => data_packets rest
  | [] => []

/-- What a call appended to standard output: the writes of `s'` after those
of `s`. -/
def emitted (s s' : State) : List Write := s'.out.drop s.out.length

/-- The pieces of a list with separator `c` removed. -/
def splitOnChar (c : Char) : List Char → List (List Char)
  | [] => [[]]
  | x :: xs =>
    if x = c then [] :: splitOnChar c xs
    else match splitOnChar c xs with
      | [] => [[x]]
      | h :: t => (x :: h) :: t

/-- The value of control key `key` in a header `ESC _ G k=v,k=v,... ;`:
the text up to the first `;` is split at `,` and each piece at `=`. -/
def header_field (key : String) (hdr : String) : Option String :=
  match hdr.data with
  | '\x1b' :: '_' :: 'G' :: rest =>
    ((splitOnChar ',' (rest.takeWhile (fun c => c ≠ ';'))).filterMap (fun kv =>
      match splitOnChar '=' kv with
      | [k, v] => if k = key.data then some (String.mk v) else none
      | _ => none)).head?
  | _ => none

/-- The continuation flag of a header, read as the character of its last
control field `m=`: the header ends with `,m=<flag>;`, or it is
`ESC _ G m=<flag>;`. -/
def header_flag (hdr : String) : Option Char :=
  match hdr.data.reverse with
  | ';' :: f :: '=' :: 'm' :: ',' :: _ => some f
  | [';', f, '=', 'm', 'G', '_', '\x1b'] => some f
  | _ => none

/-- The four stdio calls of one loop iteration that sends packet `p`. -/
def Packet.writes (p : Packet) : List Write :=
  [Write.printf p.header, Write.fwrite p.payload, Write.printf "\x1b\\", Write.fflush]

/-- The `k`-th data packet of a frame whose encoded blob `enc` has
`encoded_size` characters: the header printed at offset `4096 * k` and the
piece of at most 4096 characters at that offset. -/
def packet_at (cfg : ConfigT) (frame_number : Int) (enc : List Nat) (encoded_size k : Nat) :
    Packet :=
  ⟨kitty_header cfg frame_number (4096 * k) (if 4096 * k + 4096 < encoded_size then 1 else 0),
   (enc.drop (4096 * k)).take 4096⟩

/-- The data packets of a frame, in order: `ceil(encoded_size / 4096)` of
them. -/
def frame_packets (cfg : ConfigT) (frame_number : Int) (enc : List Nat) (encoded_size : Nat) :
    List Packet :=
  (List.range ((encoded_size + 4095) / 4096)).map (packet_at cfg frame_number enc encoded_size)

/-- The stdio calls of `kitty_update_display` after its loop (`mukitty.c`
lines 199-215). -/
def frame_tail (cfg : ConfigT) (frame_number : Int) : List Write :=
  (if cfg.kitty_mode = true ∧ frame_number > 0 then
      [Write.printf (activation_header cfg), Write.printf "\x1b\\"] else []) ++
  (if frame_number = 0 ∧ TRACE_LOGS = true ∧ cfg.ghostty_mode = true then
      [Write.printf "\r\n"] else []) ++
  [Write.fflush]

/-- The encoded blob of a frame, as `kitty_update_display` computes it: the
base64 encoding of the first `bitmap_size` bytes of the framebuffer. -/
def frame_blob (s : State) : List Nat :=
  base64_encode (s.fb.getD []) (size_t (s.Config.width * s.Config.height * 3))

/-- A 1x1 framebuffer (one pixel, three bytes) at frame `fn`; `g` selects the
animate dialect (`ghostty_mode`), otherwise the classic one (`kitty_mode`). -/
def stateOne (g : Bool) (fn : Int) : State :=
  { Config := { ghostty_mode := g, kitty_mode := !g, width_chars := 1,
                height_chars := 1, width := 1, height := 1, render_id := 7 },
    clip_rect := { x := 0, y := 0, w := 0, h := 0, enabled := false },
    fb := some [1, 2, 3],
    frame_number := fn, out := [], err := [] }

/-- The classic dialect on a 9x4 cell grid, 36x32 pixels. -/
def configTwo : ConfigT :=
  { ghostty_mode := false, kitty_mode := true, width_chars := 9,
    height_chars := 4, width := 36, height := 32, render_id := 7 }

/-- A 36x32 black framebuffer (3456 bytes, 4608 encoded characters, two
packets) in the classic dialect at frame `fn`. -/
def stateTwo (fn : Int) : State :=
  { Config := configTwo,
    clip_rect := { x := 0, y := 0, w := 0, h := 0, enabled := false },
    fb := some (List.replicate 3456 0),
    frame_number := fn, out := [], err := [] }

/-- A 4x2 black framebuffer, clipping disabled. -/
def stateNeg : State :=
  { Config := { ghostty_mode := true, kitty_mode := false, width_chars := 1,
                height_chars := 1, width := 4, height := 2, render_id := 7 },
    clip_rect := { x := 0, y := 0, w := 0, h := 0, enabled := false },
    fb := some (List.replicate 24 0),
    frame_number := 0, out := [], err := [] }

/-- A 4x2 framebuffer with a clip rectangle covering its left half. -/
def stateClip : State :=
  { stateNeg with clip_rect := { x := 0, y := 0, w := 2, h := 2, enabled := true } }

/-! ## Resizing: `updateWindowSize` -/

/-- The macro `RESW` of `mukitty.c`: character width in pixels. -/
def RESW : Int := 4

/-- The macro `RESH` of `mukitty.c`: character height in pixels. -/
def RESH : Int := 8

/-- The value is representable as a 32-bit `int`. -/
def fits_int (n : Int) : Prop := -2147483648 ≤ n ∧ n ≤ 2147483647

instance (n : Int) : Decidable (fits_int n) := by
  unfold fits_int
  exact inferInstance

/-- The value of a 32-bit result taken as an `int`: reduction modulo `2 ^ 32`
into the range of `int`.  It is the conversion of the result of `uint32_t`
arithmetic to `int`, and the two's-complement wrap of an `int` sum or
product where the model follows the compiled code through an overflow. -/
def to_int32 (n : Int) : Int := (n + 2147483648) % 4294967296 - 2147483648

/-- The calls `malloc(fb_size)` (or `realloc(fb, fb_size)`) and
`memset(fb, 0, fb_size)` of `updateWindowSize`: `alloc_ok` tells whether the
allocator returns a block; a request of `2 ^ 63` bytes or more (above
`PTRDIFF_MAX`) never succeeds.  The result is `none` when the allocator
returns `NULL`, which `memset` then stores through. -/
def alloc_zeroed (alloc_ok : Bool) (fb_size : Nat) : Option (List Nat) :=
  if alloc_ok = true ∧ fb_size < 2 ^ 63 then some (List.replicate fb_size 0) else none

/-- `updateWindowSize` of `mukitty.c` (lines 434-458).  The result is `none`
when one of the `int` products of the size computation overflows, or when
the allocation fails.  The root container of the GUI context, which the
function also resets, is not part of the state. -/
def updateWindowSize (alloc_ok : Bool) (s : State) (width height : Int) : Option State :=
  if s.fb.isSome = true ∧ width = s.Config.width_chars ∧ height = s.Config.height_chars then
    some s
  else if ¬ (fits_int (width * RESW) ∧ fits_int (height * RESH) ∧
      fits_int (width * RESW * (height * RESH)) ∧
      fits_int (width * RESW * (height * RESH) * 3)) then none
  else
    let cfg : ConfigT := { s.Config with
      width_chars := width, height_chars := height,
      width := width * RESW, height := height * RESH }
    let fb_size : Nat := size_t (cfg.width * cfg.height * 3)
    match alloc_zeroed alloc_ok fb_size with
    | none => none
    | some buf =>
      some { s with
        Config := cfg,
        fb := some buf,
        frame_number := 0,
        out := if s.fb.isSome = true ∧ cfg.kitty_mode = true then
                 s.out ++ [Write.printf "\x1b[3J\x1b[H", Write.fflush]
               else s.out }

/-- The resize `muBegin` performs each frame (`mukitty.c` line 660):
`updateWindowSize(ts.ws_col, ts.ws_row - 1)` for the terminal size the
operating system reports (`ws_col`, `ws_row` are `unsigned short`). -/
def muBegin_resize (alloc_ok : Bool) (s : State) (ws_col ws_row : Nat) : Option State :=
  updateWindowSize alloc_ok s (ws_col : Int) ((ws_row : Int) - 1)

/-- `set_clip_rect` of `mukitty.c` (lines 422-432). -/
def set_clip_rect (s : State) (x y w h : Int) : State :=
  if w = 0x1000000 ∧ h = 0x1000000 then
    { s with clip_rect := { s.clip_rect with enabled := false } }
  else
    { s with clip_rect := { x := x, y := y, w := w, h := h, enabled := true } }

/-- The display invariant: the pixel size is the cell size times
`RESW` x `RESH`, and the framebuffer is allocated with
`Config.width * Config.height * 3` bytes. -/
def DisplayInv (s : State) : Prop :=
  s.Config.width = RESW * s.Config.width_chars ∧
  s.Config.height = RESH * s.Config.height_chars ∧
  ∃ buf, s.fb = some buf ∧ (buf.length : Int) = s.Config.width * s.Config.height * 3

/-- One operation on the display state: a resize, a pixel write (every
drawing function of `mukitty.c` changes the state through `crt_set_pixel`
only), a clip command, or a transmission. -/
inductive Op where
  | resize (alloc_ok : Bool) (width height : Int)
  | set_pixel (x y : Int) (color : Nat)
  | set_clip (x y w h : Int)
  | transmit (malloc_ok : Bool)
  deriving DecidableEq, Repr

/-- The effect of one operation; `none` when the operation does not
return. -/
def step (s : State) : Op → Option State
  | Op.resize a w h => updateWindowSize a s w h
  | Op.set_pixel x y c => crt_set_pixel s x y c
  | Op.set_clip x y w h => some (set_clip_rect s x y w h)
  | Op.transmit m => kitty_update_display m s

/-- The effect of a sequence of operations, in order. -/
def run : State → List Op → Option State
  | s, [] => some s
  | s, op :: ops =>
    match step s op with
    | none => none
    | some s' => run s' ops

/-- The action letter of a header `ESC _ G a=<letter>...`. -/
def header_action (hdr : String) : Option Char :=
  match hdr.data with
  | '\x1b' :: '_' :: 'G' :: 'a' :: '=' :: c :: _ => some c
  | _ => none

/-- The state at start-up in the animate (`g = true`) or classic dialect:
no framebuffer, `Config` sizes zero, frame 0. -/
def stateStart (g : Bool) : State :=
  { Config := { ghostty_mode := g, kitty_mode := !g, width_chars := 0,
                height_chars := 0, width := 0, height := 0, render_id := 7 },
    clip_rect := { x := 0, y := 0, w := 0, h := 0, enabled := false },
    fb := none,
    frame_number := 0, out := [], err := [] }

/-- A 4x8 framebuffer (one cell) whose first byte is 255, at frame 1. -/
def stateDrawn : State :=
  { Config := { ghostty_mode := true, kitty_mode := false, width_chars := 1,
                height_chars := 1, width := 4, height := 8, render_id := 7 },
    clip_rect := { x := 0, y := 0, w := 0, h := 0, enabled := false },
    fb := some (255 :: List.replicate 95 0),
    frame_number := 1, out := [], err := [] }

/-- The state after the first resize of `stateStart true` to a 1x1 cell
grid: a black 4x8 framebuffer at frame 0. -/
def stateCell : State :=
  { Config := { ghostty_mode := true, kitty_mode := false, width_chars := 1,
                height_chars := 1, width := 4, height := 8, render_id := 7 },
    clip_rect := { x := 0, y := 0, w := 0, h := 0, enabled := false },
    fb := some (List.replicate 96 0),
    frame_number := 0, out := [], err := [] }

/-- A clip command, a pixel write, a transmission and a resize to 2x1
cells. -/
def opsDemo : List Op :=
  [Op.set_clip 0 0 2 2, Op.set_pixel 1 1 0x102030, Op.transmit true, Op.resize true 2 1]

/-! ## Input decoder: `process_input` -/

/-- The keys of the GUI library that `process_input` reports (`microui.h`). -/
inductive MuKey where
  | MU_KEY_BACKSPACE
  | MU_KEY_RETURN
  deriving DecidableEq, Repr

/-- The mouse buttons of the GUI library (`microui.h`). -/
inductive MuMouse where
  | MU_MOUSE_LEFT
  | MU_MOUSE_MIDDLE
  | MU_MOUSE_RIGHT
  deriving DecidableEq, Repr

/-- One call of an input function of the GUI library: `mu_input_keydown`,
`mu_input_text`, `mu_input_mousemove`, `mu_input_mousedown`,
`mu_input_mouseup`, `mu_input_scroll`. -/
inductive MuInput where
  | keydown (key : MuKey)
  | text (str : List Nat)
  | mousemove (x y : Int)
  | mousedown (x y : Int) (btn : MuMouse)
  | mouseup (x y : Int) (btn : MuMouse)
  | scroll (x y : Int)
  deriving DecidableEq, Repr

/-- The outcome of `process_input`: the value returned (1 requests quit) and
the calls made on the GUI context, in order. -/
structure InputResult where
  ret : Int
  calls : List MuInput
  deriving DecidableEq, Repr

/-- The macro `FONT_SIZE` of `mukitty.c`. -/
def FONT_SIZE : Int := 8

/-- The C function `isprint` in the "C" locale, on a byte. -/
def isprint (c : Nat) : Bool := decide (32 ≤ c ∧ c ≤ 126)

/-- The C function `isspace` in the "C" locale: space, `\t`, `\n`, `\v`,
`\f`, `\r`. -/
def isspace (c : Nat) : Bool := decide (c = 32 ∨ (9 ≤ c ∧ c ≤ 13))

/-- The C function `isdigit`. -/
def isdigit (c : Nat) : Bool := decide (48 ≤ c ∧ c ≤ 57)

/-- The longest run of decimal digits at the start of the input, read as a
number on top of `acc`, and the input left. -/
def scan_digits (acc : Nat) : List Nat → Nat × List Nat
  | c :: cs => if isdigit c = true then scan_digits (acc * 10 + (c - 48)) cs else (acc, c :: cs)
  | [] => (acc, [])

/-- The conversion `%d` of `sscanf`: white space is skipped, then an
optional sign and at least one decimal digit are read.  The result is the
number and the input left, `none` on a matching failure.  The number is
exact (a numeral that does not fit an `int` is undefined behaviour). -/
def scan_int (input : List Nat) : Option (Int × List Nat) :=
  match input.dropWhile (fun c => isspace c) with
  | [] => none
  | c :: cs =>
    if c = 45 then
      match cs with
      | d :: _ =>
        if isdigit d = true then some (-((scan_digits 0 cs).1 : Int), (scan_digits 0 cs).2)
        else none
      | [] => none
    else if c = 43 then
      match cs with
      | d :: _ =>
        if isdigit d = true then some (((scan_digits 0 cs).1 : Int), (scan_digits 0 cs).2)
        else none
      | [] => none
    else if isdigit c = true then
      some (((scan_digits 0 (c :: cs)).1 : Int), (scan_digits 0 (c :: cs)).2)
    else none

/-- The call `sscanf(buf, "\033[<%d;%d;%d%c", &button, &x, &y, &event_type)`
on the C string `cstr`: `some (button, x, y, event_type)` when it returns 4
(all four conversions assigned), `none` otherwise. -/
def sscanf_mouse (cstr : List Nat) : Option (Int × Int × Int × Nat) :=
  match cstr with
  | 27 :: 91 :: 60 :: r0 =>
    match scan_int r0 with
    | some (button, 59 :: r1) =>
      match scan_int r1 with
      | some (x, 59 :: r2) =>
        match scan_int r2 with
        | some (y, event_type :: _) => some (button, x, y, event_type)
        | _ => none
      | _ => none
    | _ => none
  | _ => none

/-- The part of `process_input` after a successful `sscanf` (`mukitty.c`
lines 273-326).  The result is `none` when one of the two divisions is a
division by zero.  The `int` computations `(x - 1) * Config.width` and
`(y - 1) * Config.height` wrap modulo `2 ^ 32` as in the compiled code (C
leaves their overflow undefined); reducing the product once gives the same
value as reducing the difference and the product in turn.  `Int.tdiv` is
the C division, `Int.land` the C `&`; 77 is `'M'`, 109 is `'m'`. -/
def mouse_events (cfg : ConfigT) (button x y : Int) (event_type : Nat) : Option InputResult :=
  if cfg.width_chars = 0 ∨ cfg.height_chars = 0 then none
  else
    let pixel_x := Int.tdiv (to_int32 ((x - 1) * cfg.width)) cfg.width_chars
    let pixel_y := Int.tdiv (to_int32 ((y - 1) * cfg.height)) cfg.height_chars
    let motion : List MuInput :=
      if Int.land button 32 ≠ 0 then [MuInput.mousemove pixel_x pixel_y] else []
    if Int.land button 64 ≠ 0 then
      if button = 64 then some ⟨0, motion ++ [MuInput.scroll 0 (-FONT_SIZE)]⟩
      else if button = 65 then some ⟨0, motion ++ [MuInput.scroll 0 FONT_SIZE]⟩
      else if button = 66 then some ⟨0, motion ++ [MuInput.scroll (-FONT_SIZE) 0]⟩
      else if button = 67 then some ⟨0, motion ++ [MuInput.scroll FONT_SIZE 0]⟩
      else some ⟨0, motion⟩
    else
      let pressed (mu_button : MuMouse) : Option InputResult :=
        if event_type = 77 then
          some ⟨0, motion ++ [MuInput.mousedown pixel_x pixel_y mu_button]⟩
        else if event_type = 109 then
          some ⟨0, motion ++ [MuInput.mouseup pixel_x pixel_y mu_button]⟩
        else some ⟨0, motion⟩
      if Int.land button 3 = 0 then pressed MuMouse.MU_MOUSE_LEFT
      else if Int.land button 3 = 1 then pressed MuMouse.MU_MOUSE_MIDDLE
      else if Int.land button 3 = 2 then pressed MuMouse.MU_MOUSE_RIGHT
      else some ⟨0, motion⟩

/-- `process_input` of `mukitty.c` (lines 226-333) on the bytes `pending` on
standard input: `read` returns at most 63 of them, `buf` is terminated by a
zero byte, and `sscanf` reads it as a C string.  The `LOG` trace lines the
function prints are not modelled.  The result is `none` on a division by
zero. -/
def process_input (cfg : ConfigT) (pending : List Nat) : Option InputResult :=
  if pending.length = 0 then some ⟨0, []⟩
  else
    let buf := pending.take 63
    let nread := buf.length
    if nread = 1 then
      let b := buf.headD 0
      if b = 27 then some ⟨1, []⟩
      else if b = 127 then some ⟨0, [MuInput.keydown MuKey.MU_KEY_BACKSPACE]⟩
      else if isprint b = true then some ⟨0, [MuInput.text [b]]⟩
      else if b = 13 then some ⟨0, [MuInput.keydown MuKey.MU_KEY_RETURN]⟩
      else if b = 3 then some ⟨1, []⟩
      else some ⟨0, []⟩
    else if nread > 5 ∧ buf.take 3 = [27, 91, 60] then
      match sscanf_mouse (buf.takeWhile (fun c => c ≠ 0)) with
      | some (button, x, y, event_type) => mouse_events cfg button x y event_type
      | none => some ⟨0, []⟩
    else some ⟨0, []⟩

/-- A non-empty string of decimal digits. -/
def is_digits (ds : List Nat) : Prop := ds ≠ [] ∧ ∀ c ∈ ds, 48 ≤ c ∧ c ≤ 57

instance (ds : List Nat) : Decidable (is_digits ds) := by
  unfold is_digits
  exact inferInstance

/-- The number a string of decimal digits denotes. -/
def decimal_value (ds : List Nat) : Nat := ds.foldl (fun acc c => acc * 10 + (c - 48)) 0

/-- The SGR mouse report `ESC [ < button ; x ; y final` for the decimal
strings `bs`, `xs`, `ys`. -/
def sgr_chunk (bs xs ys : List Nat) (final : Nat) : List Nat :=
  [27, 91, 60] ++ bs ++ [59] ++ xs ++ [59] ++ ys ++ [final]

/-- A display of 20x10 cells, 80x80 pixels (4x8 pixels per cell). -/
def configCells : ConfigT :=
  { ghostty_mode := true, kitty_mode := false, width_chars := 20,
    height_chars := 10, width := 80, height := 80, render_id := 7 }

/-- A display of 80x24 cells, 320x192 pixels. -/
def configEighty : ConfigT :=
  { ghostty_mode := true, kitty_mode := false, width_chars := 80,
    height_chars := 24, width := 320, height := 192, render_id := 7 }

/-- A display of 30000x1 cells, 120000x8 pixels (a framebuffer of 2880000
bytes). -/
def configWide : ConfigT :=
  { ghostty_mode := true, kitty_mode := false, width_chars := 30000,
    height_chars := 1, width := 120000, height := 8, render_id := 7 }

/-- The pixel position a GUI call carries: mouse moves, presses and releases
have one, key, text and scroll calls have none. -/
def event_position : MuInput → Option (Int × Int)
  | MuInput.mousemove x y => some (x, y)
  | MuInput.mousedown x y _ => some (x, y)
  | MuInput.mouseup x y _ => some (x, y)
  | _ => none

/-- A text the conversion `%d` accepts in full: optional white space, an
optional sign, and at least one decimal digit. -/
def int_text (t : List Nat) : Prop :=
  ∃ ws sg ds, t = ws ++ sg ++ ds ∧ (∀ c ∈ ws, isspace c = true) ∧
    (sg = [] ∨ sg = [43] ∨ sg = [45]) ∧ is_digits ds

/-- The C string begins with a match of the format `ESC [ < int ; int ; int
char`: three texts `%d` accepts, separated by `;`, and one more character,
which ends the third number (it is not a digit). -/
def matches_mouse_format (cstr : List Nat) : Prop :=
  ∃ b x y c rest, int_text b ∧ int_text x ∧ int_text y ∧ isdigit c = false ∧
    cstr = [27, 91, 60] ++ b ++ [59] ++ x ++ [59] ++ y ++ [c] ++ rest

/-! ## Rasterizer: `draw_rectangle`, `draw_char`, `draw_text` -/

/-- A loop body run for the indices of a list, in order; `none` as soon as
one run of the body is `none`. -/
def loop_over {σ : Type} : List Nat → (Nat → σ → Option σ) → σ → Option σ
  | [], _, s => some s
  | i :: rest, body, s =>
    match body i s with
    | none => none
    | some s' => loop_over rest body s'

/-- The loop `for (i = 0; i < n; i++) body`. -/
def for_loop {σ : Type} (n : Nat) (body : Nat → σ → Option σ) (s : σ) : Option σ :=
  loop_over (List.range n) body s

/-- `draw_rectangle` of `mukitty.c` (lines 372-378): `i` runs below `h` and
`j` below `w`; there is no iteration when the bound is not positive. -/
def draw_rectangle (s : State) (x y w h : Int) (color : Nat) : Option State :=
  for_loop h.toNat (fun i s1 =>
    for_loop w.toNat (fun j s2 => crt_set_pixel s2 (x + j) (y + i) color) s1) s

/-- The character code `draw_char` looks up: `ch = (uint8_t)c`, replaced by
32 (space) when it is above 126. -/
def glyph_code (c : Int) : Nat :=
  if (c % 256).toNat > 126 then 32 else (c % 256).toNat

/-- The two loops of `draw_char` of `mukitty.c` (lines 388-395) for the
8 row bytes `glyph` of one character: bit `0x80 >> col` of row byte `row`
sets pixel (x + col, y + row). -/
def draw_glyph (glyph : Nat → Nat) (s : State) (x y : Int) (color : Nat) : Option State :=
  for_loop 8 (fun row s1 =>
    for_loop 8 (fun col s2 =>
      if glyph row &&& (0x80 >>> col) ≠ 0 then crt_set_pixel s2 (x + col) (y + row) color
      else some s2) s1) s

/-- `draw_char` of `mukitty.c` (lines 380-396).  The table `font_8x8` of
`c64_font.h`, which is not among the sources, is the parameter `font`:
`font ch row` is the byte `font_8x8[ch][row]`. -/
def draw_char (font : Nat → Nat → Nat) (s : State) (x y : Int) (c : Int) (color : Nat) :
    Option State :=
  draw_glyph (font (glyph_code c)) s x y color

/-- The `while` loop of `draw_text` of `mukitty.c` (lines 404-413) at cursor
(`current_x`, `current_y`) on the characters left; a zero character ends
the string; 10 is `'\n'`. -/
def draw_text_loop (font : Nat → Nat → Nat) (x : Int) (color : Nat) :
    State → Int → Int → List Int → Option State
  | s, _, _, [] => some s
  | s, current_x, current_y, c :: str =>
    if c = 0 then some s
    else if c = 10 then draw_text_loop font x color s x (current_y + 8) str
    else
      match draw_char font s current_x current_y c color with
      | none => none
      | some s' => draw_text_loop font x color s' (current_x + 8) current_y str

/-- `draw_text` of `mukitty.c` (lines 398-414); `none` is the `NULL`
string. -/
def draw_text (font : Nat → Nat → Nat) (s : State) (x y : Int) (str : Option (List Int))
    (color : Nat) : Option State :=
  match str with
  | none => some s
  | some cs => draw_text_loop font x color s x y cs

/-- The `draw_char` calls of `draw_text` of `mukitty.c`, in order: cursor
position and character. -/
def draw_text_calls (x : Int) : Int → Int → List Int → List (Int × Int × Int)
  | _, _, [] => []
  | current_x, current_y, c :: str =>
    if c = 0 then []
    else if c = 10 then draw_text_calls x x (current_y + 8) str
    else (current_x, current_y, c) :: draw_text_calls x (current_x + 8) current_y str

/-! ### The shell `main.c` -/

/-- The macro `SCREEN_W` of `main.c`. -/
def SCREEN_W : Int := 400

/-- The macro `SCREEN_H` of `main.c`. -/
def SCREEN_H : Int := 300

/-- The loops of `draw_char` of `main.c` (lines 347-360) for the row bytes
`glyph`: each set bit is a `size` x `size` block of pixels.  `size` is a
`uint32_t`, so the coordinates are computed modulo `2 ^ 32`. -/
def draw_glyph_main (glyph : Nat → Nat) (fb : List Nat) (x y : Int) (size color : Nat) :
    Option (List Nat) :=
  for_loop 8 (fun row fb1 =>
    for_loop 8 (fun col fb2 =>
      if glyph row &&& (0x80 >>> col) ≠ 0 then
        for_loop size (fun dy fb3 =>
          for_loop size (fun dx fb4 =>
            crt_set_pixel_main SCREEN_W SCREEN_H fb4
              (to_int32 (x + col * size + dx)) (to_int32 (y + row * size + dy)) color) fb3) fb2
      else some fb2) fb1) fb

/-- `draw_char` of `main.c` (lines 337-361); `font` is the table `font_8x8`
of `font.h`, which is not among the sources. -/
def draw_char_main (font : Nat → Nat → Nat) (fb : List Nat) (x y : Int) (c : Int)
    (size color : Nat) : Option (List Nat) :=
  draw_glyph_main (font (glyph_code c)) fb x y size color

/-- The `while` loop of `draw_text` of `main.c` (lines 374-399) at cursor
(`current_x`, `current_y`); `char_width` and `char_height` are `8 * size`
converted to `int`; 10 is `'\n'`, 13 is `'\r'`.  After each character the
loop ends when `current_y + char_height > SCREEN_H`. -/
def draw_text_main_loop (font : Nat → Nat → Nat) (x : Int) (size color : Nat) :
    List Nat → Int → Int → List Int → Option (List Nat)
  | fb, _, _, [] => some fb
  | fb, current_x, current_y, c :: str =>
    if c = 0 then some fb
    else
      let char_width := to_int32 (8 * size)
      let char_height := to_int32 (8 * size)
      let stepped : Option (List Nat × Int × Int) :=
        if c = 10 then some (fb, x, current_y + char_height)
        else if c = 13 then some (fb, x, current_y)
        else
          match draw_char_main font fb current_x current_y c size color with
          | none => none
          | some fb' =>
            if current_x + char_width + char_width > SCREEN_W then
              some (fb', x, current_y + char_height)
            else some (fb', current_x + char_width, current_y)
      match stepped with
      | none => none
      | some (fb', cx, cy) =>
        if cy + char_height > SCREEN_H then some fb'
        else draw_text_main_loop font x size color fb' cx cy str

/-- `draw_text` of `main.c` (lines 364-400); `none` is the `NULL` string. -/
def draw_text_main (font : Nat → Nat → Nat) (fb : List Nat) (x y : Int)
    (str : Option (List Int)) (size color : Nat) : Option (List Nat) :=
  match str with
  | none => some fb
  | some cs => draw_text_main_loop font x size color fb x y cs

/-- The `draw_char` calls of `draw_text` of `main.c`, in order: cursor
position and character. -/
def draw_text_main_calls (x : Int) (size : Nat) : Int → Int → List Int → List (Int × Int × Int)
  | _, _, [] => []
  | current_x, current_y, c :: str =>
    if c = 0 then []
    else
      let char_width := to_int32 (8 * size)
      let char_height := to_int32 (8 * size)
      if c = 10 then
        if current_y + char_height + char_height > SCREEN_H then []
        else draw_text_main_calls x size x (current_y + char_height) str
      else if c = 13 then
        if current_y + char_height > SCREEN_H then []
        else draw_text_main_calls x size x current_y str
      else
        (current_x, current_y, c) ::
          (if current_x + char_width + char_width > SCREEN_W then
            (if current_y + char_height + char_height > SCREEN_H then []
             else draw_text_main_calls x size x (current_y + char_height) str)
           else
            (if current_y + char_height > SCREEN_H then []
             else draw_text_main_calls x size (current_x + char_width) current_y str))

/-- A list of `draw_char` calls of `mukitty.c` run in order. -/
def draw_calls (font : Nat → Nat → Nat) (color : Nat) :
    State → List (Int × Int × Int) → Option State
  | s, [] => some s
  | s, call :: rest =>
    match draw_char font s call.1 call.2.1 call.2.2 color with
    | none => none
    | some s' => draw_calls font color s' rest

/-- A list of `draw_char` calls of `main.c` run in order. -/
def draw_calls_main (font : Nat → Nat → Nat) (size color : Nat) :
    List Nat → List (Int × Int × Int) → Option (List Nat)
  | fb, [] => some fb
  | fb, call :: rest =>
    match draw_char_main font fb call.1 call.2.1 call.2.2 size color with
    | none => none
    | some fb' => draw_calls_main font size color fb' rest

/-- A black framebuffer of `SCREEN_W * SCREEN_H * 3` bytes, the size `main.c`
allocates. -/
def screenBlack : List Nat := List.replicate 360000 0

/-! ## The base64 encoding of RFC 4648 -/

/-- The character of a 6-bit value in the base64 alphabet of RFC 4648
(table 1), written from the standard and not from the source: 0..25 are
`A`..`Z`, 26..51 are `a`..`z`, 52..61 are `0`..`9`, 62 is `+`, 63 is `/`. -/
def rfc4648_char (v : Nat) : Nat :=
  if v < 26 then 65 + v
  else if v < 52 then 97 + (v - 26)
  else if v < 62 then 48 + (v - 52)
  else if v = 62 then 43
  else 47

/-- The base64 encoding of RFC 4648 (section 4), written from the standard
and not from the source: three input bytes form a 24-bit group that is read
as four 6-bit values; a final group of 16 bits is padded with two zero bits
and gives three characters and one `=`; a final group of 8 bits is padded
with four zero bits and gives two characters and `==`. -/
def rfc4648_encode : List Nat → List Nat
  | a :: b :: c :: rest =>
    let group := a * 65536 + b * 256 + c
    rfc4648_char (group / 262144) :: rfc4648_char (group / 4096 % 64)
      :: rfc4648_char (group / 64 % 64) :: rfc4648_char (group % 64) :: rfc4648_encode rest
  | [a, b] =>
    let group := (a * 256 + b) * 4
    [rfc4648_char (group / 4096), rfc4648_char (group / 64 % 64), rfc4648_char (group % 64), 0x3D]
  | [a] =>
    let group := a * 16
    [rfc4648_char (group / 64), rfc4648_char (group % 64), 0x3D, 0x3D]
  | [] => []

/-! ## Start-up: `init_config` -/

/-- The C function `strstr` as a test: `true` when it returns a pointer,
`false` when it returns `NULL`.  The needle is looked for at every position
of the haystack, the end included. -/
def strstr : List Char → List Char → Bool
  | [], needle => needle.isEmpty
  | c :: rest, needle => needle.isPrefixOf (c :: rest) || strstr rest needle

/-- The text `needle` occurs in the text `t`. -/
def occurs_in (needle t : String) : Prop :=
  ∃ pre post, t.data = pre ++ needle.data ++ post

/-- How `init_config` ends: it returns, or it ends the process through
`exit(status)`. -/
inductive InitOutcome where
  | returned (s : State)
  | exited (status : Int) (s : State)
  deriving DecidableEq, Repr

/-- `init_config` of `mukitty.c` (lines 352-366).  `term` is the result of
`getenv("TERM")` (`none` for `NULL`), `rand` the number `rand()` returns.
For a `NULL` pointer the `%s` of the error message is shown as `(null)`. -/
def init_config (term : Option String) (rand : Nat) (s : State) : InitOutcome :=
  let s1 : State := { s with Config := { s.Config with render_id := rand } }
  match term with
  | none =>
    InitOutcome.exited 1
      { s1 with err := s1.err ++ ["Error: Unsupported terminal type '(null)'.\n"] }
  | some t =>
    if strstr t.data "ghostty".data = true then
      InitOutcome.returned
        { s1 with Config := { s1.Config with ghostty_mode := true, kitty_mode := false } }
    else if strstr t.data "kitty".data = true then
      InitOutcome.returned
        { s1 with Config := { s1.Config with ghostty_mode := false, kitty_mode := true } }
    else
      InitOutcome.exited 1
        { s1 with err := s1.err ++ ["Error: Unsupported terminal type '" ++ t ++ "'.\n"] }

/-- One of the 64 characters of the base64 alphabet: `A`-`Z`, `a`-`z`,
`0`-`9`, `+` (43) or `/` (47). -/
def is_base64_char (c : Nat) : Prop :=
  (65 ≤ c ∧ c ≤ 90) ∨ (97 ≤ c ∧ c ≤ 122) ∨ (48 ≤ c ∧ c ≤ 57) ∨ c = 43 ∨ c = 47

instance (c : Nat) : Decidable (is_base64_char c) := by
  unfold is_base64_char
  exact inferInstance

/-- The call is `mu_input_mousemove`. -/
def is_mousemove : MuInput → Bool
  | MuInput.mousemove _ _ => true
  | _ => false

/-- The call is `mu_input_mousedown`, `mu_input_mouseup` or
`mu_input_scroll`. -/
def is_button_or_scroll : MuInput → Bool
  | MuInput.mousedown _ _ _ => true
  | MuInput.mouseup _ _ _ => true
  | MuInput.scroll _ _ => true
  | _ => false

/-- The state of `mukitty.c` when the module is loaded: every static object
is zero (`Config` all zero, `clip_rect = {0}`, `fb = NULL`,
`frame_number = 0`) and nothing has been written. -/
def stateZero : State :=
  { Config := { ghostty_mode := false, kitty_mode := false, width_chars := 0,
                height_chars := 0, width := 0, height := 0, render_id := 0 },
    clip_rect := { x := 0, y := 0, w := 0, h := 0, enabled := false },
    fb := none,
    frame_number := 0, out := [], err := [] }

/-- The call `process_input(&ctx)` of `handleInputs` (`mukitty.c` line 649)
in state `s`, on the bytes pending on standard input. -/
def handleInputs (s : State) (pending : List Nat) : Option InputResult :=
  process_input s.Config pending

/-! ## Reading a framebuffer -/

/-- The three bytes of pixel (`px`, `py`) in a framebuffer whose rows are
`w` pixels wide: the bytes at offset `px * 3 + py * w * 3`. -/
def pixel_at (w : Int) (buf : List Nat) (px py : Int) : List Nat :=
  [buf.getD (px * 3 + py * w * 3).toNat 0,
   buf.getD ((px * 3 + py * w * 3).toNat + 1) 0,
   buf.getD ((px * 3 + py * w * 3).toNat + 2) 0]

/-- The three bytes `crt_set_pixel` stores for `color`: red, green, blue. -/
def color_rgb (color : Nat) : List Nat :=
  [(color >>> 16) &&& 0xff, (color >>> 8) &&& 0xff, color &&& 0xff]

/-- The buffer `new` is the buffer `old` of a `w` x `h` framebuffer with
the pixels of `A` set to `color`: the lengths agree, every pixel of `A`
inside the framebuffer holds the colour, and every other pixel inside the
framebuffer holds what it held in `old`. -/
def Painted (w h : Int) (color : Nat) (A : Int → Int → Prop) (old new : List Nat) : Prop :=
  new.length = old.length ∧
  ∀ px py, 0 ≤ px → px < w → 0 ≤ py → py < h →
    (A px py → pixel_at w new px py = color_rgb color) ∧
    (¬ A px py → pixel_at w new px py = pixel_at w old px py)

/-- One `ArenaRegion` of `arena.c`: the fields `count` and `capacity` and
the bytes of the flexible array `items` that the allocation of the region
holds.  The field `next` is the order of the list of regions. -/
structure ArenaRegion where
  count : Nat
  capacity : Nat
  items : List Nat
  deriving DecidableEq, Repr

/-- The `ArenaAllocator` of `arena.c`: the regions from `start` to `end` in
list order; the empty list is `start = end = NULL`. -/
structure ArenaAllocator where
  regions : List ArenaRegion
  deriving DecidableEq, Repr

/-- A pointer into the arena: the index of the region and the byte offset
in its `items`. -/
structure ArenaPtr where
  region : Nat
  offset : Nat
  deriving DecidableEq, Repr

/-- The value of `sizeof(ArenaRegion)`: two `size_t` and one pointer of 8
bytes each. -/
def REGION_HEADER : Nat := 24

/-- The macro `ALL_REGION_MIN_SIZE` of `arena.c`:
`4096 - sizeof(ArenaRegion)`. -/
def ALL_REGION_MIN_SIZE : Nat := 4096 - REGION_HEADER

/-- The rounding of `armalloc` (line 22):
`(size + sizeof(uintptr_t) - 1) & ~(sizeof(uintptr_t) - 1)` in `size_t`
arithmetic, `sizeof(uintptr_t)` being 8. -/
def round_size (size : Nat) : Nat := ((size + 7) % 2 ^ 64) &&& 0xFFFFFFFFFFFFFFF8

/-- The call `malloc(n)` of `armalloc`: `malloc_ok` tells whether the
allocator returns a block, a request of `2 ^ 63` bytes or more never
succeeds; the block holds the arbitrary bytes `junk 0`, `junk 1`, ... -/
def malloc_block (malloc_ok : Bool) (junk : Nat → Nat) (n : Nat) : Option (List Nat) :=
  if malloc_ok = true ∧ n < 2 ^ 63 then some ((List.range n).map junk) else none

/-- Lines 37-40 of `armalloc` on the last region `a->end`: the pointer is
`items + count`, `count` grows by `size`, and `memset` clears `size` bytes
at the pointer.  The result is `none` when `memset` writes outside the bytes
of the region. -/
def arena_take (regions : List ArenaRegion) (size : Nat) :
    Option (Option ArenaPtr × ArenaAllocator) :=
  match regions.getLast? with
  | none => none
  | some e =>
    if e.count + size ≤ e.items.length then
      some (some ⟨regions.length - 1, e.count⟩,
        ⟨regions.dropLast ++ [{ e with
          count := (e.count + size) % 2 ^ 64,
          items := e.items.take e.count ++ List.replicate size 0
            ++ e.items.drop (e.count + size) }]⟩)
    else none

/-- The region `armalloc` sets up in a block of `region_size` bytes (lines
27-29): `count = 0`, `capacity = region_size - sizeof(ArenaRegion)`, and the
bytes after the header as `items`. -/
def fresh_region (region_size : Nat) (block : List Nat) : ArenaRegion :=
  { count := 0,
    capacity := (region_size + 2 ^ 64 - REGION_HEADER) % 2 ^ 64,
    items := block.drop REGION_HEADER }

/-- `armalloc` of `arena.c` (lines 20-41).  The result is the pointer
returned (`none` for `NULL`) and the arena afterwards; it is `none` when the
block `malloc` returned is smaller than the header written to it, or when
`memset` writes outside the region. -/
def armalloc (malloc_ok : Bool) (junk : Nat → Nat) (a : ArenaAllocator) (size : Nat) :
    Option (Option ArenaPtr × ArenaAllocator) :=
  if size = 0 then some (none, a)
  else
    let size1 := round_size size
    let full : Bool :=
      match a.regions.getLast? with
      | none => true
      | some e => decide ((e.count + size1) % 2 ^ 64 > e.capacity)
    if full = true then
      let region_size :=
        (REGION_HEADER + (if size1 > ALL_REGION_MIN_SIZE then size1 else ALL_REGION_MIN_SIZE))
          % 2 ^ 64
      match malloc_block malloc_ok junk region_size with
      | none => some (none, a)
      | some block =>
        if block.length < REGION_HEADER then none
        else
          arena_take (a.regions ++ [fresh_region region_size block]) size1
    else arena_take a.regions size1

/-- `arfree` of `arena.c` (lines 43-51): every region is freed and the
arena is empty again. -/
def arfree (_a : ArenaAllocator) : ArenaAllocator := ⟨[]⟩

/-- The bytes of the block of `size` bytes at a pointer, `none` when the
block does not lie inside the bytes of its region. -/
def block_bytes (a : ArenaAllocator) (p : ArenaPtr) (size : Nat) : Option (List Nat) :=
  match a.regions[p.region]? with
  | none => none
  | some r =>
    if p.offset + size ≤ r.items.length then some ((r.items.drop p.offset).take size)
    else none

/-- Every region of the arena is consistent: `count` does not exceed
`capacity`, `capacity` is the number of bytes of `items`, and the region is
smaller than `2 ^ 63` bytes. -/
def ArenaWF (a : ArenaAllocator) : Prop :=
  ∀ r ∈ a.regions, r.count ≤ r.capacity ∧ r.capacity = r.items.length ∧ r.capacity < 2 ^ 63

/-- The arena `a2` is the arena `a1` after a block of `n` bytes at `p` has
been handed out: the block lies in the last region, between the old and the
new `count` of that region and inside its `capacity`; it is zero-filled;
every region of `a1` is still there with the bytes below its old `count`
(where the blocks handed out earlier lie) unchanged, and in the region of
`p` the old `count` is at most the offset of `p`. -/
def BlockGranted (a1 a2 : ArenaAllocator) (p : ArenaPtr) (n : Nat) : Prop :=
  p.region + 1 = a2.regions.length ∧
  block_bytes a2 p n = some (List.replicate n 0) ∧
  (∃ r, a2.regions[p.region]? = some r ∧ r.count = p.offset + n ∧ r.count ≤ r.capacity) ∧
  (∀ i r1, a1.regions[i]? = some r1 →
    ∃ r2, a2.regions[i]? = some r2 ∧ r2.items.take r1.count = r1.items.take r1.count ∧
      (i = p.region → r1.count ≤ p.offset))

/-! ## Theorems -/

/-! ### `crt_set_pixel` -/

theorem store3_length (buf : List Nat) (off r g b : Nat) :
    (store3 buf off r g b).length = buf.length := by
  simp [store3]

theorem store3_get_other (buf : List Nat) (off r g b i : Nat)
    (h0 : i ≠ off) (h1 : i ≠ off + 1) (h2 : i ≠ off + 2) :
    (store3 buf off r g b)[i]? = buf[i]? := by
  simp [store3, List.getElem?_set, Ne.symm h0, Ne.symm h1, Ne.symm h2]

theorem store3_get_stored (buf : List Nat) (off r g b : Nat)
    (h : off + 3 ≤ buf.length) :
    (store3 buf off r g b)[off]? = some r ∧
    (store3 buf off r g b)[off + 1]? = some g ∧
    (store3 buf off r g b)[off + 2]? = some b := by
  have h0 : off < buf.length := by omega
  have h1 : off + 1 < buf.length := by omega
  have h2 : off + 2 < buf.length := by omega
  simp [store3, List.getElem?_set, h0, h1, h2]

/-- The byte offset of an in-bounds pixel lies inside a framebuffer of
`width * height * 3` bytes. -/
theorem pixel_offset_bounds (w h x y : Int) (hx : 0 ≤ x) (hxw : x < w)
    (hy : 0 ≤ y) (hyh : y < h) :
    0 ≤ x * 3 + y * w * 3 ∧ x * 3 + y * w * 3 + 3 ≤ w * h * 3 := by
  have hw : 0 ≤ w := by omega
  have h1 : 0 ≤ y * w := mul_nonneg hy hw
  have h2 : y * w ≤ (h - 1) * w := mul_le_mul_of_nonneg_right (by omega) hw
  constructor
  · nlinarith
  · nlinarith

/-- C1 (code at the failing input): in `mukitty.c`, with clipping disabled on
a 4x2 framebuffer, `crt_set_pixel(-1, 1, 0xFFFFFF)` (x < 0, outside the
framebuffer) stores three bytes at offset 9, the pixel (3,0), and
`crt_set_pixel(-1, 0, 0xFFFFFF)` stores before the start of the buffer; the
sibling `crt_set_pixel` of `main.c` leaves the buffer unchanged on the same
input. -/
theorem crt_set_pixel_negative_x_stores :
    crt_set_pixel stateNeg (-1) 1 0xFFFFFF =
      some { stateNeg with
        fb := some ([0,0,0,0,0,0,0,0,0,255,255,255,0,0,0,0,0,0,0,0,0,0,0,0]) } ∧
    crt_set_pixel stateNeg (-1) 0 0xFFFFFF = none ∧
    crt_set_pixel_main 4 2 (List.replicate 24 0) (-1) 1 0xFFFFFF =
      some (List.replicate 24 0) := by
  decide

/-- C2: whenever `clip_rect.enabled` is true, for every (x,y) left of, above,
right of or below the clip rectangle, `crt_set_pixel` returns with the
whole state, and so the whole framebuffer, unchanged; no bound on (x,y) is
assumed, so this holds also inside the framebuffer bounds. -/
theorem crt_set_pixel_outside_clip (s : State) (x y : Int) (color : Nat)
    (hen : s.clip_rect.enabled = true)
    (hout : x < s.clip_rect.x ∨ y < s.clip_rect.y ∨
      x ≥ s.clip_rect.x + s.clip_rect.w ∨ y ≥ s.clip_rect.y + s.clip_rect.h) :
    crt_set_pixel s x y color = some s := by
  unfold crt_set_pixel
  split
  · rfl
  · rw [if_pos ⟨hen, hout⟩]

/-- Witness of C2: pixel (3,1) lies inside the 4x2 framebuffer and right of
the clip rectangle (0,0,2,2). -/
theorem crt_set_pixel_outside_clip_witness :
    ((0 : Int) ≤ 3 ∧ (3 : Int) < stateClip.Config.width ∧
      (0 : Int) ≤ 1 ∧ (1 : Int) < stateClip.Config.height) ∧
    crt_set_pixel stateClip 3 1 0xFFFFFF = some stateClip :=
  ⟨by decide, crt_set_pixel_outside_clip stateClip 3 1 0xFFFFFF (by decide) (by decide)⟩

theorem base64_loop_done (data : List Nat) (n fuel i : Nat) (enc : List Nat) (h : n ≤ i) :
    base64_loop data n fuel i enc = enc := by
  cases fuel with
  | zero => rfl
  | succ f => simp [base64_loop, Nat.not_lt.mpr h]

theorem getD_append_at (pre rest : List Nat) (k : Nat) :
    (pre ++ rest).getD (pre.length + k) 0 = rest.getD k 0 := by
  rw [List.getD_append_right _ _ _ _ (by omega)]
  congr 1
  omega

theorem base64_loop_eq : ∀ (fuel : Nat) (pre rest enc : List Nat), rest.length ≤ fuel →
    base64_loop (pre ++ rest) (pre.length + rest.length) fuel pre.length enc
      = enc ++ encode_groups rest := by
  intro fuel
  induction fuel with
  | zero =>
    intro pre rest enc h
    have : rest = [] := List.length_eq_zero.mp (by omega)
    subst this
    simp [base64_loop, encode_groups]
  | succ f ih =>
    intro pre rest enc h
    match rest, h with
    | [], _ => simp [base64_loop, encode_groups]
    | [a], _ =>
      have e0 := getD_append_at pre [a] 0
      simp only [Nat.add_zero] at e0
      have hlt0 : pre.length < pre.length + [a].length := by simp
      have hlt1 : ¬ pre.length + 1 < pre.length + [a].length := by simp
      have hlt2 : ¬ pre.length + 2 < pre.length + [a].length := by simp
      rw [base64_loop]
      simp only [hlt0, hlt1, hlt2, if_true, if_false, e0, List.getD_cons_zero]
      rw [base64_loop_done _ _ _ _ _ (by simp)]
      simp [encode_groups, encode_group]
    | [a, b], _ =>
      have e0 := getD_append_at pre [a, b] 0
      have e1 := getD_append_at pre [a, b] 1
      simp only [Nat.add_zero] at e0
      have hlt0 : pre.length < pre.length + [a, b].length := by simp
      have hlt1 : pre.length + 1 < pre.length + [a, b].length := by simp
      have hlt2 : ¬ pre.length + 2 < pre.length + [a, b].length := by simp
      rw [base64_loop]
      simp only [hlt0, hlt1, hlt2, if_true, if_false, e0, e1, List.getD_cons_zero,
        List.getD_cons_succ]
      rw [base64_loop_done _ _ _ _ _ (by simp)]
      simp [encode_groups, encode_group]
    | a :: b :: c :: r, h =>
      have e0 := getD_append_at pre (a :: b :: c :: r) 0
      have e1 := getD_append_at pre (a :: b :: c :: r) 1
      have e2 := getD_append_at pre (a :: b :: c :: r) 2
      simp only [Nat.add_zero] at e0
      have hr : r.length ≤ f := by simp at h; omega
      have key := ih (pre ++ [a, b, c]) r
        (enc ++ encode_group a b c true true) hr
      have hl : (pre ++ [a, b, c]).length = pre.length + 3 := by simp
      have hd : pre ++ [a, b, c] ++ r = pre ++ a :: b :: c :: r := by simp
      have hn : (pre ++ [a, b, c]).length + r.length
          = pre.length + (a :: b :: c :: r).length := by simp; omega
      rw [hl] at key
      rw [show pre.length + 3 + r.length = pre.length + (a :: b :: c :: r).length from by
        simp; omega, hd] at key
      have hlt0 : pre.length < pre.length + (a :: b :: c :: r).length := by simp
      have hlt1 : pre.length + 1 < pre.length + (a :: b :: c :: r).length := by simp
      have hlt2 : pre.length + 2 < pre.length + (a :: b :: c :: r).length := by simp
      rw [base64_loop]
      simp only [hlt0, hlt1, hlt2, if_true, e0, e1, e2, List.getD_cons_zero,
        List.getD_cons_succ]
      simp only [encode_group, if_true] at key
      rw [key]
      simp [encode_groups, encode_group]

/-- `base64_encode` on a whole buffer is `encode_groups`. -/
theorem base64_encode_eq (data : List Nat) :
    base64_encode data data.length = encode_groups data := by
  have := base64_loop_eq data.length [] data [] le_rfl
  simpa [base64_encode] using this

/-- Every entry of `base64_table` is decoded to its index by the standard
alphabet, and none is the padding character `=`. -/
theorem table_value : ∀ v, v < 64 →
    rfc4648_value (base64_table.getD v 0) = some v ∧ base64_table.getD v 0 ≠ 0x3D := by
  decide

/-- The four 6-bit indices the loop body extracts from three octets. -/
theorem sextets (a b c : Nat) (ha : a < 256) (hb : b < 256) (hc : c < 256) :
    ((((a <<< 16) + (b <<< 8) + c) % 2 ^ 32) >>> 18) &&& 0x3F = a / 4 ∧
    ((((a <<< 16) + (b <<< 8) + c) % 2 ^ 32) >>> 12) &&& 0x3F = a % 4 * 16 + b / 16 ∧
    ((((a <<< 16) + (b <<< 8) + c) % 2 ^ 32) >>> 6) &&& 0x3F = b % 16 * 4 + c / 64 ∧
    (((a <<< 16) + (b <<< 8) + c) % 2 ^ 32) &&& 0x3F = c % 64 := by
  have e : (0x3F : Nat) = 2 ^ 6 - 1 := by norm_num
  simp only [Nat.shiftLeft_eq, Nat.shiftRight_eq_div_pow, e, Nat.and_pow_two_sub_one_eq_mod]
  norm_num
  omega

theorem encode_group_eq (a b c : Nat) (hb' hc' : Bool)
    (ha : a < 256) (hb : b < 256) (hc : c < 256) :
    encode_group a b c hb' hc' =
      [base64_table.getD (a / 4) 0, base64_table.getD (a % 4 * 16 + b / 16) 0,
       if hb' = true then base64_table.getD (b % 16 * 4 + c / 64) 0 else 0x3D,
       if hc' = true then base64_table.getD (c % 64) 0 else 0x3D] := by
  obtain ⟨e0, e1, e2, e3⟩ := sextets a b c ha hb hc
  simp only [encode_group, e0, e1, e2, e3]

theorem decode_encode_groups : ∀ data : List Nat, (∀ x ∈ data, x < 256) →
    rfc4648_decode (encode_groups data) = some data
  | [], _ => by simp [encode_groups, rfc4648_decode]
  | [a], h => by
    have ha : a < 256 := h a (by simp)
    obtain ⟨v0, n0⟩ := table_value (a / 4) (by omega)
    obtain ⟨v1, n1⟩ := table_value (a % 4 * 16 + 0 / 16) (by omega)
    rw [encode_groups, encode_group_eq a 0 0 false false ha (by omega) (by omega)]
    simp only [rfc4648_decode, v0, v1]
    simp
    omega
  | [a, b], h => by
    have ha : a < 256 := h a (by simp)
    have hb : b < 256 := h b (by simp)
    obtain ⟨v0, n0⟩ := table_value (a / 4) (by omega)
    obtain ⟨v1, n1⟩ := table_value (a % 4 * 16 + b / 16) (by omega)
    obtain ⟨v2, n2⟩ := table_value (b % 16 * 4 + 0 / 64) (by omega)
    rw [encode_groups, encode_group_eq a b 0 true false ha hb (by omega)]
    simp only [rfc4648_decode, v0, v1, v2, if_true]
    have n2' : ¬ base64_table[b % 16 * 4]?.getD 0 = 61 := by simpa using n2
    simp [n2']
    omega
  | a :: b :: c :: rest, h => by
    have ha : a < 256 := h a (by simp)
    have hb : b < 256 := h b (by simp)
    have hc : c < 256 := h c (by simp)
    have ih := decode_encode_groups rest (fun x hx => h x (by simp [hx]))
    obtain ⟨v0, n0⟩ := table_value (a / 4) (by omega)
    obtain ⟨v1, n1⟩ := table_value (a % 4 * 16 + b / 16) (by omega)
    obtain ⟨v2, n2⟩ := table_value (b % 16 * 4 + c / 64) (by omega)
    obtain ⟨v3, n3⟩ := table_value (c % 64) (by omega)
    rw [encode_groups, encode_group_eq a b c true true ha hb hc]
    simp only [if_true, List.cons_append, List.nil_append, rfc4648_decode, v0, v1, v2, v3,
      if_neg n3]
    simp [ih]
    omega

/-- C4: for every byte sequence (every element below 256), of every length,
decoding the output of `base64_encode` with the standard base64 decoder
`rfc4648_decode` gives back exactly the original bytes. -/
theorem base64_roundtrip (data : List Nat) (hbytes : ∀ x ∈ data, x < 256) :
    rfc4648_decode (base64_encode data data.length) = some data := by
  rw [base64_encode_eq]
  exact decode_encode_groups data hbytes

/-- Witness of C4: the four bytes 77, 97, 110, 255 (one full group and one
padded group). -/
theorem base64_roundtrip_witness :
    (∀ x ∈ [77, 97, 110, 255], x < 256) ∧
    rfc4648_decode (base64_encode [77, 97, 110, 255] [77, 97, 110, 255].length)
      = some [77, 97, 110, 255] :=
  ⟨by decide, base64_roundtrip [77, 97, 110, 255] (by decide)⟩

/-! ### `kitty_update_display` -/

theorem base64_loop_length (data : List Nat) (n : Nat) : ∀ (fuel i : Nat) (enc : List Nat),
    n - i ≤ fuel →
    (base64_loop data n fuel i enc).length = enc.length + 4 * ((n - i + 2) / 3) := by
  intro fuel
  induction fuel with
  | zero =>
    intro i enc h
    have : n - i = 0 := by omega
    simp [base64_loop, this]
  | succ f ih =>
    intro i enc h
    rw [base64_loop]
    by_cases hi : i < n
    · rw [if_pos hi]
      simp only []
      rw [ih (i + 3) _ (by omega)]
      simp only [List.length_append, List.length_cons, List.length_nil]
      omega
    · rw [if_neg hi]
      have : n - i = 0 := by omega
      simp [this]

/-- `base64_encode` writes `4 * ceil(input_length / 3)` characters. -/
theorem base64_encode_length (data : List Nat) (n : Nat) :
    (base64_encode data n).length = 4 * ((n + 2) / 3) := by
  have := base64_loop_length data n n 0 [] (by omega)
  simpa [base64_encode] using this

theorem kitty_loop_done (cfg : ConfigT) (fn : Int) (enc : List Nat) (N fuel off : Nat)
    (h : N ≤ off) : kitty_loop cfg fn enc N fuel off = some [] := by
  cases fuel with
  | zero => simp [kitty_loop, Nat.not_lt.mpr h]
  | succ f => simp [kitty_loop, Nat.not_lt.mpr h]

theorem kitty_loop_eq (cfg : ConfigT) (fn : Int) (enc : List Nat) (N : Nat)
    (hN : N < 2 ^ 63) (henc : enc.length ≤ N) : ∀ (fuel k : Nat), N - 4096 * k ≤ fuel →
    kitty_loop cfg fn enc N fuel (4096 * k) =
      some (((List.range' k ((N + 4095) / 4096 - k)).map (packet_at cfg fn enc N)).flatMap
        Packet.writes) := by
  intro fuel
  induction fuel with
  | zero =>
    intro k h
    have h1 : N ≤ 4096 * k := by omega
    have h2 : (N + 4095) / 4096 - k = 0 := by omega
    rw [kitty_loop_done _ _ _ _ _ _ h1, h2]
    simp
  | succ f ih =>
    intro k h
    by_cases hlt : 4096 * k < N
    · rw [kitty_loop, if_pos hlt]
      have hmod : (4096 * k + 4096) % 2 ^ 64 = 4096 * k + 4096 :=
        Nat.mod_eq_of_lt (by omega)
      simp only [hmod]
      by_cases hmore : 4096 * k + 4096 < N
      · have hcnt : (N + 4095) / 4096 - k = ((N + 4095) / 4096 - (k + 1)) + 1 := by omega
        have hnext : 4096 * k + 4096 = 4096 * (k + 1) := by ring
        simp only [if_pos hmore, if_true, ne_eq, one_ne_zero, not_false_eq_true]
        rw [if_pos (by omega), hmod, hnext, ih (k + 1) (by omega), hcnt, List.range'_succ]
        simp [packet_at, Packet.writes, hmore]
      · have hcnt : (N + 4095) / 4096 - k = 1 := by omega
        simp only [if_neg hmore, ne_eq, not_true_eq_false, if_false]
        rw [if_pos (by omega)]
        have hend : (4096 * k + (N - 4096 * k)) % 2 ^ 64 = N := by
          rw [Nat.mod_eq_of_lt (by omega)]; omega
        rw [hend, kitty_loop_done _ _ _ _ _ _ (le_refl N), hcnt]
        have hpay : List.take (N - 4096 * k) (List.drop (4096 * k) enc)
            = List.take 4096 (List.drop (4096 * k) enc) := by
          rw [List.take_of_length_le (by simp; omega),
            List.take_of_length_le (by simp; omega)]
        simp [packet_at, Packet.writes, hmore, hpay]
    · have h1 : N ≤ 4096 * k := by omega
      have h2 : (N + 4095) / 4096 - k = 0 := by omega
      rw [kitty_loop_done _ _ _ _ _ _ h1, h2]
      simp

/-- The loop of `kitty_update_display`, run from offset 0 with `encoded_size`
iterations of fuel, ends and sends exactly `frame_packets`. -/
theorem kitty_loop_frame (cfg : ConfigT) (fn : Int) (enc : List Nat) (N : Nat)
    (hN : N < 2 ^ 63) (henc : enc.length ≤ N) :
    kitty_loop cfg fn enc N N 0 = some ((frame_packets cfg fn enc N).flatMap Packet.writes) := by
  have := kitty_loop_eq cfg fn enc N hN henc N 0 (by omega)
  simpa [frame_packets, List.range_eq_range'] using this

theorem FbReady_sizes (s : State) (buf : List Nat)
    (hlen : (buf.length : Int) = s.Config.width * s.Config.height * 3)
    (hint : s.Config.width * s.Config.height * 3 < 2 ^ 31) :
    size_t (s.Config.width * s.Config.height * 3) = buf.length ∧
    (4 * ((buf.length + 2) % 2 ^ 64 / 3)) % 2 ^ 64 = 4 * ((buf.length + 2) / 3) ∧
    4 * ((buf.length + 2) / 3) < 2 ^ 63 := by
  have hb : buf.length < 2147483648 := by
    have : (buf.length : Int) < 2 ^ 31 := by rw [hlen]; exact hint
    norm_num at this
    exact_mod_cast this
  rw [← hlen]
  clear hint hlen
  refine ⟨?_, ?_, ?_⟩
  · simp only [size_t]
    omega
  · omega
  · omega

/-- What one call of `kitty_update_display` does when the scratch buffer is
allocated and the framebuffer has its `Config` size: it returns, having
appended the frame's data packets and the closing calls to standard output,
and leaves `frame_number` at 1 after frame 0. -/
theorem kitty_update_display_eq (s : State) (buf : List Nat) (hfb : s.fb = some buf)
    (hlen : (buf.length : Int) = s.Config.width * s.Config.height * 3)
    (hint : s.Config.width * s.Config.height * 3 < 2 ^ 31) :
    kitty_update_display true s = some { s with
      out := s.out ++
        ((frame_packets s.Config s.frame_number (base64_encode buf buf.length)
            (4 * ((buf.length + 2) / 3))).flatMap Packet.writes
          ++ frame_tail s.Config s.frame_number),
      frame_number := if s.frame_number = 0 then 1 else s.frame_number } := by
  obtain ⟨h1, h2, h3⟩ := FbReady_sizes s buf hlen hint
  have hl := base64_encode_length buf buf.length
  unfold kitty_update_display
  simp only [h1, h2, hfb, Option.getD_some, le_refl, if_true, hl, Bool.true_eq_false, if_false]
  rw [kitty_loop_frame _ _ _ _ h3 (by rw [hl])]
  by_cases h0 : s.frame_number = 0
  · have hn : ¬ s.frame_number > 0 := by omega
    by_cases hg : s.Config.ghostty_mode = true
    · simp [frame_tail, h0, hg, TRACE_LOGS]
    · simp [frame_tail, h0, hg, TRACE_LOGS]
  · by_cases hk : s.Config.kitty_mode = true ∧ s.frame_number > 0
    · simp [frame_tail, h0, hk]
    · simp [frame_tail, h0, hk]

theorem data_packets_writes (pk : List Packet) (tail : List Write) :
    data_packets (pk.flatMap Packet.writes ++ tail) = pk ++ data_packets tail := by
  induction pk with
  | nil => simp
  | cons p ps ih =>
    simp only [List.flatMap_cons, List.append_assoc, List.cons_append]
    simp [Packet.writes, data_packets, ih]

theorem data_packets_frame_tail (cfg : ConfigT) (fn : Int) :
    data_packets (frame_tail cfg fn) = [] := by
  unfold frame_tail
  split <;> split <;> simp [data_packets]

theorem header_flag_kitty_header (cfg : ConfigT) (fn : Int) (off : Nat) (more : Bool) :
    header_flag (kitty_header cfg fn off (if more = true then 1 else 0))
      = some (if more = true then '1' else '0') := by
  have e1 : toString (1 : Nat) = "1" := rfl
  have e0 : toString (0 : Nat) = "0" := rfl
  unfold kitty_header
  cases more <;> simp only [if_true, if_false, Bool.false_eq_true, e0, e1] <;>
    split <;> split <;> (try split) <;>
    simp [header_flag, String.data_append]

theorem frame_blob_eq (s : State) (buf : List Nat) (hfb : s.fb = some buf)
    (hlen : (buf.length : Int) = s.Config.width * s.Config.height * 3)
    (hint : s.Config.width * s.Config.height * 3 < 2 ^ 31) :
    frame_blob s = base64_encode buf buf.length ∧
    (frame_blob s).length = 4 * ((buf.length + 2) / 3) := by
  obtain ⟨h1, _, _⟩ := FbReady_sizes s buf hlen hint
  simp [frame_blob, hfb, h1, base64_encode_length]

/-- The outcome of one call of `kitty_update_display`, scratch buffer
allocated, on a framebuffer of the `Config` size: the call returns a state
`s'` whose standard output is that of `s` followed by the frame's data
packets and the closing calls; `frame_number` is 1 after frame 0 and
unchanged otherwise. -/
theorem kitty_frame (s : State) (h : FbReady s) :
    ∃ s', kitty_update_display true s = some s' ∧
      s'.out = s.out ++ emitted s s' ∧
      emitted s s' =
        (frame_packets s.Config s.frame_number (frame_blob s) (frame_blob s).length).flatMap
          Packet.writes ++ frame_tail s.Config s.frame_number ∧
      data_packets (emitted s s') =
        frame_packets s.Config s.frame_number (frame_blob s) (frame_blob s).length ∧
      s'.frame_number = (if s.frame_number = 0 then 1 else s.frame_number) := by
  obtain ⟨buf, hfb, hlen, hint⟩ := h
  obtain ⟨hb, hbl⟩ := frame_blob_eq s buf hfb hlen hint
  refine ⟨_, kitty_update_display_eq s buf hfb hlen hint, ?_⟩
  have hem : emitted s { s with
      out := s.out ++
        ((frame_packets s.Config s.frame_number (base64_encode buf buf.length)
            (4 * ((buf.length + 2) / 3))).flatMap Packet.writes
          ++ frame_tail s.Config s.frame_number),
      frame_number := if s.frame_number = 0 then 1 else s.frame_number } =
      (frame_packets s.Config s.frame_number (frame_blob s) (frame_blob s).length).flatMap
          Packet.writes ++ frame_tail s.Config s.frame_number := by
    simp only [emitted, List.drop_left, hb, base64_encode_length]
  refine ⟨?_, hem, ?_, rfl⟩
  · rw [hem]
    simp only [hb, base64_encode_length]
  · rw [hem, data_packets_writes, data_packets_frame_tail, List.append_nil]

theorem chunks_join : ∀ (n : Nat) (l : List Nat), l.length ≤ 4096 * n →
    ((List.range n).map (fun k => (l.drop (4096 * k)).take 4096)).flatten = l := by
  intro n
  induction n with
  | zero =>
    intro l h
    have : l = [] := List.length_eq_zero.mp (by omega)
    simp [this]
  | succ n ih =>
    intro l h
    have hd : (l.drop 4096).length ≤ 4096 * n := by simp; omega
    have key := ih (l.drop 4096) hd
    rw [List.range_succ_eq_map]
    simp only [List.map_cons, List.map_map, List.flatten_cons, Nat.mul_zero, List.drop_zero]
    have hf : ((fun k => List.take 4096 (List.drop (4096 * k) l)) ∘ Nat.succ)
        = fun k => List.take 4096 (List.drop (4096 * k) (List.drop 4096 l)) := by
      funext k
      simp only [Function.comp, List.drop_drop, Nat.succ_eq_add_one]
      congr 2
      ring
    rw [hf, key, List.take_append_drop]

theorem frame_packets_payloads (cfg : ConfigT) (fn : Int) (enc : List Nat) (N : Nat) :
    (frame_packets cfg fn enc N).map Packet.payload =
      (List.range ((N + 4095) / 4096)).map (fun k => (enc.drop (4096 * k)).take 4096) := by
  simp [frame_packets, packet_at, Function.comp_def]

/-- C5: one call of `kitty_update_display` (scratch buffer allocated,
framebuffer of the `Config` size) returns, and the payloads of the data
packets it emits are the consecutive 4096-character pieces of the encoded
blob, the last piece being the remainder: for a blob of N characters there
are exactly ceil(N/4096) data packets, the k-th payload is the piece at
offset 4096*k, no payload is longer than 4096, and the payloads
concatenated in emission order are the blob. -/
theorem kitty_update_display_chunks (s : State) (h : FbReady s) :
    ∃ s', kitty_update_display true s = some s' ∧
      s'.out = s.out ++ emitted s s' ∧
      ((data_packets (emitted s s')).map Packet.payload).length
        = ((frame_blob s).length + 4095) / 4096 ∧
      (∀ k, k < ((frame_blob s).length + 4095) / 4096 →
        ((data_packets (emitted s s')).map Packet.payload)[k]?
          = some (((frame_blob s).drop (4096 * k)).take 4096)) ∧
      (∀ p ∈ (data_packets (emitted s s')).map Packet.payload, p.length ≤ 4096) ∧
      ((data_packets (emitted s s')).map Packet.payload).flatten = frame_blob s := by
  obtain ⟨s', hs, hout, _, hpk, _⟩ := kitty_frame s h
  refine ⟨s', hs, hout, ?_⟩
  rw [hpk, frame_packets_payloads]
  refine ⟨by simp, ?_, ?_, ?_⟩
  · intro k hk
    simp [hk]
  · intro p hp
    simp only [List.mem_map, List.mem_range] at hp
    obtain ⟨k, _, rfl⟩ := hp
    exact List.length_take_le _ _
  · exact chunks_join _ _ (by omega)

theorem FbReady_stateOne (g : Bool) (fn : Int) : FbReady (stateOne g fn) :=
  ⟨[1, 2, 3], rfl, by simp [stateOne], by norm_num [stateOne]⟩

/-- Witness of C5: the 1x1 framebuffer, animate dialect, frame 0. -/
theorem kitty_update_display_chunks_witness :
    FbReady (stateOne true 0) ∧
    ∃ s', kitty_update_display true (stateOne true 0) = some s' ∧
      s'.out = (stateOne true 0).out ++ emitted (stateOne true 0) s' ∧
      ((data_packets (emitted (stateOne true 0) s')).map Packet.payload).length
        = ((frame_blob (stateOne true 0)).length + 4095) / 4096 ∧
      (∀ k, k < ((frame_blob (stateOne true 0)).length + 4095) / 4096 →
        ((data_packets (emitted (stateOne true 0) s')).map Packet.payload)[k]?
          = some (((frame_blob (stateOne true 0)).drop (4096 * k)).take 4096)) ∧
      (∀ p ∈ (data_packets (emitted (stateOne true 0) s')).map Packet.payload,
        p.length ≤ 4096) ∧
      ((data_packets (emitted (stateOne true 0) s')).map Packet.payload).flatten
        = frame_blob (stateOne true 0) :=
  ⟨FbReady_stateOne true 0, kitty_update_display_chunks (stateOne true 0) (FbReady_stateOne true 0)⟩

theorem frame_packets_get (cfg : ConfigT) (fn : Int) (enc : List Nat) (N k : Nat)
    (p : Packet) (h : (frame_packets cfg fn enc N)[k]? = some p) :
    k < (N + 4095) / 4096 ∧ p = packet_at cfg fn enc N k := by
  simp only [frame_packets, List.getElem?_map, List.getElem?_range, Option.map_eq_some'] at h
  obtain ⟨a, ha, rfl⟩ := h
  by_cases hk : k < (N + 4095) / 4096
  · rw [List.getElem?_range hk] at ha
    cases ha
    exact ⟨hk, rfl⟩
  · rw [List.getElem?_eq_none (by simpa using hk)] at ha
    cases ha

theorem frame_packets_length (cfg : ConfigT) (fn : Int) (enc : List Nat) (N : Nat) :
    (frame_packets cfg fn enc N).length = (N + 4095) / 4096 := by
  simp [frame_packets]

/-- C6: in every call of `kitty_update_display` (any frame number, any
dialect flags, any blob length; scratch buffer allocated, framebuffer of the
`Config` size), the `m=` field of the header of the k-th data packet is 1
exactly when another data packet of the frame follows it, and 0 on the last
data packet. -/
theorem kitty_update_display_flag (s : State) (h : FbReady s) :
    ∃ s', kitty_update_display true s = some s' ∧
      (data_packets (emitted s s')).length = ((frame_blob s).length + 4095) / 4096 ∧
      ∀ (k : Nat) (p : Packet), (data_packets (emitted s s'))[k]? = some p →
        header_flag p.header =
          some (if k + 1 < (data_packets (emitted s s')).length then '1' else '0') := by
  obtain ⟨s', hs, _, _, hpk, _⟩ := kitty_frame s h
  refine ⟨s', hs, ?_, ?_⟩
  · rw [hpk, frame_packets_length]
  · intro k p hp
    rw [hpk] at hp ⊢
    obtain ⟨hk, rfl⟩ := frame_packets_get _ _ _ _ _ _ hp
    rw [frame_packets_length]
    have key := header_flag_kitty_header s.Config s.frame_number (4096 * k)
      (decide (4096 * k + 4096 < (frame_blob s).length))
    simp only [decide_eq_true_eq] at key
    simp only [packet_at]
    rw [key]
    congr 1
    by_cases hm : 4096 * k + 4096 < (frame_blob s).length
    · rw [if_pos hm, if_pos (by omega)]
    · rw [if_neg hm, if_neg (by omega)]

/-- Witness of C6: the 1x1 framebuffer, classic dialect, frame 1. -/
theorem kitty_update_display_flag_witness :
    FbReady (stateOne false 1) ∧
    ∃ s', kitty_update_display true (stateOne false 1) = some s' ∧
      (data_packets (emitted (stateOne false 1) s')).length
        = ((frame_blob (stateOne false 1)).length + 4095) / 4096 ∧
      ∀ (k : Nat) (p : Packet),
        (data_packets (emitted (stateOne false 1) s'))[k]? = some p →
        header_flag p.header =
          some (if k + 1 < (data_packets (emitted (stateOne false 1) s')).length
            then '1' else '0') :=
  ⟨FbReady_stateOne false 1, kitty_update_display_flag (stateOne false 1) (FbReady_stateOne false 1)⟩

theorem kitty_header_ne_newline (cfg : ConfigT) (fn : Int) (off m : Nat) :
    kitty_header cfg fn off m ≠ "\r\n" := by
  intro h
  have hd := congrArg String.data h
  unfold kitty_header at hd
  split at hd <;> split at hd <;> (try split at hd) <;>
    simp [String.data_append] at hd

theorem activation_header_ne (cfg : ConfigT) :
    activation_header cfg ≠ "\x1b\\" ∧ activation_header cfg ≠ "\r\n" := by
  constructor <;>
  · intro h
    have hd := congrArg String.data h
    simp [activation_header, String.data_append] at hd

/-- A `printf` whose text is neither a data header nor the terminator does
not occur among the calls of the frame's data packets. -/
theorem printf_not_mem_packets (cfg : ConfigT) (fn : Int) (enc : List Nat) (N : Nat)
    (t : String) (ht : ∀ off m, kitty_header cfg fn off m ≠ t) (hst : t ≠ "\x1b\\") :
    Write.printf t ∉ (frame_packets cfg fn enc N).flatMap Packet.writes := by
  intro hmem
  simp only [List.mem_flatMap, frame_packets, List.mem_map, List.mem_range] at hmem
  obtain ⟨p, ⟨k, _, rfl⟩, hw⟩ := hmem
  simp only [Packet.writes, packet_at, List.mem_cons, Write.printf.injEq, List.mem_singleton,
    reduceCtorEq, or_false, false_or, List.not_mem_nil] at hw
  rcases hw with hw | hw
  · exact ht _ _ hw.symm
  · exact hst hw

/-- C7 (as amended): a call of `kitty_update_display` made with
frame_number == 0 (scratch buffer allocated, framebuffer of the `Config`
size) ends with frame_number == 1; the newline `printf("\r\n")` is issued
exactly once, as the last write before the final flush and so after every
data packet, when `Config.ghostty_mode` is set (animate dialect), and is
not issued at all when it is clear (classic dialect). -/
theorem kitty_update_display_frame0 (s : State) (h : FbReady s) (h0 : s.frame_number = 0) :
    ∃ s', kitty_update_display true s = some s' ∧
      s'.frame_number = 1 ∧
      (emitted s s').count (Write.printf "\r\n")
        = (if s.Config.ghostty_mode = true then 1 else 0) ∧
      (s.Config.ghostty_mode = true →
        ∃ pre, emitted s s' = pre ++ [Write.printf "\r\n", Write.fflush] ∧
          data_packets pre = data_packets (emitted s s')) := by
  obtain ⟨s', hs, _, hem, hpk, hfn⟩ := kitty_frame s h
  have hnot := printf_not_mem_packets s.Config s.frame_number (frame_blob s)
    (frame_blob s).length "\r\n" (fun off m => kitty_header_ne_newline _ _ _ _) (by decide)
  have hact := (activation_header_ne s.Config).2
  refine ⟨s', hs, by rw [hfn, if_pos h0], ?_, ?_⟩
  · rw [hem, List.count_append, List.count_eq_zero.mpr hnot]
    by_cases hg : s.Config.ghostty_mode = true
    · simp [frame_tail, h0, hg, TRACE_LOGS]
    · simp [frame_tail, h0, hg, TRACE_LOGS]
  · intro hg
    refine ⟨(frame_packets s.Config s.frame_number (frame_blob s)
      (frame_blob s).length).flatMap Packet.writes, ?_, ?_⟩
    · rw [hem]
      simp [frame_tail, h0, hg, TRACE_LOGS]
    · rw [hpk]
      simpa [data_packets] using data_packets_writes (frame_packets s.Config s.frame_number
        (frame_blob s) (frame_blob s).length) []

/-- Witness of C7 (as amended): the 1x1 framebuffer, classic dialect,
frame 0. -/
theorem kitty_update_display_frame0_witness :
    FbReady (stateOne false 0) ∧ (stateOne false 0).frame_number = 0 ∧
    ∃ s', kitty_update_display true (stateOne false 0) = some s' ∧
      s'.frame_number = 1 ∧
      (emitted (stateOne false 0) s').count (Write.printf "\r\n")
        = (if (stateOne false 0).Config.ghostty_mode = true then 1 else 0) ∧
      ((stateOne false 0).Config.ghostty_mode = true →
        ∃ pre, emitted (stateOne false 0) s' = pre ++ [Write.printf "\r\n", Write.fflush] ∧
          data_packets pre = data_packets (emitted (stateOne false 0) s')) :=
  ⟨FbReady_stateOne false 0, rfl,
    kitty_update_display_frame0 (stateOne false 0) (FbReady_stateOne false 0) rfl⟩

/-- C7 (counterexample): in the classic dialect (`kitty_mode` set,
`ghostty_mode` clear) the call made with frame_number == 0 on the 1x1
framebuffer ends with frame_number == 1 but writes no newline at all: its
output is the data packet followed by the final flush. -/
theorem frame0_classic_no_newline :
    (kitty_update_display true (stateOne false 0)).map
        (fun s' => (s'.frame_number, emitted (stateOne false 0) s',
          (emitted (stateOne false 0) s').count (Write.printf "\r\n")))
      = some (1,
          [Write.printf "\x1b_Ga=T,i=7,f=24,s=1,v=1,q=2,c=1,r=1,m=0;",
           Write.fwrite [65, 81, 73, 68], Write.printf "\x1b\\", Write.fflush,
           Write.fflush],
          0) := by
  decide

/-- C9 (as amended): in the animate dialect (`Config.ghostty_mode` set), for
every frame with frame_number > 0 the header of the first data packet is
`ESC _ G a=t,i=<render_id>,f=24,s=<width>,v=<height>,q=2,c=<width_chars>,r=<height_chars>,m=<flag> ;`
: the action is `a=t` (transmit), there is no `x=` or `y=` field, and the
continuation flag is 1 exactly when a second data packet follows. -/
theorem kitty_update_display_animate_first (s : State) (h : FbReady s)
    (hg : s.Config.ghostty_mode = true) (hfn : s.frame_number > 0) :
    ∃ s', kitty_update_display true s = some s' ∧
      (data_packets (emitted s s')).length = ((frame_blob s).length + 4095) / 4096 ∧
      ∀ p : Packet, (data_packets (emitted s s'))[0]? = some p →
        p.header = "\x1b_Ga=t,i=" ++ toString s.Config.render_id
          ++ ",f=24,s=" ++ toString s.Config.width ++ ",v=" ++ toString s.Config.height
          ++ ",q=2,c=" ++ toString s.Config.width_chars
          ++ ",r=" ++ toString s.Config.height_chars
          ++ ",m=" ++ (if 1 < (data_packets (emitted s s')).length then "1" else "0") ++ ";" := by
  obtain ⟨s', hs, _, _, hpk, _⟩ := kitty_frame s h
  refine ⟨s', hs, ?_, ?_⟩
  · rw [hpk, frame_packets_length]
  · intro p hp
    rw [hpk] at hp ⊢
    obtain ⟨hk, rfl⟩ := frame_packets_get _ _ _ _ _ _ hp
    rw [frame_packets_length]
    have h0 : ¬ s.frame_number = 0 := by omega
    have e1 : toString (1 : Nat) = "1" := rfl
    have e0 : toString (0 : Nat) = "0" := rfl
    by_cases hm : 4096 < (frame_blob s).length
    · have h1 : 1 < ((frame_blob s).length + 4095) / 4096 := by omega
      simp [packet_at, kitty_header, hg, h0, hm, h1, e1]
    · have h1 : ¬ 1 < ((frame_blob s).length + 4095) / 4096 := by omega
      simp [packet_at, kitty_header, hg, h0, hm, h1, e0]

/-- Witness of C9 (as amended): the 1x1 framebuffer, animate dialect,
frame 1. -/
theorem kitty_update_display_animate_first_witness :
    FbReady (stateOne true 1) ∧ (stateOne true 1).Config.ghostty_mode = true ∧
    (stateOne true 1).frame_number > 0 ∧
    ∃ s', kitty_update_display true (stateOne true 1) = some s' ∧
      (data_packets (emitted (stateOne true 1) s')).length
        = ((frame_blob (stateOne true 1)).length + 4095) / 4096 ∧
      ∀ p : Packet, (data_packets (emitted (stateOne true 1) s'))[0]? = some p →
        p.header = "\x1b_Ga=t,i=" ++ toString (stateOne true 1).Config.render_id
          ++ ",f=24,s=" ++ toString (stateOne true 1).Config.width
          ++ ",v=" ++ toString (stateOne true 1).Config.height
          ++ ",q=2,c=" ++ toString (stateOne true 1).Config.width_chars
          ++ ",r=" ++ toString (stateOne true 1).Config.height_chars
          ++ ",m=" ++ (if 1 < (data_packets (emitted (stateOne true 1) s')).length
            then "1" else "0") ++ ";" :=
  ⟨FbReady_stateOne true 1, rfl, by decide,
    kitty_update_display_animate_first (stateOne true 1) (FbReady_stateOne true 1) rfl
      (by decide)⟩

/-- C9 (counterexample): in the animate dialect at frame 1, on the 1x1
framebuffer, the only data packet has the header
`ESC _ G a=t,i=7,f=24,s=1,v=1,q=2,c=1,r=1,m=0;`: its action field is `t`,
not `f`, and it has no `x` and no `y` field. -/
theorem animate_first_header_not_add_frame :
    (kitty_update_display true (stateOne true 1)).map
        (fun s' => (data_packets (emitted (stateOne true 1) s')).map
          (fun p => (p.header, header_field "a" p.header, header_field "x" p.header,
            header_field "y" p.header)))
      = some [("\x1b_Ga=t,i=7,f=24,s=1,v=1,q=2,c=1,r=1,m=0;", some "t", none, none)] := by
  decide

theorem stateTwo_sizes (fn : Int) :
    (((List.replicate 3456 0 : List Nat).length : Nat) : Int)
        = (stateTwo fn).Config.width * (stateTwo fn).Config.height * 3 ∧
      (stateTwo fn).Config.width * (stateTwo fn).Config.height * 3 < 2 ^ 31 := by
  rw [List.length_replicate]
  show ((3456 : Nat) : Int) = 36 * 32 * 3 ∧ (36 : Int) * 32 * 3 < 2 ^ 31
  norm_num

theorem FbReady_stateTwo (fn : Int) : FbReady (stateTwo fn) :=
  ⟨List.replicate 3456 0, rfl, (stateTwo_sizes fn).1, (stateTwo_sizes fn).2⟩

theorem frame_blob_stateTwo (fn : Int) : (frame_blob (stateTwo fn)).length = 4608 := by
  have := (frame_blob_eq (stateTwo fn) (List.replicate 3456 0) rfl (stateTwo_sizes fn).1
    (stateTwo_sizes fn).2).2
  rw [this, List.length_replicate]

/-- C10 (as amended): for every frame and dialect, the header of every data
packet after the first one of a frame is `ESC _ G m=<flag> ;` when
`Config.ghostty_mode` is set or frame_number == 0, and is the variant
`ESC _ G a=f,r=1,m=<flag> ;` when `Config.ghostty_mode` is clear (classic
dialect) and frame_number != 0; the flag is 1 exactly when another data
packet follows. -/
theorem kitty_update_display_later_headers (s : State) (h : FbReady s) :
    ∃ s', kitty_update_display true s = some s' ∧
      (data_packets (emitted s s')).length = ((frame_blob s).length + 4095) / 4096 ∧
      ∀ (k : Nat) (p : Packet), 0 < k → (data_packets (emitted s s'))[k]? = some p →
        p.header =
          (if s.Config.ghostty_mode = true ∨ s.frame_number = 0 then "\x1b_Gm="
            else "\x1b_Ga=f,r=1,m=")
          ++ (if k + 1 < (data_packets (emitted s s')).length then "1" else "0") ++ ";" := by
  obtain ⟨s', hs, _, _, hpk, _⟩ := kitty_frame s h
  refine ⟨s', hs, ?_, ?_⟩
  · rw [hpk, frame_packets_length]
  · intro k p hk0 hp
    rw [hpk] at hp ⊢
    obtain ⟨hk, rfl⟩ := frame_packets_get _ _ _ _ _ _ hp
    rw [frame_packets_length]
    have hoff : ¬ 4096 * k = 0 := by omega
    have e1 : toString (1 : Nat) = "1" := rfl
    have e0 : toString (0 : Nat) = "0" := rfl
    have hflag : (if 4096 * k + 4096 < (frame_blob s).length then toString (1 : Nat)
          else toString (0 : Nat))
        = (if k + 1 < ((frame_blob s).length + 4095) / 4096 then "1" else "0") := by
      by_cases hm : 4096 * k + 4096 < (frame_blob s).length
      · rw [if_pos hm, if_pos (by omega), e1]
      · rw [if_neg hm, if_neg (by omega), e0]
    simp only [packet_at, kitty_header, if_neg hoff, apply_ite (toString (α := Nat)), hflag]
    by_cases hg : s.Config.ghostty_mode = true
    · simp [hg]
    · by_cases h0 : s.frame_number = 0
      · simp [hg, h0]
      · simp [hg, h0]

/-- Witness of C10 (as amended): the 36x32 framebuffer (two data packets),
classic dialect, frame 0. -/
theorem kitty_update_display_later_headers_witness :
    FbReady (stateTwo 0) ∧
    ∃ s', kitty_update_display true (stateTwo 0) = some s' ∧
      (data_packets (emitted (stateTwo 0) s')).length
        = ((frame_blob (stateTwo 0)).length + 4095) / 4096 ∧
      ∀ (k : Nat) (p : Packet), 0 < k →
        (data_packets (emitted (stateTwo 0) s'))[k]? = some p →
        p.header =
          (if (stateTwo 0).Config.ghostty_mode = true ∨ (stateTwo 0).frame_number = 0
            then "\x1b_Gm=" else "\x1b_Ga=f,r=1,m=")
          ++ (if k + 1 < (data_packets (emitted (stateTwo 0) s')).length then "1" else "0")
          ++ ";" :=
  ⟨FbReady_stateTwo 0, kitty_update_display_later_headers (stateTwo 0) (FbReady_stateTwo 0)⟩

/-- C10 (counterexample): in the classic dialect at frame 1 (not frame 0),
on the 36x32 framebuffer, the call sends two data packets and the header of
the second one is `ESC _ G a=f,r=1,m=0;`, not the flag alone. -/
theorem classic_later_header_frame1 :
    (stateTwo 1).Config.kitty_mode = true ∧ (stateTwo 1).frame_number = 1 ∧
    (kitty_update_display true (stateTwo 1)).map
        (fun s' => (data_packets (emitted (stateTwo 1) s')).map Packet.header)
      = some ["\x1b_Ga=f,r=1,i=7,f=24,x=0,y=0,s=36,v=32,m=1;", "\x1b_Ga=f,r=1,m=0;"] := by
  refine ⟨rfl, rfl, ?_⟩
  obtain ⟨s', hs, _, _, hpk, _⟩ := kitty_frame (stateTwo 1) (FbReady_stateTwo 1)
  rw [hs, Option.map_some', hpk, frame_blob_stateTwo]
  have e36 : toString (36 : Int) = "36" := by decide
  have e32 : toString (32 : Int) = "32" := by decide
  have e7 : toString (7 : Nat) = "7" := by decide
  have e1 : toString (1 : Nat) = "1" := by decide
  have e0 : toString (0 : Nat) = "0" := by decide
  have hc : (stateTwo 1).Config = configTwo := rfl
  have hf : (stateTwo 1).frame_number = 1 := rfl
  rw [hc, hf]
  simp [frame_packets, packet_at, List.range_succ, kitty_header, configTwo, e36, e32, e7, e1, e0]

/-- C11: on frame 0 (scratch buffer allocated, framebuffer of the `Config`
size) the header of the first data packet is
`ESC _ G a=T,i=<render_id>,f=24,s=<width>,v=<height>,q=2,c=<width_chars>,r=<height_chars>,m=<flag> ;`
whatever the dialect flags are: the same text in both dialects, a function
of the configuration (and of the continuation flag) only. -/
theorem kitty_update_display_create_header (s : State) (h : FbReady s)
    (h0 : s.frame_number = 0) :
    ∃ s', kitty_update_display true s = some s' ∧
      (data_packets (emitted s s')).length = ((frame_blob s).length + 4095) / 4096 ∧
      ∀ p : Packet, (data_packets (emitted s s'))[0]? = some p →
        p.header = "\x1b_Ga=T,i=" ++ toString s.Config.render_id
          ++ ",f=24,s=" ++ toString s.Config.width ++ ",v=" ++ toString s.Config.height
          ++ ",q=2,c=" ++ toString s.Config.width_chars
          ++ ",r=" ++ toString s.Config.height_chars
          ++ ",m=" ++ (if 1 < (data_packets (emitted s s')).length then "1" else "0") ++ ";" := by
  obtain ⟨s', hs, _, _, hpk, _⟩ := kitty_frame s h
  refine ⟨s', hs, ?_, ?_⟩
  · rw [hpk, frame_packets_length]
  · intro p hp
    rw [hpk] at hp ⊢
    obtain ⟨hk, rfl⟩ := frame_packets_get _ _ _ _ _ _ hp
    rw [frame_packets_length]
    have e1 : toString (1 : Nat) = "1" := rfl
    have e0 : toString (0 : Nat) = "0" := rfl
    by_cases hm : 4096 < (frame_blob s).length
    · have h1 : 1 < ((frame_blob s).length + 4095) / 4096 := by omega
      by_cases hg : s.Config.ghostty_mode = true
      · simp [packet_at, kitty_header, hg, h0, hm, h1, e1]
      · simp [packet_at, kitty_header, hg, h0, hm, h1, e1]
    · have h1 : ¬ 1 < ((frame_blob s).length + 4095) / 4096 := by omega
      by_cases hg : s.Config.ghostty_mode = true
      · simp [packet_at, kitty_header, hg, h0, hm, h1, e0]
      · simp [packet_at, kitty_header, hg, h0, hm, h1, e0]

/-- Witness of C11: the 1x1 framebuffer, classic dialect, frame 0. -/
theorem kitty_update_display_create_header_witness :
    FbReady (stateOne false 0) ∧ (stateOne false 0).frame_number = 0 ∧
    ∃ s', kitty_update_display true (stateOne false 0) = some s' ∧
      (data_packets (emitted (stateOne false 0) s')).length
        = ((frame_blob (stateOne false 0)).length + 4095) / 4096 ∧
      ∀ p : Packet, (data_packets (emitted (stateOne false 0) s'))[0]? = some p →
        p.header = "\x1b_Ga=T,i=" ++ toString (stateOne false 0).Config.render_id
          ++ ",f=24,s=" ++ toString (stateOne false 0).Config.width
          ++ ",v=" ++ toString (stateOne false 0).Config.height
          ++ ",q=2,c=" ++ toString (stateOne false 0).Config.width_chars
          ++ ",r=" ++ toString (stateOne false 0).Config.height_chars
          ++ ",m=" ++ (if 1 < (data_packets (emitted (stateOne false 0) s')).length
            then "1" else "0") ++ ";" :=
  ⟨FbReady_stateOne false 0, rfl,
    kitty_update_display_create_header (stateOne false 0) (FbReady_stateOne false 0) rfl⟩

/-! ### `updateWindowSize` -/

/-- A resize that does not take the early return, with sizes that fit an
`int`, a non-negative product and a successful allocation, returns the
state with the new `Config` sizes, a zero-filled framebuffer of
`width * height * 3` bytes and `frame_number` 0. -/
theorem updateWindowSize_fresh (s : State) (w h : Int)
    (hchg : ¬ (s.fb.isSome = true ∧ w = s.Config.width_chars ∧ h = s.Config.height_chars))
    (hfw : fits_int (w * RESW)) (hfh : fits_int (h * RESH))
    (hfp : fits_int (w * RESW * (h * RESH) * 3)) (hnn : 0 ≤ w * h) :
    ∃ n : Nat, (n : Int) = w * RESW * (h * RESH) * 3 ∧
      updateWindowSize true s w h = some { s with
        Config := { s.Config with
          width_chars := w, height_chars := h, width := w * RESW, height := h * RESH },
        fb := some (List.replicate n 0),
        frame_number := 0,
        out := if s.fb.isSome = true ∧ s.Config.kitty_mode = true then
                 s.out ++ [Write.printf "\x1b[3J\x1b[H", Write.fflush]
               else s.out } := by
  have hp : 0 ≤ w * RESW * (h * RESH) * 3 := by
    have : w * RESW * (h * RESH) * 3 = 96 * (w * h) := by simp only [RESW, RESH]; ring
    rw [this]; omega
  have hfq : fits_int (w * RESW * (h * RESH)) := by
    unfold fits_int at hfp ⊢
    constructor <;> nlinarith
  refine ⟨(w * RESW * (h * RESH) * 3).toNat, Int.toNat_of_nonneg hp, ?_⟩
  have hsz : size_t (w * RESW * (h * RESH) * 3) = (w * RESW * (h * RESH) * 3).toNat := by
    unfold fits_int at hfp
    generalize w * RESW * (h * RESH) * 3 = q at hp hfp ⊢
    simp only [size_t]
    omega
  have hlt : (w * RESW * (h * RESH) * 3).toNat < 2 ^ 63 := by
    unfold fits_int at hfp
    generalize w * RESW * (h * RESH) * 3 = q at hp hfp ⊢
    omega
  unfold updateWindowSize
  rw [if_neg hchg, if_neg (by simp [hfw, hfh, hfp, hfq])]
  simp only [hsz, alloc_zeroed, hlt, and_self, if_true]

/-- C12 (as amended): for every prior state and every cell-grid size (w,h)
such that no framebuffer exists yet or (w,h) differs from the current
`Config.width_chars`, `Config.height_chars`, with sizes that fit an `int`
and a successful allocation, after `updateWindowSize(w,h)` the framebuffer
is exactly Config.width*Config.height*3 bytes long with Config.width = 4*w
and Config.height = 8*h, and every one of those bytes is zero. -/
theorem updateWindowSize_zero_filled (s : State) (w h : Int)
    (hchg : s.fb = none ∨ w ≠ s.Config.width_chars ∨ h ≠ s.Config.height_chars)
    (hfw : fits_int (w * RESW)) (hfh : fits_int (h * RESH))
    (hfp : fits_int (w * RESW * (h * RESH) * 3)) (hnn : 0 ≤ w * h) :
    ∃ s' buf, updateWindowSize true s w h = some s' ∧ s'.fb = some buf ∧
      s'.Config.width = 4 * w ∧ s'.Config.height = 8 * h ∧
      s'.Config.width_chars = w ∧ s'.Config.height_chars = h ∧
      (buf.length : Int) = s'.Config.width * s'.Config.height * 3 ∧
      ∀ b ∈ buf, b = 0 := by
  have hc : ¬ (s.fb.isSome = true ∧ w = s.Config.width_chars ∧ h = s.Config.height_chars) := by
    rintro ⟨h1, h2, h3⟩
    rcases hchg with h0 | h0 | h0
    · simp [h0] at h1
    · exact h0 h2
    · exact h0 h3
  obtain ⟨n, hn, heq⟩ := updateWindowSize_fresh s w h hc hfw hfh hfp hnn
  refine ⟨_, List.replicate n 0, heq, rfl, ?_, ?_, rfl, rfl, ?_, ?_⟩
  · simp only [RESW]; ring
  · simp only [RESH]; ring
  · simp only [List.length_replicate]
    rw [hn]
  · intro b hb
    exact (List.mem_replicate.mp hb).2

/-- Witness of C12 (as amended): the first resize after start-up, to a 3x2
cell grid. -/
theorem updateWindowSize_zero_filled_witness :
    ((stateStart true).fb = none ∨ (3 : Int) ≠ (stateStart true).Config.width_chars ∨
      (2 : Int) ≠ (stateStart true).Config.height_chars) ∧
    fits_int (3 * RESW) ∧ fits_int (2 * RESH) ∧ fits_int (3 * RESW * (2 * RESH) * 3) ∧
    (0 : Int) ≤ 3 * 2 ∧
    ∃ s' buf, updateWindowSize true (stateStart true) 3 2 = some s' ∧ s'.fb = some buf ∧
      s'.Config.width = 4 * 3 ∧ s'.Config.height = 8 * 2 ∧
      s'.Config.width_chars = 3 ∧ s'.Config.height_chars = 2 ∧
      (buf.length : Int) = s'.Config.width * s'.Config.height * 3 ∧
      ∀ b ∈ buf, b = 0 :=
  ⟨Or.inl rfl, by decide, by decide, by decide, by decide,
    updateWindowSize_zero_filled (stateStart true) 3 2 (Or.inl rfl) (by decide) (by decide)
      (by decide) (by decide)⟩

/-- C12 (counterexample): on a state whose 4x8 framebuffer starts with the
byte 255 and whose cell grid is already 1x1, `updateWindowSize(1,1)`
returns with the framebuffer as it was: its first byte is still 255, not
zero. -/
theorem updateWindowSize_same_size_keeps_bytes :
    (updateWindowSize true stateDrawn 1 1).map State.fb
      = some (some (255 :: List.replicate 95 0)) := by
  decide

/-- C13: when a framebuffer exists and (w,h) equal the current
`Config.width_chars` and `Config.height_chars`, `updateWindowSize(w,h)`
returns the state unchanged (framebuffer, every `Config` field,
`frame_number` and everything else), whether or not an allocation would
succeed; so calling it twice with that size has the same effect as calling
it once. -/
theorem updateWindowSize_noop (a a' : Bool) (s : State) (w h : Int)
    (hfb : s.fb.isSome = true) (hw : w = s.Config.width_chars)
    (hh : h = s.Config.height_chars) :
    updateWindowSize a s w h = some s ∧
    (updateWindowSize a s w h).bind (fun s1 => updateWindowSize a' s1 w h)
      = updateWindowSize a s w h := by
  have h1 : ∀ b, updateWindowSize b s w h = some s := by
    intro b
    unfold updateWindowSize
    rw [if_pos ⟨hfb, hw, hh⟩]
  refine ⟨h1 a, ?_⟩
  rw [h1 a, Option.some_bind, h1 a']

/-- Witness of C13: the drawn 4x8 framebuffer on its own 1x1 cell grid. -/
theorem updateWindowSize_noop_witness :
    stateDrawn.fb.isSome = true ∧ (1 : Int) = stateDrawn.Config.width_chars ∧
    (1 : Int) = stateDrawn.Config.height_chars ∧
    updateWindowSize true stateDrawn 1 1 = some stateDrawn ∧
    (updateWindowSize true stateDrawn 1 1).bind (fun s1 => updateWindowSize false s1 1 1)
      = updateWindowSize true stateDrawn 1 1 :=
  ⟨rfl, rfl, rfl, updateWindowSize_noop true false stateDrawn 1 1 rfl rfl rfl⟩

theorem kitty_update_display_preserves (m : Bool) (s s' : State)
    (h : kitty_update_display m s = some s') :
    s'.Config = s.Config ∧ s'.fb = s.fb ∧ s'.clip_rect = s.clip_rect := by
  unfold kitty_update_display at h
  simp only [] at h
  split at h
  · cases h; exact ⟨rfl, rfl, rfl⟩
  · split at h
    · split at h
      · split at h
        · cases h
        · split at h <;> (cases h; exact ⟨rfl, rfl, rfl⟩)
      · cases h
    · cases h

theorem crt_set_pixel_inv (s s' : State) (x y : Int) (c : Nat) (hinv : DisplayInv s)
    (h : crt_set_pixel s x y c = some s') : DisplayInv s' := by
  unfold crt_set_pixel at h
  split at h
  · cases h; exact hinv
  · split at h
    · cases h; exact hinv
    · simp only [] at h
      split at h
      · cases h
      · rename_i buf hb
        split at h
        · cases h
          obtain ⟨h1, h2, buf0, hb0, hl⟩ := hinv
          rw [hb] at hb0
          cases hb0
          exact ⟨h1, h2, _, rfl, by rw [store3_length]; exact hl⟩
        · cases h

theorem set_clip_rect_inv (s : State) (x y w h : Int) (hinv : DisplayInv s) :
    DisplayInv (set_clip_rect s x y w h) := by
  unfold set_clip_rect
  split <;> exact hinv

theorem updateWindowSize_inv (a : Bool) (s s' : State) (w h : Int)
    (hinv : s.fb = none ∨ DisplayInv s) (hs : updateWindowSize a s w h = some s') :
    DisplayInv s' := by
  unfold updateWindowSize at hs
  split at hs
  · rename_i hnoop
    cases hs
    rcases hinv with h0 | h0
    · simp [h0] at hnoop
    · exact h0
  · split at hs
    · cases hs
    · rename_i hfit
      simp only [not_not] at hfit
      obtain ⟨_, _, _, hfp⟩ := hfit
      simp only [] at hs
      split at hs
      · cases hs
      · rename_i buf hal
        cases hs
        refine ⟨by simp only [RESW]; ring, by simp only [RESH]; ring, buf, rfl, ?_⟩
        unfold alloc_zeroed at hal
        split at hal
        · rename_i hok
          cases hal
          simp only [List.length_replicate]
          unfold fits_int at hfp
          obtain ⟨_, hlt⟩ := hok
          generalize w * RESW * (h * RESH) * 3 = q at hfp hlt ⊢
          simp only [size_t] at hlt ⊢
          omega
        · cases hal

theorem step_inv (s s' : State) (op : Op) (hinv : DisplayInv s) (h : step s op = some s') :
    DisplayInv s' := by
  cases op with
  | resize a w h' => exact updateWindowSize_inv a s s' w h' (Or.inr hinv) h
  | set_pixel x y c => exact crt_set_pixel_inv s s' x y c hinv h
  | set_clip x y w h' =>
    simp only [step, Option.some.injEq] at h
    rw [← h]
    exact set_clip_rect_inv s x y w h' hinv
  | transmit m =>
    obtain ⟨hc, hf, _⟩ := kitty_update_display_preserves m s s' h
    obtain ⟨h1, h2, buf, hb, hl⟩ := hinv
    exact ⟨by rw [hc]; exact h1, by rw [hc]; exact h2, buf, by rw [hf]; exact hb,
      by rw [hc]; exact hl⟩

theorem run_inv : ∀ (ops : List Op) (s s' : State), DisplayInv s → run s ops = some s' →
    DisplayInv s' := by
  intro ops
  induction ops with
  | nil =>
    intro s s' hinv h
    simp only [run, Option.some.injEq] at h
    rw [← h]
    exact hinv
  | cons op ops ih =>
    intro s s' hinv h
    simp only [run] at h
    split at h
    · cases h
    · rename_i s1 hs1
      exact ih s1 s' (step_inv s s1 op hinv hs1) h

/-- C15: in every state reached from start-up (no framebuffer) by one
`updateWindowSize` call followed by any sequence of `updateWindowSize`,
pixel-drawing, clip and transmit operations, Config.width =
RESW * Config.width_chars, Config.height = RESH * Config.height_chars, and
the framebuffer is allocated with exactly Config.width * Config.height * 3
bytes. -/
theorem display_invariant (s0 s1 s2 : State) (a : Bool) (w h : Int) (ops : List Op)
    (h0 : s0.fb = none) (h1 : updateWindowSize a s0 w h = some s1)
    (h2 : run s1 ops = some s2) :
    s2.Config.width = RESW * s2.Config.width_chars ∧
    s2.Config.height = RESH * s2.Config.height_chars ∧
    ∃ buf, s2.fb = some buf ∧ (buf.length : Int) = s2.Config.width * s2.Config.height * 3 :=
  run_inv ops s1 s2 (updateWindowSize_inv a s0 s1 w h (Or.inl h0) h1) h2

set_option maxRecDepth 20000 in
/-- Witness of C15: start-up, a resize to 1x1 cells, then a clip command, a
pixel write, a transmission and a resize to 2x1 cells. -/
theorem display_invariant_witness :
    (stateStart true).fb = none ∧
    updateWindowSize true (stateStart true) 1 1 = some stateCell ∧
    (run stateCell opsDemo).isSome = true ∧
    ∀ s2, run stateCell opsDemo = some s2 →
      s2.Config.width = RESW * s2.Config.width_chars ∧
      s2.Config.height = RESH * s2.Config.height_chars ∧
      ∃ buf, s2.fb = some buf ∧
        (buf.length : Int) = s2.Config.width * s2.Config.height * 3 :=
  ⟨rfl, by decide, by decide, fun s2 h2 =>
    display_invariant (stateStart true) stateCell s2 true 1 1 opsDemo rfl (by decide) h2⟩

/-- C16 (as amended): for every terminal size with columns >= 1 and
rows >= 2 whose framebuffer size 96 * columns * (rows - 1) fits an `int`,
from start-up or from a state where the pixel size is the cell size times
`RESW` x `RESH`, the per-frame resize of `muBegin`
(`updateWindowSize(columns, rows - 1)`, allocation succeeding) returns with
Config.width > 0 and Config.height > 0. -/
theorem muBegin_resize_positive (s : State) (cols rows : Nat)
    (hs : s.fb = none ∨ (s.Config.width = RESW * s.Config.width_chars ∧
      s.Config.height = RESH * s.Config.height_chars))
    (hc : 1 ≤ cols) (hr : 2 ≤ rows) (hfit : 96 * cols * (rows - 1) ≤ 2147483647) :
    ∃ s', muBegin_resize true s cols rows = some s' ∧
      0 < s'.Config.width ∧ 0 < s'.Config.height := by
  unfold muBegin_resize
  by_cases hno : s.fb.isSome = true ∧ (cols : Int) = s.Config.width_chars ∧
      (rows : Int) - 1 = s.Config.height_chars
  · refine ⟨s, by unfold updateWindowSize; rw [if_pos hno], ?_⟩
    obtain ⟨hsome, hw, hh⟩ := hno
    rcases hs with h0 | ⟨h1, h2⟩
    · simp [h0] at hsome
    · rw [h1, h2, ← hw, ← hh]
      simp only [RESW, RESH]
      omega
  · have hcr : 1 ≤ cols * (rows - 1) := Nat.mul_pos hc (by omega)
    have hprod : ((cols : Int) * RESW * (((rows : Int) - 1) * RESH) * 3)
        = ((96 * cols * (rows - 1) : Nat) : Int) := by
      simp only [RESW, RESH]
      push_cast [Nat.cast_sub (show 1 ≤ rows by omega)]
      ring
    have hle : cols ≤ cols * (rows - 1) := Nat.le_mul_of_pos_right cols (by omega)
    have hle2 : rows - 1 ≤ cols * (rows - 1) := Nat.le_mul_of_pos_left (rows - 1) (by omega)
    have hmul : 96 * cols * (rows - 1) = 96 * (cols * (rows - 1)) := by ring
    obtain ⟨n, _, heq⟩ := updateWindowSize_fresh s cols ((rows : Int) - 1) hno
      (by unfold fits_int; simp only [RESW]; omega)
      (by unfold fits_int; simp only [RESH]; omega)
      (by rw [hprod]; unfold fits_int; omega)
      (by
        have : (0 : Int) ≤ (rows : Int) - 1 := by omega
        exact mul_nonneg (by omega) this)
    refine ⟨_, heq, ?_, ?_⟩
    · simp only [RESW]; omega
    · simp only [RESH]; omega

/-- Witness of C16 (as amended): an 80x24 terminal at start-up. -/
theorem muBegin_resize_positive_witness :
    ((stateStart true).fb = none ∨
      ((stateStart true).Config.width = RESW * (stateStart true).Config.width_chars ∧
       (stateStart true).Config.height = RESH * (stateStart true).Config.height_chars)) ∧
    1 ≤ 80 ∧ 2 ≤ 24 ∧ 96 * 80 * (24 - 1) ≤ 2147483647 ∧
    ∃ s', muBegin_resize true (stateStart true) 80 24 = some s' ∧
      0 < s'.Config.width ∧ 0 < s'.Config.height :=
  ⟨Or.inl rfl, by decide, by decide, by decide,
    muBegin_resize_positive (stateStart true) 80 24 (Or.inl rfl) (by decide) (by decide)
      (by decide)⟩

/-- C16 (counterexample): at start-up, a terminal reporting 0 columns and
24 rows gives Config.width = 0, and a terminal reporting 80 columns and 1
row gives Config.height = 0; neither is > 0. -/
theorem muBegin_resize_zero_size :
    (muBegin_resize true (stateStart true) 0 24).map
        (fun s' => (s'.Config.width, s'.Config.height)) = some (0, 184) ∧
    (muBegin_resize true (stateStart true) 80 1).map
        (fun s' => (s'.Config.width, s'.Config.height)) = some (320, 0) := by
  decide

theorem frame_packets_first (cfg : ConfigT) (fn : Int) (enc : List Nat) (N : Nat)
    (hN : 0 < N) :
    (frame_packets cfg fn enc N)[0]? = some (packet_at cfg fn enc N 0) := by
  have h : 0 < (N + 4095) / 4096 := by omega
  simp [frame_packets, List.getElem?_map, List.getElem?_range h]

theorem header_action_update (cfg : ConfigT) (fn : Int) (off m : Nat) (hfn : fn ≠ 0) :
    header_action (kitty_header cfg fn off m) ≠ some 'T' := by
  unfold kitty_header
  split <;> split <;> simp [header_action, String.data_append, hfn]

theorem header_action_classic_first (cfg : ConfigT) (fn : Int) (m : Nat) (hfn : fn ≠ 0)
    (hg : cfg.ghostty_mode = false) :
    header_action (kitty_header cfg fn 0 m) = some 'f' := by
  simp [kitty_header, hg, hfn, header_action, String.data_append]

/-- After frame 0: a transmission with frame_number != 0 leaves
frame_number as it is and prints no header with the create action `a=T`;
in the classic dialect its first header has the action `a=f`. -/
theorem update_frame_headers (t : State) (ht : FbReady t) (hfn : t.frame_number ≠ 0) :
    ∃ t', kitty_update_display true t = some t' ∧ t'.frame_number = t.frame_number ∧
      (∀ p ∈ data_packets (emitted t t'), header_action p.header ≠ some 'T') ∧
      (t.Config.ghostty_mode = false →
        ∀ p, (data_packets (emitted t t'))[0]? = some p →
          header_action p.header = some 'f') := by
  obtain ⟨t', hs, _, _, hpk, hf⟩ := kitty_frame t ht
  refine ⟨t', hs, by rw [hf, if_neg hfn], ?_, ?_⟩
  · intro p hp
    rw [hpk] at hp
    simp only [frame_packets, List.mem_map, List.mem_range] at hp
    obtain ⟨k, _, rfl⟩ := hp
    exact header_action_update _ _ _ _ hfn
  · intro hg p hp
    rw [hpk] at hp
    obtain ⟨_, rfl⟩ := frame_packets_get _ _ _ _ _ _ hp
    exact header_action_classic_first _ _ _ hfn hg

/-- On frame 0 the first data packet, when there is one, has the create
header of the current geometry, with the action `a=T`. -/
theorem frame0_first_header (s : State) (h : FbReady s) (h0 : s.frame_number = 0) :
    ∃ s', kitty_update_display true s = some s' ∧ s'.frame_number = 1 ∧
      (0 < (frame_blob s).length → ∃ p, (data_packets (emitted s s'))[0]? = some p) ∧
      ∀ p : Packet, (data_packets (emitted s s'))[0]? = some p →
        p.header = "\x1b_Ga=T,i=" ++ toString s.Config.render_id
          ++ ",f=24,s=" ++ toString s.Config.width ++ ",v=" ++ toString s.Config.height
          ++ ",q=2,c=" ++ toString s.Config.width_chars
          ++ ",r=" ++ toString s.Config.height_chars
          ++ ",m=" ++ (if 1 < (data_packets (emitted s s')).length then "1" else "0")
          ++ ";" ∧
        header_action p.header = some 'T' := by
  obtain ⟨s', hs, _, _, hpk, hf⟩ := kitty_frame s h
  refine ⟨s', hs, by rw [hf, if_pos h0], ?_, ?_⟩
  · intro hN
    exact ⟨_, by rw [hpk]; exact frame_packets_first _ _ _ _ hN⟩
  · intro p hp
    rw [hpk] at hp ⊢
    obtain ⟨hk, rfl⟩ := frame_packets_get _ _ _ _ _ _ hp
    rw [frame_packets_length]
    have e1 : toString (1 : Nat) = "1" := rfl
    have e0 : toString (0 : Nat) = "0" := rfl
    constructor
    · by_cases hm : 4096 < (frame_blob s).length
      · have h1 : 1 < ((frame_blob s).length + 4095) / 4096 := by omega
        by_cases hg : s.Config.ghostty_mode = true
        · simp [packet_at, kitty_header, hg, h0, hm, h1, e1]
        · simp [packet_at, kitty_header, hg, h0, hm, h1, e1]
      · have h1 : ¬ 1 < ((frame_blob s).length + 4095) / 4096 := by omega
        by_cases hg : s.Config.ghostty_mode = true
        · simp [packet_at, kitty_header, hg, h0, hm, h1, e0]
        · simp [packet_at, kitty_header, hg, h0, hm, h1, e0]
    · by_cases hg : s.Config.ghostty_mode = true
      · simp [packet_at, kitty_header, hg, h0, header_action, String.data_append]
      · simp [packet_at, kitty_header, hg, h0, header_action, String.data_append]

/-- The state a size-changing resize returns: frame 0, the new geometry, and
a non-empty framebuffer of the `Config` size when `w * h > 0`. -/
theorem updateWindowSize_fresh_ready (s : State) (w h : Int)
    (hchg : s.fb = none ∨ w ≠ s.Config.width_chars ∨ h ≠ s.Config.height_chars)
    (hfw : fits_int (w * RESW)) (hfh : fits_int (h * RESH))
    (hfp : fits_int (w * RESW * (h * RESH) * 3)) (hpos : 0 < w * h) :
    ∃ s1, updateWindowSize true s w h = some s1 ∧ s1.frame_number = 0 ∧
      s1.Config.render_id = s.Config.render_id ∧
      s1.Config.width = 4 * w ∧ s1.Config.height = 8 * h ∧
      s1.Config.width_chars = w ∧ s1.Config.height_chars = h ∧
      FbReady s1 ∧ 0 < (frame_blob s1).length := by
  have hc : ¬ (s.fb.isSome = true ∧ w = s.Config.width_chars ∧ h = s.Config.height_chars) := by
    rintro ⟨h1, h2, h3⟩
    rcases hchg with h0 | h0 | h0
    · simp [h0] at h1
    · exact h0 h2
    · exact h0 h3
  obtain ⟨n, hn, heq⟩ := updateWindowSize_fresh s w h hc hfw hfh hfp (le_of_lt hpos)
  have hnpos : 0 < n := by
    have : (0 : Int) < w * RESW * (h * RESH) * 3 := by
      have e : w * RESW * (h * RESH) * 3 = 96 * (w * h) := by simp only [RESW, RESH]; ring
      rw [e]; omega
    omega
  have hlen : ((List.replicate n 0 : List Nat).length : Int)
      = w * RESW * (h * RESH) * 3 := by
    rw [List.length_replicate]; exact hn
  have hint : w * RESW * (h * RESH) * 3 < 2 ^ 31 := by
    have := hfp.2
    norm_num
    omega
  refine ⟨_, heq, rfl, rfl, by simp only [RESW]; ring, by simp only [RESH]; ring, rfl, rfl,
    ⟨List.replicate n 0, rfl, hlen, hint⟩, ?_⟩
  rw [(frame_blob_eq _ (List.replicate n 0) rfl hlen hint).2, List.length_replicate]
  omega

/-- C14: after an `updateWindowSize(w,h)` call that changes the cell-grid
size (or creates the framebuffer; sizes fitting an `int`, non-empty
framebuffer, allocation succeeding), frame_number is 0 and the next
`kitty_update_display` starts with the create header
`ESC _ G a=T,i=<render_id>,f=24,s=<4w>,v=<8h>,q=2,c=<w>,r=<h>,m=<flag> ;`
of the new geometry, whatever the dialect, and leaves frame_number at 1;
and every transmission made with frame_number != 0 prints no header with
the create action `a=T` (in the classic dialect its first header has the
action `a=f`) and leaves frame_number unchanged. -/
theorem resize_resets_to_create (s : State) (w h : Int)
    (hchg : s.fb = none ∨ w ≠ s.Config.width_chars ∨ h ≠ s.Config.height_chars)
    (hfw : fits_int (w * RESW)) (hfh : fits_int (h * RESH))
    (hfp : fits_int (w * RESW * (h * RESH) * 3)) (hpos : 0 < w * h) :
    (∃ s1 s2 p, updateWindowSize true s w h = some s1 ∧ s1.frame_number = 0 ∧
      kitty_update_display true s1 = some s2 ∧
      (data_packets (emitted s1 s2))[0]? = some p ∧
      p.header = "\x1b_Ga=T,i=" ++ toString s.Config.render_id
        ++ ",f=24,s=" ++ toString (4 * w) ++ ",v=" ++ toString (8 * h)
        ++ ",q=2,c=" ++ toString w ++ ",r=" ++ toString h
        ++ ",m=" ++ (if 1 < (data_packets (emitted s1 s2)).length then "1" else "0") ++ ";" ∧
      header_action p.header = some 'T' ∧
      s2.frame_number = 1) ∧
    (∀ t, FbReady t → t.frame_number ≠ 0 →
      ∃ t', kitty_update_display true t = some t' ∧ t'.frame_number = t.frame_number ∧
        (∀ p ∈ data_packets (emitted t t'), header_action p.header ≠ some 'T') ∧
        (t.Config.ghostty_mode = false →
          ∀ p, (data_packets (emitted t t'))[0]? = some p →
            header_action p.header = some 'f')) := by
  refine ⟨?_, update_frame_headers⟩
  obtain ⟨s1, hs1, hf1, hid, hw, hh, hwc, hhc, hready, hN⟩ :=
    updateWindowSize_fresh_ready s w h hchg hfw hfh hfp hpos
  obtain ⟨s2, hs2, hf2, hex, hhdr⟩ := frame0_first_header s1 hready hf1
  obtain ⟨p, hp⟩ := hex hN
  obtain ⟨hph, hpa⟩ := hhdr p hp
  rw [hid, hw, hh, hwc, hhc] at hph
  exact ⟨s1, s2, p, hs1, hf1, hs2, hp, hph, hpa, hf2⟩

/-- Witness of C14: start-up in the classic dialect, resized to a 3x2 cell
grid. -/
theorem resize_resets_to_create_witness :
    ((stateStart false).fb = none ∨ (3 : Int) ≠ (stateStart false).Config.width_chars ∨
      (2 : Int) ≠ (stateStart false).Config.height_chars) ∧
    fits_int (3 * RESW) ∧ fits_int (2 * RESH) ∧ fits_int (3 * RESW * (2 * RESH) * 3) ∧
    (0 : Int) < 3 * 2 ∧
    (∃ s1 s2 p, updateWindowSize true (stateStart false) 3 2 = some s1 ∧
      s1.frame_number = 0 ∧
      kitty_update_display true s1 = some s2 ∧
      (data_packets (emitted s1 s2))[0]? = some p ∧
      p.header = "\x1b_Ga=T,i=" ++ toString (stateStart false).Config.render_id
        ++ ",f=24,s=" ++ toString (4 * (3 : Int)) ++ ",v=" ++ toString (8 * (2 : Int))
        ++ ",q=2,c=" ++ toString (3 : Int) ++ ",r=" ++ toString (2 : Int)
        ++ ",m=" ++ (if 1 < (data_packets (emitted s1 s2)).length then "1" else "0") ++ ";" ∧
      header_action p.header = some 'T' ∧
      s2.frame_number = 1) ∧
    (∀ t, FbReady t → t.frame_number ≠ 0 →
      ∃ t', kitty_update_display true t = some t' ∧ t'.frame_number = t.frame_number ∧
        (∀ p ∈ data_packets (emitted t t'), header_action p.header ≠ some 'T') ∧
        (t.Config.ghostty_mode = false →
          ∀ p, (data_packets (emitted t t'))[0]? = some p →
            header_action p.header = some 'f')) :=
  ⟨Or.inl rfl, by decide, by decide, by decide, by decide,
    resize_resets_to_create (stateStart false) 3 2 (Or.inl rfl) (by decide) (by decide)
      (by decide) (by decide)⟩

/-! ### `process_input` -/

/-- C17: for the one-byte chunk [27], `process_input` returns 1 (quit
requested) and makes no call on the GUI context: no key, text, mouse or
scroll event. -/
theorem process_input_escape (cfg : ConfigT) :
    process_input cfg [27] = some ⟨1, []⟩ := by
  rfl

/-- C18: for every one-byte chunk [b], `process_input` returns 1 (quit
requested) iff b is 27 or 3, and then feeds no event; it feeds exactly
KeyControl(Backspace) iff b is 127, exactly KeyControl(Return) iff b is 13,
exactly KeyText of the single byte b iff 32 <= b <= 126; for every other
byte it feeds no event and returns 0. -/
theorem process_input_one_byte (cfg : ConfigT) (b : Nat) :
    ∃ r, process_input cfg [b] = some r ∧
      (r.ret = 1 ↔ b = 27 ∨ b = 3) ∧
      (r.ret = 1 → r.calls = []) ∧
      (r.calls = [MuInput.keydown MuKey.MU_KEY_BACKSPACE] ↔ b = 127) ∧
      (r.calls = [MuInput.keydown MuKey.MU_KEY_RETURN] ↔ b = 13) ∧
      (r.calls = [MuInput.text [b]] ↔ 32 ≤ b ∧ b ≤ 126) ∧
      (¬ (b = 27 ∨ b = 3 ∨ b = 127 ∨ b = 13 ∨ (32 ≤ b ∧ b ≤ 126)) →
        r = ⟨0, []⟩) ∧
      (r.ret = 0 ∨ r.ret = 1) := by
  simp only [process_input, List.length_singleton, one_ne_zero, if_false, List.take,
    List.headD_cons, if_true, isprint, decide_eq_true_eq]
  by_cases h27 : b = 27
  · subst h27; simp
  · by_cases h127 : b = 127
    · subst h127; simp
    · by_cases hp : 32 ≤ b ∧ b ≤ 126
      · simp only [if_neg h27, if_neg h127, if_pos hp]
        refine ⟨_, rfl, ?_⟩
        simp [hp]
        omega
      · by_cases h13 : b = 13
        · subst h13; simp
        · by_cases h3 : b = 3
          · subst h3; simp
          · simp only [if_neg h27, if_neg h127, if_neg hp, if_neg h13, if_neg h3]
            refine ⟨_, rfl, ?_⟩
            simp [h27, h3, h127, h13, hp]

theorem scan_digits_append : ∀ (ds rest : List Nat) (acc : Nat),
    (∀ c ∈ ds, 48 ≤ c ∧ c ≤ 57) → (∀ c r, rest = c :: r → isdigit c = false) →
    scan_digits acc (ds ++ rest) = (ds.foldl (fun a c => a * 10 + (c - 48)) acc, rest) := by
  intro ds
  induction ds with
  | nil =>
    intro rest acc _ hr
    cases rest with
    | nil => rfl
    | cons c r => simp [scan_digits, hr c r rfl]
  | cons d ds ih =>
    intro rest acc hd hr
    have hdd : isdigit d = true := by
      have := hd d (by simp)
      simp [isdigit, this]
    simp only [List.cons_append, scan_digits, hdd, if_true, List.foldl_cons]
    exact ih rest _ (fun c hc => hd c (by simp [hc])) hr

theorem scan_int_digits (ds rest : List Nat) (hd : is_digits ds)
    (hr : ∀ c r, rest = c :: r → isdigit c = false) :
    scan_int (ds ++ rest) = some ((decimal_value ds : Int), rest) := by
  obtain ⟨hne, hall⟩ := hd
  cases ds with
  | nil => exact absurd rfl hne
  | cons d ds' =>
    have hd1 := hall d (by simp)
    have hsp : isspace d = false := by simp [isspace]; omega
    have hdg : isdigit d = true := by simp [isdigit, hd1]
    have h45 : ¬ d = 45 := by omega
    have h43 : ¬ d = 43 := by omega
    have key := scan_digits_append (d :: ds') rest 0 hall hr
    simp only [List.cons_append] at key
    simp only [scan_int, List.cons_append, List.dropWhile_cons, hsp, Bool.false_eq_true,
      if_false, if_neg h45, if_neg h43, hdg, if_true, key, decimal_value]

theorem sscanf_mouse_sgr (bs xs ys : List Nat) (e : Nat) (extra : List Nat)
    (hb : is_digits bs) (hx : is_digits xs) (hy : is_digits ys) (he : isdigit e = false) :
    sscanf_mouse (sgr_chunk bs xs ys e ++ extra)
      = some ((decimal_value bs : Int), (decimal_value xs : Int), (decimal_value ys : Int), e) := by
  have h59 : ∀ (t : List Nat) (c : Nat) (r : List Nat), 59 :: t = c :: r →
      isdigit c = false := by
    intro t c r h
    cases h
    rfl
  have hE : ∀ (c : Nat) (r : List Nat), e :: extra = c :: r → isdigit c = false := by
    intro c r h
    cases h
    exact he
  have e1 := scan_int_digits bs (59 :: (xs ++ 59 :: (ys ++ e :: extra))) hb (h59 _)
  have e2 := scan_int_digits xs (59 :: (ys ++ e :: extra)) hx (h59 _)
  have e3 := scan_int_digits ys (e :: extra) hy hE
  have hform : sgr_chunk bs xs ys e ++ extra
      = 27 :: 91 :: 60 :: (bs ++ 59 :: (xs ++ 59 :: (ys ++ e :: extra))) := by
    simp [sgr_chunk]
  rw [hform]
  simp only [sscanf_mouse, e1, e2, e3]

/-- `process_input` on one SGR mouse report of at most 63 bytes reaches the
event handling with the numbers of the report. -/
theorem process_input_sgr (cfg : ConfigT) (bs xs ys : List Nat) (e : Nat)
    (hb : is_digits bs) (hx : is_digits xs) (hy : is_digits ys)
    (he : isdigit e = false) (he0 : e ≠ 0) (hlen : (sgr_chunk bs xs ys e).length ≤ 63) :
    process_input cfg (sgr_chunk bs xs ys e)
      = mouse_events cfg (decimal_value bs) (decimal_value xs) (decimal_value ys) e := by
  have hbl : 1 ≤ bs.length := List.length_pos.mpr hb.1
  have hxl : 1 ≤ xs.length := List.length_pos.mpr hx.1
  have hyl : 1 ≤ ys.length := List.length_pos.mpr hy.1
  have hl : (sgr_chunk bs xs ys e).length = bs.length + xs.length + ys.length + 6 := by
    simp [sgr_chunk]; omega
  have htake : (sgr_chunk bs xs ys e).take 63 = sgr_chunk bs xs ys e :=
    List.take_of_length_le hlen
  have h3 : (sgr_chunk bs xs ys e).take 3 = [27, 91, 60] := by
    simp [sgr_chunk]
  have hnz : ∀ c ∈ sgr_chunk bs xs ys e, c ≠ 0 := by
    intro c hc
    simp only [sgr_chunk, List.mem_append, List.mem_cons, List.mem_singleton,
      List.not_mem_nil, or_false] at hc
    rcases hc with ((((((h | h | h) | h) | h) | h) | h) | h) | h
    · omega
    · omega
    · omega
    · have := hb.2 c h; omega
    · omega
    · have := hx.2 c h; omega
    · omega
    · have := hy.2 c h; omega
    · omega
  have htw : (sgr_chunk bs xs ys e).takeWhile (fun c => decide (c ≠ 0)) = sgr_chunk bs xs ys e := by
    rw [List.takeWhile_eq_self_iff]
    intro c hc
    simpa using hnz c hc
  have hscan := sscanf_mouse_sgr bs xs ys e [] hb hx hy he
  rw [List.append_nil] at hscan
  unfold process_input
  rw [if_neg (by omega)]
  simp only [htake]
  rw [if_neg (by omega), if_pos ⟨by omega, h3⟩, htw, hscan]

theorem to_int32_of_fits (n : Int) (h : fits_int n) : to_int32 n = n := by
  unfold fits_int at h
  unfold to_int32
  omega

/-- C19 (as amended): for every decimal button code with bits 5 and 6 clear
(`button & 32 = 0`, `button & 64 = 0`) and low two bits 0, 1 or 2, all
decimal x and y whose products (x-1)*Config.width and (y-1)*Config.height
fit an `int`, and non-zero cell counts, the chunk `ESC [ < button ; x ; y M`
(at most 63 bytes) makes `process_input` return 0 with exactly one event,
the press of the left, middle or right button (low bits 0, 1, 2) at pixel
((x-1)*Config.width/Config.width_chars,
(y-1)*Config.height/Config.height_chars), and the same chunk ending in `m`
yields the release of that button at the same pixel. -/
theorem process_input_button (cfg : ConfigT) (bs xs ys : List Nat)
    (hb : is_digits bs) (hx : is_digits xs) (hy : is_digits ys)
    (hlen : (sgr_chunk bs xs ys 77).length ≤ 63)
    (h5 : Int.land (decimal_value bs) 32 = 0) (h6 : Int.land (decimal_value bs) 64 = 0)
    (hlow : Int.land (decimal_value bs) 3 = 0 ∨ Int.land (decimal_value bs) 3 = 1 ∨
      Int.land (decimal_value bs) 3 = 2)
    (hwc : cfg.width_chars ≠ 0) (hhc : cfg.height_chars ≠ 0)
    (hfx : fits_int (((decimal_value xs : Int) - 1) * cfg.width))
    (hfy : fits_int (((decimal_value ys : Int) - 1) * cfg.height)) :
    process_input cfg (sgr_chunk bs xs ys 77) = some ⟨0,
      [MuInput.mousedown
        (Int.tdiv (((decimal_value xs : Int) - 1) * cfg.width) cfg.width_chars)
        (Int.tdiv (((decimal_value ys : Int) - 1) * cfg.height) cfg.height_chars)
        (if Int.land (decimal_value bs) 3 = 0 then MuMouse.MU_MOUSE_LEFT
          else if Int.land (decimal_value bs) 3 = 1 then MuMouse.MU_MOUSE_MIDDLE
          else MuMouse.MU_MOUSE_RIGHT)]⟩ ∧
    process_input cfg (sgr_chunk bs xs ys 109) = some ⟨0,
      [MuInput.mouseup
        (Int.tdiv (((decimal_value xs : Int) - 1) * cfg.width) cfg.width_chars)
        (Int.tdiv (((decimal_value ys : Int) - 1) * cfg.height) cfg.height_chars)
        (if Int.land (decimal_value bs) 3 = 0 then MuMouse.MU_MOUSE_LEFT
          else if Int.land (decimal_value bs) 3 = 1 then MuMouse.MU_MOUSE_MIDDLE
          else MuMouse.MU_MOUSE_RIGHT)]⟩ := by
  have hlen' : (sgr_chunk bs xs ys 109).length ≤ 63 := by
    have : (sgr_chunk bs xs ys 109).length = (sgr_chunk bs xs ys 77).length := by
      simp [sgr_chunk]
    omega
  rw [process_input_sgr cfg bs xs ys 77 hb hx hy (by decide) (by decide) hlen,
    process_input_sgr cfg bs xs ys 109 hb hx hy (by decide) (by decide) hlen']
  have hz : ¬ (cfg.width_chars = 0 ∨ cfg.height_chars = 0) := by
    rintro (h | h)
    · exact hwc h
    · exact hhc h
  simp only [mouse_events, if_neg hz, h5, h6, ne_eq, not_true_eq_false, if_false, if_true,
    List.nil_append, to_int32_of_fits _ hfx, to_int32_of_fits _ hfy]
  rcases hlow with h | h | h
  · simp [h]
  · simp [h]
  · simp [h]

/-- Witness of C19 (as amended): the chunk `ESC [ < 0 ; 10 ; 5 M` on a
display of 20x10 cells and 80x80 pixels (width = 4*width_chars,
height = 8*height_chars) gives a left press at (36,32), and with `m` the
release. -/
theorem process_input_button_witness :
    (is_digits [48] ∧ is_digits [49, 48] ∧ is_digits [53] ∧
      (sgr_chunk [48] [49, 48] [53] 77).length ≤ 63 ∧
      Int.land (decimal_value [48]) 32 = 0 ∧ Int.land (decimal_value [48]) 64 = 0 ∧
      configCells.width_chars ≠ 0 ∧ configCells.height_chars ≠ 0 ∧
      fits_int (((decimal_value [49, 48] : Int) - 1) * configCells.width) ∧
      fits_int (((decimal_value [53] : Int) - 1) * configCells.height)) ∧
    process_input configCells (sgr_chunk [48] [49, 48] [53] 77) = some ⟨0,
      [MuInput.mousedown 36 32 MuMouse.MU_MOUSE_LEFT]⟩ ∧
    process_input configCells (sgr_chunk [48] [49, 48] [53] 109) = some ⟨0,
      [MuInput.mouseup 36 32 MuMouse.MU_MOUSE_LEFT]⟩ :=
  ⟨by decide, process_input_button configCells [48] [49, 48] [53] (by decide) (by decide)
    (by decide) (by decide) (by decide) (by decide) (Or.inl (by decide)) (by decide)
    (by decide) (by decide) (by decide)⟩

/-- C19 (counterexample): on a display of 80x24 cells and 320x192 pixels the
chunk `ESC [ < 0 ; 6710888 ; 1 M` feeds a left press at x = -26843543: the
`int` product (6710888 - 1) * 320 = 2147483840 does not fit an `int` and
wraps to -2147483456, so the press is not at
(x-1)*Config.width/Config.width_chars = 26843548. -/
theorem button_position_overflow :
    process_input configEighty (sgr_chunk [48] [54, 55, 49, 48, 56, 56, 56] [49] 77)
      = some ⟨0, [MuInput.mousedown (-26843543) 0 MuMouse.MU_MOUSE_LEFT]⟩ ∧
    (decimal_value [54, 55, 49, 48, 56, 56, 56] : Int) = 6710888 ∧
    Int.tdiv (((decimal_value [54, 55, 49, 48, 56, 56, 56] : Int) - 1) * configEighty.width)
      configEighty.width_chars = 26843548 ∧
    ¬ fits_int (((decimal_value [54, 55, 49, 48, 56, 56, 56] : Int) - 1)
      * configEighty.width) := by
  decide

/-- C20 (as amended): for every SGR mouse chunk `ESC [ < button ; x ; y M`
or `... m` (at most 63 bytes, non-zero cell counts, products
(x-1)*Config.width and (y-1)*Config.height that fit an `int`) whose button
code has bit 5 set, `process_input` returns 0 and feeds exactly one
MouseMove at the scaled position, as its first event; nothing follows it
when bit 6 is set or the low two bits are not 0, 1 or 2; when bit 6 is clear
and the low two bits are 0, 1 or 2 the MouseMove is followed by the press
(`M`) or release (`m`) of that button at the same position. -/
theorem process_input_motion (cfg : ConfigT) (bs xs ys : List Nat) (e : Nat)
    (hb : is_digits bs) (hx : is_digits xs) (hy : is_digits ys)
    (he : e = 77 ∨ e = 109)
    (hlen : (sgr_chunk bs xs ys e).length ≤ 63)
    (h5 : Int.land (decimal_value bs) 32 ≠ 0)
    (hwc : cfg.width_chars ≠ 0) (hhc : cfg.height_chars ≠ 0)
    (hfx : fits_int (((decimal_value xs : Int) - 1) * cfg.width))
    (hfy : fits_int (((decimal_value ys : Int) - 1) * cfg.height)) :
    ∃ rest, process_input cfg (sgr_chunk bs xs ys e) = some ⟨0,
        MuInput.mousemove
          (Int.tdiv (((decimal_value xs : Int) - 1) * cfg.width) cfg.width_chars)
          (Int.tdiv (((decimal_value ys : Int) - 1) * cfg.height) cfg.height_chars)
        :: rest⟩ ∧
      (∀ px py, MuInput.mousemove px py ∉ rest) ∧
      (Int.land (decimal_value bs) 64 ≠ 0 ∨
        (Int.land (decimal_value bs) 3 ≠ 0 ∧ Int.land (decimal_value bs) 3 ≠ 1 ∧
          Int.land (decimal_value bs) 3 ≠ 2) → rest = []) ∧
      (Int.land (decimal_value bs) 64 = 0 →
        (Int.land (decimal_value bs) 3 = 0 ∨ Int.land (decimal_value bs) 3 = 1 ∨
          Int.land (decimal_value bs) 3 = 2) →
        rest = [(if e = 77 then MuInput.mousedown else MuInput.mouseup)
          (Int.tdiv (((decimal_value xs : Int) - 1) * cfg.width) cfg.width_chars)
          (Int.tdiv (((decimal_value ys : Int) - 1) * cfg.height) cfg.height_chars)
          (if Int.land (decimal_value bs) 3 = 0 then MuMouse.MU_MOUSE_LEFT
            else if Int.land (decimal_value bs) 3 = 1 then MuMouse.MU_MOUSE_MIDDLE
            else MuMouse.MU_MOUSE_RIGHT)]) := by
  have hed : isdigit e = false := by rcases he with h | h <;> subst h <;> rfl
  have he0 : e ≠ 0 := by omega
  rw [process_input_sgr cfg bs xs ys e hb hx hy hed he0 hlen]
  have hz : ¬ (cfg.width_chars = 0 ∨ cfg.height_chars = 0) := by
    rintro (h | h)
    · exact hwc h
    · exact hhc h
  have n64 : (decimal_value bs : Int) ≠ 64 := by
    intro h; rw [h] at h5; exact h5 (by decide)
  have n65 : (decimal_value bs : Int) ≠ 65 := by
    intro h; rw [h] at h5; exact h5 (by decide)
  have n66 : (decimal_value bs : Int) ≠ 66 := by
    intro h; rw [h] at h5; exact h5 (by decide)
  have n67 : (decimal_value bs : Int) ≠ 67 := by
    intro h; rw [h] at h5; exact h5 (by decide)
  simp only [mouse_events, if_neg hz, h5, ne_eq, not_false_eq_true, if_true,
    List.singleton_append, to_int32_of_fits _ hfx, to_int32_of_fits _ hfy]
  by_cases h6 : Int.land (decimal_value bs) 64 = 0
  · simp only [h6, not_true_eq_false, if_false]
    by_cases l0 : Int.land (decimal_value bs) 3 = 0
    · rcases he with h | h <;> subst h <;> simp [l0]
    · by_cases l1 : Int.land (decimal_value bs) 3 = 1
      · rcases he with h | h <;> subst h <;> simp [l1]
      · by_cases l2 : Int.land (decimal_value bs) 3 = 2
        · rcases he with h | h <;> subst h <;> simp [l2]
        · simp [l0, l1, l2]
  · simp [h6, n64, n65, n66, n67]

/-- Witness of C20 (as amended): the chunk `ESC [ < 35 ; 10 ; 5 M` (motion,
no button held) on the display of 20x10 cells. -/
theorem process_input_motion_witness :
    (is_digits [51, 53] ∧ is_digits [49, 48] ∧ is_digits [53] ∧
      ((77 : Nat) = 77 ∨ (77 : Nat) = 109) ∧
      (sgr_chunk [51, 53] [49, 48] [53] 77).length ≤ 63 ∧
      Int.land (decimal_value [51, 53]) 32 ≠ 0 ∧
      configCells.width_chars ≠ 0 ∧ configCells.height_chars ≠ 0 ∧
      fits_int (((decimal_value [49, 48] : Int) - 1) * configCells.width) ∧
      fits_int (((decimal_value [53] : Int) - 1) * configCells.height)) ∧
    ∃ rest, process_input configCells (sgr_chunk [51, 53] [49, 48] [53] 77) = some ⟨0,
        MuInput.mousemove
          (Int.tdiv (((decimal_value [49, 48] : Int) - 1) * configCells.width)
            configCells.width_chars)
          (Int.tdiv (((decimal_value [53] : Int) - 1) * configCells.height)
            configCells.height_chars)
        :: rest⟩ ∧
      (∀ px py, MuInput.mousemove px py ∉ rest) ∧
      (Int.land (decimal_value [51, 53]) 64 ≠ 0 ∨
        (Int.land (decimal_value [51, 53]) 3 ≠ 0 ∧ Int.land (decimal_value [51, 53]) 3 ≠ 1 ∧
          Int.land (decimal_value [51, 53]) 3 ≠ 2) → rest = []) ∧
      (Int.land (decimal_value [51, 53]) 64 = 0 →
        (Int.land (decimal_value [51, 53]) 3 = 0 ∨ Int.land (decimal_value [51, 53]) 3 = 1 ∨
          Int.land (decimal_value [51, 53]) 3 = 2) →
        rest = [(if (77 : Nat) = 77 then MuInput.mousedown else MuInput.mouseup)
          (Int.tdiv (((decimal_value [49, 48] : Int) - 1) * configCells.width)
            configCells.width_chars)
          (Int.tdiv (((decimal_value [53] : Int) - 1) * configCells.height)
            configCells.height_chars)
          (if Int.land (decimal_value [51, 53]) 3 = 0 then MuMouse.MU_MOUSE_LEFT
            else if Int.land (decimal_value [51, 53]) 3 = 1 then MuMouse.MU_MOUSE_MIDDLE
            else MuMouse.MU_MOUSE_RIGHT)]) :=
  ⟨by decide, process_input_motion configCells [51, 53] [49, 48] [53] 77 (by decide)
    (by decide) (by decide) (Or.inl rfl) (by decide) (by decide) (by decide) (by decide)
    (by decide) (by decide)⟩

/-- C20 (counterexample): the chunk `ESC [ < 32 ; 10 ; 5 M` (motion with
the left button held: bit 5 set, bit 6 clear, low bits 0) on the display of
20x10 cells feeds a MouseMove at (36,32) and then a press of the left
button: the event is not a pure motion event.  And on the display of 80x24
cells the chunk `ESC [ < 35 ; 6710888 ; 1 M` feeds its MouseMove at
x = -26843543, where the `int` product (6710888 - 1) * 320 has wrapped, not
at the scaled position 26843548. -/
theorem motion_with_button_presses :
    Int.land 32 32 ≠ 0 ∧
    process_input configCells (sgr_chunk [51, 50] [49, 48] [53] 77) = some ⟨0,
      [MuInput.mousemove 36 32, MuInput.mousedown 36 32 MuMouse.MU_MOUSE_LEFT]⟩ ∧
    process_input configEighty (sgr_chunk [51, 53] [54, 55, 49, 48, 56, 56, 56] [49] 77)
      = some ⟨0, [MuInput.mousemove (-26843543) 0]⟩ ∧
    Int.tdiv (((decimal_value [54, 55, 49, 48, 56, 56, 56] : Int) - 1) * configEighty.width)
      configEighty.width_chars = 26843548 := by
  decide

theorem cells_nonzero (cfg : ConfigT) (hwc : cfg.width_chars ≠ 0)
    (hhc : cfg.height_chars ≠ 0) : ¬ (cfg.width_chars = 0 ∨ cfg.height_chars = 0) := by
  rintro (h | h)
  · exact hwc h
  · exact hhc h

/-- C21 (as amended): for every well-formed SGR mouse chunk (at most 63
bytes, non-zero cell counts) whose button code is exactly 64, 65, 66 or 67,
`process_input` returns 0 with exactly one event, the Scroll with the fixed
step FONT_SIZE = 8: 64 up = (0,-8), 65 down = (0,+8), 66 left = (-8,0), 67
right = (+8,0); for every other button code with bit 6 set it feeds no
Scroll event. -/
theorem process_input_scroll (cfg : ConfigT) (bs xs ys : List Nat) (e : Nat)
    (hb : is_digits bs) (hx : is_digits xs) (hy : is_digits ys)
    (he : e = 77 ∨ e = 109)
    (hlen : (sgr_chunk bs xs ys e).length ≤ 63)
    (hwc : cfg.width_chars ≠ 0) (hhc : cfg.height_chars ≠ 0) :
    (decimal_value bs = 64 →
      process_input cfg (sgr_chunk bs xs ys e) = some ⟨0, [MuInput.scroll 0 (-8)]⟩) ∧
    (decimal_value bs = 65 →
      process_input cfg (sgr_chunk bs xs ys e) = some ⟨0, [MuInput.scroll 0 8]⟩) ∧
    (decimal_value bs = 66 →
      process_input cfg (sgr_chunk bs xs ys e) = some ⟨0, [MuInput.scroll (-8) 0]⟩) ∧
    (decimal_value bs = 67 →
      process_input cfg (sgr_chunk bs xs ys e) = some ⟨0, [MuInput.scroll 8 0]⟩) ∧
    (Int.land (decimal_value bs) 64 ≠ 0 →
      decimal_value bs ≠ 64 → decimal_value bs ≠ 65 → decimal_value bs ≠ 66 →
      decimal_value bs ≠ 67 →
      ∃ r, process_input cfg (sgr_chunk bs xs ys e) = some r ∧ r.ret = 0 ∧
        ∀ dx dy, MuInput.scroll dx dy ∉ r.calls) := by
  have hed : isdigit e = false := by rcases he with h | h <;> subst h <;> rfl
  have he0 : e ≠ 0 := by omega
  rw [process_input_sgr cfg bs xs ys e hb hx hy hed he0 hlen]
  have hz := cells_nonzero cfg hwc hhc
  refine ⟨?_, ?_, ?_, ?_, ?_⟩
  · intro h
    have h6 : Int.land ((64 : Nat) : Int) 64 ≠ 0 := by decide
    have h5 : Int.land ((64 : Nat) : Int) 32 = 0 := by decide
    rw [h]
    simp only [mouse_events, if_neg hz, h6, h5, ne_eq, not_true_eq_false, not_false_eq_true,
      if_true, if_false, List.nil_append, FONT_SIZE]
    rfl
  · intro h
    have h6 : Int.land ((65 : Nat) : Int) 64 ≠ 0 := by decide
    have h5 : Int.land ((65 : Nat) : Int) 32 = 0 := by decide
    rw [h]
    simp only [mouse_events, if_neg hz, h6, h5, ne_eq, not_true_eq_false, not_false_eq_true,
      if_true, if_false, List.nil_append, FONT_SIZE]
    rfl
  · intro h
    have h6 : Int.land ((66 : Nat) : Int) 64 ≠ 0 := by decide
    have h5 : Int.land ((66 : Nat) : Int) 32 = 0 := by decide
    rw [h]
    simp only [mouse_events, if_neg hz, h6, h5, ne_eq, not_true_eq_false, not_false_eq_true,
      if_true, if_false, List.nil_append, FONT_SIZE]
    rfl
  · intro h
    have h6 : Int.land ((67 : Nat) : Int) 64 ≠ 0 := by decide
    have h5 : Int.land ((67 : Nat) : Int) 32 = 0 := by decide
    rw [h]
    simp only [mouse_events, if_neg hz, h6, h5, ne_eq, not_true_eq_false, not_false_eq_true,
      if_true, if_false, List.nil_append, FONT_SIZE]
    rfl
  · intro h6 n64 n65 n66 n67
    have m64 : ¬ ((decimal_value bs : Nat) : Int) = 64 := by exact_mod_cast n64
    have m65 : ¬ ((decimal_value bs : Nat) : Int) = 65 := by exact_mod_cast n65
    have m66 : ¬ ((decimal_value bs : Nat) : Int) = 66 := by exact_mod_cast n66
    have m67 : ¬ ((decimal_value bs : Nat) : Int) = 67 := by exact_mod_cast n67
    simp only [mouse_events, if_neg hz, h6, ne_eq, not_false_eq_true, if_true, if_neg m64,
      if_neg m65, if_neg m66, if_neg m67]
    refine ⟨_, rfl, rfl, ?_⟩
    intro dx dy
    split <;> simp

/-- Witness of C21 (as amended): the chunk `ESC [ < 65 ; 10 ; 5 M` (wheel
down) on the display of 20x10 cells. -/
theorem process_input_scroll_witness :
    (is_digits [54, 53] ∧ is_digits [49, 48] ∧ is_digits [53] ∧
      (sgr_chunk [54, 53] [49, 48] [53] 77).length ≤ 63 ∧
      configCells.width_chars ≠ 0 ∧ configCells.height_chars ≠ 0 ∧
      decimal_value [54, 53] = 65) ∧
    process_input configCells (sgr_chunk [54, 53] [49, 48] [53] 77)
      = some ⟨0, [MuInput.scroll 0 8]⟩ :=
  ⟨by decide, (process_input_scroll configCells [54, 53] [49, 48] [53] 77 (by decide)
    (by decide) (by decide) (Or.inl rfl) (by decide) (by decide) (by decide)).2.1 (by decide)⟩

/-- C21 (counterexample): the chunk `ESC [ < 68 ; 10 ; 5 M` (wheel up with
the shift modifier: bit 6 set, low two bits 0) on the display of 20x10
cells feeds no event at all, so no Scroll event. -/
theorem scroll_with_modifier_is_dropped :
    Int.land 68 64 ≠ 0 ∧ Int.land 68 3 = 0 ∧
    process_input configCells (sgr_chunk [54, 56] [49, 48] [53] 77) = some ⟨0, []⟩ := by
  decide

/-- C22: for every SGR mouse chunk (at most 63 bytes, non-zero cell counts)
whose button code has bit 6 set, whatever the low bits are and for either
trailing letter, `process_input` returns 0 and feeds no MouseButton press
and no MouseButton release. -/
theorem process_input_scroll_no_button (cfg : ConfigT) (bs xs ys : List Nat) (e : Nat)
    (hb : is_digits bs) (hx : is_digits xs) (hy : is_digits ys)
    (he : e = 77 ∨ e = 109)
    (hlen : (sgr_chunk bs xs ys e).length ≤ 63)
    (h6 : Int.land (decimal_value bs) 64 ≠ 0)
    (hwc : cfg.width_chars ≠ 0) (hhc : cfg.height_chars ≠ 0) :
    ∃ r, process_input cfg (sgr_chunk bs xs ys e) = some r ∧ r.ret = 0 ∧
      ∀ px py btn, MuInput.mousedown px py btn ∉ r.calls ∧
        MuInput.mouseup px py btn ∉ r.calls := by
  have hed : isdigit e = false := by rcases he with h | h <;> subst h <;> rfl
  have he0 : e ≠ 0 := by omega
  rw [process_input_sgr cfg bs xs ys e hb hx hy hed he0 hlen]
  have hz := cells_nonzero cfg hwc hhc
  simp only [mouse_events, if_neg hz, h6, ne_eq, not_false_eq_true, if_true]
  split
  · refine ⟨_, rfl, rfl, ?_⟩
    intro px py btn
    split <;> simp
  · split
    · refine ⟨_, rfl, rfl, ?_⟩
      intro px py btn
      split <;> simp
    · split
      · refine ⟨_, rfl, rfl, ?_⟩
        intro px py btn
        split <;> simp
      · split
        · refine ⟨_, rfl, rfl, ?_⟩
          intro px py btn
          split <;> simp
        · refine ⟨_, rfl, rfl, ?_⟩
          intro px py btn
          split <;> simp

/-- Witness of C22: the chunk `ESC [ < 64 ; 10 ; 5 m` (wheel up, low bits 0,
trailing `m`) on the display of 20x10 cells. -/
theorem process_input_scroll_no_button_witness :
    (is_digits [54, 52] ∧ is_digits [49, 48] ∧ is_digits [53] ∧
      ((109 : Nat) = 77 ∨ (109 : Nat) = 109) ∧
      (sgr_chunk [54, 52] [49, 48] [53] 109).length ≤ 63 ∧
      Int.land (decimal_value [54, 52]) 64 ≠ 0 ∧
      configCells.width_chars ≠ 0 ∧ configCells.height_chars ≠ 0) ∧
    ∃ r, process_input configCells (sgr_chunk [54, 52] [49, 48] [53] 109) = some r ∧
      r.ret = 0 ∧
      ∀ px py btn, MuInput.mousedown px py btn ∉ r.calls ∧
        MuInput.mouseup px py btn ∉ r.calls :=
  ⟨by decide, process_input_scroll_no_button configCells [54, 52] [49, 48] [53] 109
    (by decide) (by decide) (by decide) (Or.inr rfl) (by decide) (by decide) (by decide)
    (by decide)⟩

/-- The shape of the events of one mouse report: an optional MouseMove (bit
5) followed by nothing, one Scroll, one press or one release. -/
theorem mouse_events_shape (cfg : ConfigT) (button x y : Int) (e : Nat)
    (hz : ¬ (cfg.width_chars = 0 ∨ cfg.height_chars = 0)) :
    ∃ tail, mouse_events cfg button x y e = some ⟨0,
        (if Int.land button 32 ≠ 0 then
          [MuInput.mousemove (Int.tdiv (to_int32 ((x - 1) * cfg.width)) cfg.width_chars)
            (Int.tdiv (to_int32 ((y - 1) * cfg.height)) cfg.height_chars)] else []) ++ tail⟩ ∧
      (tail = [] ∨ (∃ dx dy, tail = [MuInput.scroll dx dy]) ∨
        (∃ btn, tail = [MuInput.mousedown (Int.tdiv (to_int32 ((x - 1) * cfg.width)) cfg.width_chars)
          (Int.tdiv (to_int32 ((y - 1) * cfg.height)) cfg.height_chars) btn]) ∨
        (∃ btn, tail = [MuInput.mouseup (Int.tdiv (to_int32 ((x - 1) * cfg.width)) cfg.width_chars)
          (Int.tdiv (to_int32 ((y - 1) * cfg.height)) cfg.height_chars) btn])) := by
  unfold mouse_events
  simp only [if_neg hz]
  generalize (if Int.land button 32 ≠ 0 then
    [MuInput.mousemove (Int.tdiv (to_int32 ((x - 1) * cfg.width)) cfg.width_chars)
      (Int.tdiv (to_int32 ((y - 1) * cfg.height)) cfg.height_chars)] else []) = motion
  split_ifs <;> first
    | exact ⟨_, rfl, Or.inr (Or.inl ⟨_, _, rfl⟩)⟩
    | exact ⟨_, rfl, Or.inr (Or.inr (Or.inl ⟨_, rfl⟩))⟩
    | exact ⟨_, rfl, Or.inr (Or.inr (Or.inr ⟨_, rfl⟩))⟩
    | exact ⟨[], by rw [List.append_nil], Or.inl rfl⟩

/-- Every positioned call of the event handling carries the pixel position
computed from x and y. -/
theorem mouse_events_positions (cfg : ConfigT) (button x y : Int) (e : Nat) (r : InputResult)
    (h : mouse_events cfg button x y e = some r) :
    ∀ ev ∈ r.calls, ∀ p, event_position ev = some p →
      p = (Int.tdiv (to_int32 ((x - 1) * cfg.width)) cfg.width_chars,
           Int.tdiv (to_int32 ((y - 1) * cfg.height)) cfg.height_chars) := by
  by_cases hz : cfg.width_chars = 0 ∨ cfg.height_chars = 0
  · unfold mouse_events at h
    rw [if_pos hz] at h
    cases h
  · obtain ⟨tail, ht, hshape⟩ := mouse_events_shape cfg button x y e hz
    rw [ht] at h
    cases h
    intro ev hev p hp
    simp only [List.mem_append] at hev
    rcases hev with hev | hev
    · split at hev
      · simp only [List.mem_singleton] at hev
        subst hev
        simp only [event_position, Option.some.injEq] at hp
        exact hp.symm
      · cases hev
    · rcases hshape with h0 | ⟨dx, dy, h0⟩ | ⟨btn, h0⟩ | ⟨btn, h0⟩ <;> subst h0
      · cases hev
      · simp only [List.mem_singleton] at hev
        subst hev
        simp [event_position] at hp
      · simp only [List.mem_singleton] at hev
        subst hev
        simp only [event_position, Option.some.injEq] at hp
        exact hp.symm
      · simp only [List.mem_singleton] at hev
        subst hev
        simp only [event_position, Option.some.injEq] at hp
        exact hp.symm

theorem mouse_events_returns (cfg : ConfigT) (button x y : Int) (e : Nat)
    (hwc : cfg.width_chars ≠ 0) (hhc : cfg.height_chars ≠ 0) :
    ∃ r, mouse_events cfg button x y e = some r ∧ r.ret = 0 ∧
      (Int.land button 32 ≠ 0 →
        MuInput.mousemove (Int.tdiv (to_int32 ((x - 1) * cfg.width)) cfg.width_chars)
          (Int.tdiv (to_int32 ((y - 1) * cfg.height)) cfg.height_chars) ∈ r.calls) := by
  obtain ⟨tail, ht, _⟩ := mouse_events_shape cfg button x y e (cells_nonzero cfg hwc hhc)
  refine ⟨_, ht, rfl, ?_⟩
  intro h5
  simp [h5]

/-- C25 (as amended): under the display invariant (Config.width =
4*width_chars, Config.height = 8*height_chars, both cell counts > 0), for
every SGR mouse chunk `ESC [ < button ; x ; y final` (at most 63 bytes)
whose products (x-1)*Config.width and (y-1)*Config.height fit an `int`,
`process_input` returns, and the pixel position of every positioned event it
feeds (move, press, release) is exactly (4*(x-1), 8*(y-1)) (a MouseMove at
that position is fed when bit 5 is set); hence for 1 <= x <= width_chars and
1 <= y <= height_chars every such position lies inside
[0,Config.width) x [0,Config.height). -/
theorem process_input_pixel_position (cfg : ConfigT) (bs xs ys : List Nat) (e : Nat)
    (hb : is_digits bs) (hx : is_digits xs) (hy : is_digits ys)
    (he : e = 77 ∨ e = 109)
    (hlen : (sgr_chunk bs xs ys e).length ≤ 63)
    (hw : cfg.width = 4 * cfg.width_chars) (hh : cfg.height = 8 * cfg.height_chars)
    (hwc : 0 < cfg.width_chars) (hhc : 0 < cfg.height_chars)
    (hfx : fits_int (((decimal_value xs : Int) - 1) * cfg.width))
    (hfy : fits_int (((decimal_value ys : Int) - 1) * cfg.height)) :
    ∃ r, process_input cfg (sgr_chunk bs xs ys e) = some r ∧
      (∀ ev ∈ r.calls, ∀ p, event_position ev = some p →
        p = (4 * ((decimal_value xs : Int) - 1), 8 * ((decimal_value ys : Int) - 1))) ∧
      (Int.land (decimal_value bs) 32 ≠ 0 →
        MuInput.mousemove (4 * ((decimal_value xs : Int) - 1))
          (8 * ((decimal_value ys : Int) - 1)) ∈ r.calls) ∧
      (1 ≤ decimal_value xs → (decimal_value xs : Int) ≤ cfg.width_chars →
        1 ≤ decimal_value ys → (decimal_value ys : Int) ≤ cfg.height_chars →
        ∀ ev ∈ r.calls, ∀ p, event_position ev = some p →
          0 ≤ p.1 ∧ p.1 < cfg.width ∧ 0 ≤ p.2 ∧ p.2 < cfg.height) := by
  have hed : isdigit e = false := by rcases he with h | h <;> subst h <;> rfl
  have he0 : e ≠ 0 := by omega
  rw [process_input_sgr cfg bs xs ys e hb hx hy hed he0 hlen]
  have hwc0 : cfg.width_chars ≠ 0 := by omega
  have hhc0 : cfg.height_chars ≠ 0 := by omega
  have ex : Int.tdiv (to_int32 (((decimal_value xs : Int) - 1) * cfg.width)) cfg.width_chars
      = 4 * ((decimal_value xs : Int) - 1) := by
    rw [to_int32_of_fits _ hfx, hw, show ((decimal_value xs : Int) - 1) * (4 * cfg.width_chars)
      = (4 * ((decimal_value xs : Int) - 1)) * cfg.width_chars by ring]
    exact Int.mul_tdiv_cancel _ hwc0
  have ey : Int.tdiv (to_int32 (((decimal_value ys : Int) - 1) * cfg.height)) cfg.height_chars
      = 8 * ((decimal_value ys : Int) - 1) := by
    rw [to_int32_of_fits _ hfy, hh, show ((decimal_value ys : Int) - 1) * (8 * cfg.height_chars)
      = (8 * ((decimal_value ys : Int) - 1)) * cfg.height_chars by ring]
    exact Int.mul_tdiv_cancel _ hhc0
  obtain ⟨r, hr, _, hmove⟩ := mouse_events_returns cfg (decimal_value bs) (decimal_value xs)
    (decimal_value ys) e hwc0 hhc0
  have hpos := mouse_events_positions cfg _ _ _ e r hr
  rw [ex, ey] at hpos hmove
  refine ⟨r, hr, hpos, hmove, ?_⟩
  intro hx1 hxw hy1 hyh ev hev p hp
  rw [hpos ev hev p hp]
  simp only
  omega

/-- Witness of C25 (as amended): the chunk `ESC [ < 35 ; 10 ; 5 M` on the
display of 20x10 cells and 80x80 pixels. -/
theorem process_input_pixel_position_witness :
    (is_digits [51, 53] ∧ is_digits [49, 48] ∧ is_digits [53] ∧
      ((77 : Nat) = 77 ∨ (77 : Nat) = 109) ∧
      (sgr_chunk [51, 53] [49, 48] [53] 77).length ≤ 63 ∧
      configCells.width = 4 * configCells.width_chars ∧
      configCells.height = 8 * configCells.height_chars ∧
      0 < configCells.width_chars ∧ 0 < configCells.height_chars ∧
      fits_int (((decimal_value [49, 48] : Int) - 1) * configCells.width) ∧
      fits_int (((decimal_value [53] : Int) - 1) * configCells.height)) ∧
    ∃ r, process_input configCells (sgr_chunk [51, 53] [49, 48] [53] 77) = some r ∧
      (∀ ev ∈ r.calls, ∀ p, event_position ev = some p →
        p = (4 * ((decimal_value [49, 48] : Int) - 1),
             8 * ((decimal_value [53] : Int) - 1))) ∧
      (Int.land (decimal_value [51, 53]) 32 ≠ 0 →
        MuInput.mousemove (4 * ((decimal_value [49, 48] : Int) - 1))
          (8 * ((decimal_value [53] : Int) - 1)) ∈ r.calls) ∧
      (1 ≤ decimal_value [49, 48] → (decimal_value [49, 48] : Int) ≤ configCells.width_chars →
        1 ≤ decimal_value [53] → (decimal_value [53] : Int) ≤ configCells.height_chars →
        ∀ ev ∈ r.calls, ∀ p, event_position ev = some p →
          0 ≤ p.1 ∧ p.1 < configCells.width ∧ 0 ≤ p.2 ∧ p.2 < configCells.height) :=
  ⟨by decide, process_input_pixel_position configCells [51, 53] [49, 48] [53] 77 (by decide)
    (by decide) (by decide) (Or.inl rfl) (by decide) (by decide) (by decide) (by decide)
    (by decide) (by decide) (by decide)⟩

/-- C25 (counterexample): the display of 30000x1 cells and 120000x8 pixels
satisfies the display invariant, and the cell (30000, 1) lies in its grid;
the chunk `ESC [ < 35 ; 30000 ; 1 M` feeds a MouseMove at x = -23169, outside
[0, Config.width) and not 4*(30000-1) = 119996: the `int` product
29999 * 120000 = 3599880000 does not fit an `int` and wraps to -695087296. -/
theorem pixel_position_overflow :
    configWide.width = 4 * configWide.width_chars ∧
    configWide.height = 8 * configWide.height_chars ∧
    0 < configWide.width_chars ∧ 0 < configWide.height_chars ∧
    (decimal_value [51, 48, 48, 48, 48] : Int) = 30000 ∧
    (decimal_value [51, 48, 48, 48, 48] : Int) ≤ configWide.width_chars ∧
    (decimal_value [49] : Int) = 1 ∧
    process_input configWide (sgr_chunk [51, 53] [51, 48, 48, 48, 48] [49] 77)
      = some ⟨0, [MuInput.mousemove (-23169) 0]⟩ ∧
    4 * ((decimal_value [51, 48, 48, 48, 48] : Int) - 1) = 119996 ∧
    ¬ fits_int (((decimal_value [51, 48, 48, 48, 48] : Int) - 1) * configWide.width) := by
  decide

theorem scan_digits_inv : ∀ (l : List Nat) (acc v : Nat) (rest : List Nat),
    scan_digits acc l = (v, rest) →
    ∃ ds, l = ds ++ rest ∧ (∀ c ∈ ds, 48 ≤ c ∧ c ≤ 57) ∧
      (∀ c r, rest = c :: r → isdigit c = false) := by
  intro l
  induction l with
  | nil =>
    intro acc v rest h
    simp only [scan_digits, Prod.mk.injEq] at h
    obtain ⟨_, rfl⟩ := h
    exact ⟨[], rfl, by simp, by simp⟩
  | cons c cs ih =>
    intro acc v rest h
    simp only [scan_digits] at h
    by_cases hc : isdigit c = true
    · rw [if_pos hc] at h
      obtain ⟨ds, hds, hall, hr⟩ := ih _ _ _ h
      refine ⟨c :: ds, by rw [hds]; rfl, ?_, hr⟩
      intro d hd
      rcases List.mem_cons.mp hd with rfl | hd
      · simpa [isdigit] using hc
      · exact hall d hd
    · rw [if_neg hc] at h
      simp only [Prod.mk.injEq] at h
      obtain ⟨_, rfl⟩ := h
      refine ⟨[], rfl, by simp, ?_⟩
      intro d r hdr
      cases hdr
      simpa using hc

/-- The digits a successful `scan_digits` read are at least one when the
input starts with a digit. -/
theorem scan_digits_inv_nonempty (d : Nat) (cs : List Nat) (v : Nat) (rest : List Nat)
    (hd : isdigit d = true) (h : scan_digits 0 (d :: cs) = (v, rest)) :
    ∃ ds, d :: cs = ds ++ rest ∧ is_digits ds ∧
      (∀ c r, rest = c :: r → isdigit c = false) := by
  obtain ⟨ds, hds, hall, hr⟩ := scan_digits_inv _ _ _ _ h
  refine ⟨ds, hds, ⟨?_, hall⟩, hr⟩
  rintro rfl
  simp only [List.nil_append] at hds
  have := hr d cs hds.symm
  rw [hd] at this
  cases this

theorem scan_int_inv (l : List Nat) (v : Int) (rest : List Nat)
    (h : scan_int l = some (v, rest)) :
    ∃ t, int_text t ∧ l = t ++ rest ∧ (∀ c r, rest = c :: r → isdigit c = false) := by
  have hsplit : l = l.takeWhile (fun c => isspace c) ++ l.dropWhile (fun c => isspace c) :=
    (List.takeWhile_append_dropWhile _ l).symm
  have hws : ∀ c ∈ l.takeWhile (fun c => isspace c), isspace c = true :=
    fun c hc => List.mem_takeWhile_imp hc
  unfold scan_int at h
  generalize l.dropWhile (fun c => isspace c) = l' at h hsplit
  generalize l.takeWhile (fun c => isspace c) = ws at hws hsplit
  cases l' with
  | nil => cases h
  | cons c cs =>
    simp only [] at h
    by_cases h45 : c = 45
    · rw [if_pos h45] at h
      cases cs with
      | nil => cases h
      | cons d cs' =>
        simp only [] at h
        by_cases hd : isdigit d = true
        · rw [if_pos hd] at h
          simp only [Option.some.injEq, Prod.mk.injEq] at h
          obtain ⟨ds, hds, hdig, hr⟩ := scan_digits_inv_nonempty d cs' _ rest hd
            (by rw [← h.2])
          refine ⟨ws ++ [45] ++ ds, ⟨ws, [45], ds, rfl, hws, Or.inr (Or.inr rfl), hdig⟩, ?_, hr⟩
          rw [hsplit, h45, hds]
          simp
        · rw [if_neg hd] at h
          cases h
    · rw [if_neg h45] at h
      by_cases h43 : c = 43
      · rw [if_pos h43] at h
        cases cs with
        | nil => cases h
        | cons d cs' =>
          simp only [] at h
          by_cases hd : isdigit d = true
          · rw [if_pos hd] at h
            simp only [Option.some.injEq, Prod.mk.injEq] at h
            obtain ⟨ds, hds, hdig, hr⟩ := scan_digits_inv_nonempty d cs' _ rest hd
              (by rw [← h.2])
            refine ⟨ws ++ [43] ++ ds, ⟨ws, [43], ds, rfl, hws, Or.inr (Or.inl rfl), hdig⟩, ?_,
              hr⟩
            rw [hsplit, h43, hds]
            simp
          · rw [if_neg hd] at h
            cases h
      · rw [if_neg h43] at h
        by_cases hd : isdigit c = true
        · rw [if_pos hd] at h
          simp only [Option.some.injEq, Prod.mk.injEq] at h
          obtain ⟨ds, hds, hdig, hr⟩ := scan_digits_inv_nonempty c cs _ rest hd
            (by rw [← h.2])
          refine ⟨ws ++ [] ++ ds, ⟨ws, [], ds, rfl, hws, Or.inl rfl, hdig⟩, ?_, hr⟩
          rw [hsplit, hds]
          simp
        · rw [if_neg hd] at h
          cases h

/-- When `sscanf` assigns all four conversions, the C string begins with a
match of the format. -/
theorem sscanf_mouse_inv (cstr : List Nat) (r : Int × Int × Int × Nat)
    (h : sscanf_mouse cstr = some r) : matches_mouse_format cstr := by
  unfold sscanf_mouse at h
  split at h
  · rename_i r0
    split at h
    · rename_i button r1 h1
      split at h
      · rename_i x r2 h2
        split at h
        · rename_i y c rest h3
          obtain ⟨tb, hb, eb, _⟩ := scan_int_inv _ _ _ h1
          obtain ⟨tx, hx, ex, _⟩ := scan_int_inv _ _ _ h2
          obtain ⟨ty, hy, ey, hc⟩ := scan_int_inv _ _ _ h3
          refine ⟨tb, tx, ty, c, rest, hb, hx, hy, hc c rest rfl, ?_⟩
          rw [eb, ex, ey]
          simp
        · cases h
      · cases h
    · cases h
  · cases h

/-- C24: every chunk of two or more bytes whose C string does not begin with
a match of `ESC [ < int ; int ; int char` (arrow-key sequences, pasted
text, truncated or malformed mouse reports, a chunk that merely starts with
ESC) makes `process_input` return 0 without any call on the GUI context: no
key, text, mouse or scroll event and no quit request. -/
theorem process_input_unrecognized (cfg : ConfigT) (pending : List Nat)
    (hlen : 2 ≤ pending.length)
    (hno : ¬ matches_mouse_format ((pending.take 63).takeWhile (fun c => c ≠ 0))) :
    process_input cfg pending = some ⟨0, []⟩ := by
  have hscan : sscanf_mouse ((pending.take 63).takeWhile (fun c => c ≠ 0)) = none := by
    cases hs : sscanf_mouse ((pending.take 63).takeWhile (fun c => c ≠ 0)) with
    | none => rfl
    | some r => exact absurd (sscanf_mouse_inv _ r hs) hno
  have hn : (pending.take 63).length ≠ 1 := by
    rw [List.length_take]
    omega
  unfold process_input
  rw [if_neg (by omega)]
  simp only []
  rw [if_neg hn]
  split
  · rw [hscan]
  · rfl

/-- Witness of C24: the arrow-key sequence `ESC [ A`. -/
theorem process_input_unrecognized_witness :
    2 ≤ [27, 91, 65].length ∧
    ¬ matches_mouse_format (([27, 91, 65].take 63).takeWhile (fun c => c ≠ 0)) ∧
    process_input configCells [27, 91, 65] = some ⟨0, []⟩ :=
  have hno : ¬ matches_mouse_format (([27, 91, 65].take 63).takeWhile (fun c => c ≠ 0)) := by
    rintro ⟨b, x, y, c, rest, _, _, _, _, h⟩
    have h2 := congrArg (fun l => l.getD 2 0) h
    simp at h2
  ⟨by decide, hno, process_input_unrecognized configCells [27, 91, 65] (by decide) hno⟩

theorem process_input_scan_none (cfg : ConfigT) (pending : List Nat)
    (hlen : 2 ≤ pending.length)
    (hscan : sscanf_mouse ((pending.take 63).takeWhile (fun c => c ≠ 0)) = none) :
    process_input cfg pending = some ⟨0, []⟩ := by
  have hn : (pending.take 63).length ≠ 1 := by
    rw [List.length_take]
    omega
  unfold process_input
  rw [if_neg (by omega)]
  simp only []
  rw [if_neg hn]
  split
  · rw [hscan]
  · rfl

theorem process_input_no_escape (cfg : ConfigT) (pending : List Nat)
    (hlen : 2 ≤ pending.length) (hesc : 27 ∉ pending) :
    process_input cfg pending = some ⟨0, []⟩ := by
  have hn : (pending.take 63).length ≠ 1 := by
    rw [List.length_take]
    omega
  have h3 : ¬ ((pending.take 63).length > 5 ∧ (pending.take 63).take 3 = [27, 91, 60]) := by
    rintro ⟨_, h⟩
    have hm : 27 ∈ (pending.take 63).take 3 := by rw [h]; simp
    exact hesc (List.mem_of_mem_take (List.mem_of_mem_take hm))
  unfold process_input
  rw [if_neg (by omega)]
  simp only []
  rw [if_neg hn, if_neg h3]

theorem scan_int_all_digits (ds : List Nat) (hd : ∀ c ∈ ds, 48 ≤ c ∧ c ≤ 57) :
    scan_int ds = none ∨ ∃ v, scan_int ds = some (v, []) := by
  by_cases hne : ds = []
  · subst hne
    exact Or.inl rfl
  · have := scan_int_digits ds [] ⟨hne, hd⟩ (by simp)
    rw [List.append_nil] at this
    exact Or.inr ⟨_, this⟩

/-- A digit field followed by `;`, cut after `j` bytes: either only digits
are left, or the whole field, the `;` and a cut of what follows. -/
theorem take_field (ds tail : List Nat) (j : Nat) :
    (j ≤ ds.length ∧ (ds ++ 59 :: tail).take j = ds.take j) ∨
    (ds.length < j ∧ (ds ++ 59 :: tail).take j = ds ++ 59 :: tail.take (j - ds.length - 1)) := by
  by_cases h : j ≤ ds.length
  · left
    refine ⟨h, ?_⟩
    rw [List.take_append_eq_append_take, show j - ds.length = 0 by omega]
    simp
  · right
    refine ⟨by omega, ?_⟩
    obtain ⟨m, hm⟩ : ∃ m, j - ds.length = m + 1 := ⟨j - ds.length - 1, by omega⟩
    rw [List.take_append_eq_append_take, hm, List.take_succ_cons,
      List.take_of_length_le (by omega), Nat.add_sub_cancel]

/-- `sscanf` does not assign all four conversions on a proper prefix of an
SGR mouse report. -/
theorem sscanf_mouse_prefix (bs xs ys : List Nat) (e k : Nat)
    (hb : is_digits bs) (hx : is_digits xs) (hy : is_digits ys)
    (hk : k < (sgr_chunk bs xs ys e).length) :
    sscanf_mouse ((sgr_chunk bs xs ys e).take k) = none := by
  have hform : sgr_chunk bs xs ys e
      = 27 :: 91 :: 60 :: (bs ++ 59 :: (xs ++ 59 :: (ys ++ [e]))) := by
    simp [sgr_chunk]
  have hl : (sgr_chunk bs xs ys e).length = bs.length + xs.length + ys.length + 6 := by
    simp [sgr_chunk]; omega
  have h59 : ∀ (t : List Nat) (c : Nat) (r : List Nat), 59 :: t = c :: r →
      isdigit c = false := by
    intro t c r h
    cases h
    rfl
  have dtake : ∀ (ds : List Nat) (n : Nat), (∀ c ∈ ds, 48 ≤ c ∧ c ≤ 57) →
      ∀ c ∈ ds.take n, 48 ≤ c ∧ c ≤ 57 :=
    fun ds n h c hc => h c (List.mem_of_mem_take hc)
  rw [hform]
  match k, hk with
  | 0, _ => rfl
  | 1, _ => rfl
  | 2, _ => rfl
  | j + 3, hk =>
    simp only [List.take_succ_cons]
    rcases take_field bs (xs ++ 59 :: (ys ++ [e])) j with ⟨_, e1⟩ | ⟨h1, e1⟩
    · rw [e1]
      rcases scan_int_all_digits (bs.take j) (dtake bs j hb.2) with h | ⟨v, h⟩ <;>
        simp only [sscanf_mouse, h]
    · rw [e1]
      have s1 := scan_int_digits bs (59 :: (xs ++ 59 :: (ys ++ [e])).take (j - bs.length - 1))
        hb (h59 _)
      rcases take_field xs (ys ++ [e]) (j - bs.length - 1) with ⟨_, e2⟩ | ⟨h2, e2⟩
      · rw [e2] at s1 ⊢
        rcases scan_int_all_digits (xs.take (j - bs.length - 1))
          (dtake xs _ hx.2) with h | ⟨v, h⟩ <;>
          simp only [sscanf_mouse, s1, h]
      · rw [e2] at s1 ⊢
        have s2 := scan_int_digits xs
          (59 :: (ys ++ [e]).take (j - bs.length - 1 - xs.length - 1)) hx (h59 _)
        have e3 : (ys ++ [e]).take (j - bs.length - 1 - xs.length - 1)
            = ys.take (j - bs.length - 1 - xs.length - 1) := by
          rw [List.take_append_eq_append_take,
            show j - bs.length - 1 - xs.length - 1 - ys.length = 0 by omega]
          simp
        rw [e3] at s1 s2 ⊢
        rcases scan_int_all_digits (ys.take (j - bs.length - 1 - xs.length - 1))
          (dtake ys _ hy.2) with h | ⟨v, h⟩ <;>
          simp only [sscanf_mouse, s1, s2, h]

theorem sgr_chunk_tail (bs xs ys : List Nat) (e : Nat)
    (hb : is_digits bs) (hx : is_digits xs) (hy : is_digits ys) (he : e = 77 ∨ e = 109) :
    ∃ t, sgr_chunk bs xs ys e = 27 :: t ∧ (∀ c ∈ t, c ≠ 0 ∧ c ≠ 27) := by
  refine ⟨91 :: 60 :: (bs ++ 59 :: (xs ++ 59 :: (ys ++ [e]))), by simp [sgr_chunk], ?_⟩
  intro c hc
  simp only [List.mem_cons, List.mem_append, List.mem_singleton, List.not_mem_nil,
    or_false] at hc
  rcases hc with h | h | h | h | h | h | h | h
  · omega
  · omega
  · have := hb.2 c h; omega
  · omega
  · have := hx.2 c h; omega
  · omega
  · have := hy.2 c h; omega
  · omega

/-- C23 (as amended): for every well-formed SGR mouse sequence s (at most
63 bytes) and every split point k, a first fragment s[0..k) of two or more
bytes (1 < k < |s|) and a second fragment s[k..|s|) of two or more bytes
(0 < k < |s| - 1) are unrecognized: `process_input` returns 0 and feeds no
event; so for 1 < k < |s| - 1 neither call produces an event.  At k = 1
the first fragment is the single byte ESC and requests quit; at
k = |s| - 1 the second fragment is the single final letter and is fed as
text. -/
theorem process_input_split (cfg : ConfigT) (bs xs ys : List Nat) (e k : Nat)
    (hb : is_digits bs) (hx : is_digits xs) (hy : is_digits ys)
    (he : e = 77 ∨ e = 109)
    (hlen : (sgr_chunk bs xs ys e).length ≤ 63) :
    (1 < k → k < (sgr_chunk bs xs ys e).length →
      process_input cfg ((sgr_chunk bs xs ys e).take k) = some ⟨0, []⟩) ∧
    (0 < k → k + 1 < (sgr_chunk bs xs ys e).length →
      process_input cfg ((sgr_chunk bs xs ys e).drop k) = some ⟨0, []⟩) ∧
    process_input cfg ((sgr_chunk bs xs ys e).take 1) = some ⟨1, []⟩ ∧
    process_input cfg ((sgr_chunk bs xs ys e).drop ((sgr_chunk bs xs ys e).length - 1))
      = some ⟨0, [MuInput.text [e]]⟩ := by
  obtain ⟨t, ht, hnz⟩ := sgr_chunk_tail bs xs ys e hb hx hy he
  have hall : ∀ c ∈ sgr_chunk bs xs ys e, c ≠ 0 := by
    intro c hc
    rw [ht] at hc
    rcases List.mem_cons.mp hc with rfl | hc
    · omega
    · exact (hnz c hc).1
  refine ⟨?_, ?_, ?_, ?_⟩
  · intro h1 hk
    have hlk : ((sgr_chunk bs xs ys e).take k).length = k := by
      rw [List.length_take]; omega
    have h63 : ((sgr_chunk bs xs ys e).take k).take 63 = (sgr_chunk bs xs ys e).take k :=
      List.take_of_length_le (by omega)
    have htw : ((sgr_chunk bs xs ys e).take k).takeWhile (fun c => decide (c ≠ 0))
        = (sgr_chunk bs xs ys e).take k := by
      rw [List.takeWhile_eq_self_iff]
      intro c hc
      simpa using hall c (List.mem_of_mem_take hc)
    apply process_input_scan_none cfg _ (by omega)
    rw [h63, htw]
    exact sscanf_mouse_prefix bs xs ys e k hb hx hy hk
  · intro h0 hk
    apply process_input_no_escape cfg _ (by rw [List.length_drop]; omega)
    intro hm
    obtain ⟨j, rfl⟩ : ∃ j, k = j + 1 := ⟨k - 1, by omega⟩
    rw [ht, List.drop_succ_cons] at hm
    exact (hnz 27 (List.mem_of_mem_drop hm)).2 rfl
  · rw [ht]
    rfl
  · have hform : sgr_chunk bs xs ys e = ([27, 91, 60] ++ bs ++ [59] ++ xs ++ [59] ++ ys) ++ [e] :=
      rfl
    have hd : (sgr_chunk bs xs ys e).drop ((sgr_chunk bs xs ys e).length - 1) = [e] := by
      rw [hform, List.length_append, List.length_singleton, Nat.add_sub_cancel,
        List.drop_left]
    rw [hd]
    rcases he with h | h <;> subst h <;> rfl

/-- Witness of C23 (as amended): the report `ESC [ < 0 ; 10 ; 5 M` split
after 6 bytes. -/
theorem process_input_split_witness :
    (is_digits [48] ∧ is_digits [49, 48] ∧ is_digits [53] ∧
      ((77 : Nat) = 77 ∨ (77 : Nat) = 109) ∧
      (sgr_chunk [48] [49, 48] [53] 77).length ≤ 63) ∧
    (1 < 6 → 6 < (sgr_chunk [48] [49, 48] [53] 77).length →
      process_input configCells ((sgr_chunk [48] [49, 48] [53] 77).take 6) = some ⟨0, []⟩) ∧
    (0 < 6 → 6 + 1 < (sgr_chunk [48] [49, 48] [53] 77).length →
      process_input configCells ((sgr_chunk [48] [49, 48] [53] 77).drop 6) = some ⟨0, []⟩) ∧
    process_input configCells ((sgr_chunk [48] [49, 48] [53] 77).take 1) = some ⟨1, []⟩ ∧
    process_input configCells ((sgr_chunk [48] [49, 48] [53] 77).drop
        ((sgr_chunk [48] [49, 48] [53] 77).length - 1))
      = some ⟨0, [MuInput.text [77]]⟩ :=
  ⟨by decide, process_input_split configCells [48] [49, 48] [53] 77 6 (by decide) (by decide)
    (by decide) (Or.inl rfl) (by decide)⟩

/-- C23 (counterexample): the report `ESC [ < 0 ; 10 ; 5 M` (10 bytes) split
at k = 1 gives the first fragment `ESC`, for which `process_input` returns
1 (quit requested); split at k = 9 it gives the second fragment `M`, which
is fed to the GUI as text. -/
theorem split_fragment_is_recognized :
    (sgr_chunk [48] [49, 48] [53] 77).length = 10 ∧
    process_input configCells ((sgr_chunk [48] [49, 48] [53] 77).take 1) = some ⟨1, []⟩ ∧
    process_input configCells ((sgr_chunk [48] [49, 48] [53] 77).drop 9)
      = some ⟨0, [MuInput.text [77]]⟩ := by
  decide

/-! ### Rasterizer -/

theorem loop_over_id {σ : Type} (body : Nat → σ → Option σ)
    (hbody : ∀ i s, body i s = some s) : ∀ (l : List Nat) (s : σ), loop_over l body s = some s := by
  intro l
  induction l with
  | nil => intro s; rfl
  | cons i rest ih =>
    intro s
    simp only [loop_over, hbody]
    exact ih s

/-- A loop whose body always returns and keeps a property returns and keeps
it. -/
theorem loop_over_inv {σ : Type} (P : σ → Prop) (body : Nat → σ → Option σ)
    (hbody : ∀ i s, P s → ∃ s', body i s = some s' ∧ P s') :
    ∀ (l : List Nat) (s : σ), P s → ∃ s', loop_over l body s = some s' ∧ P s' := by
  intro l
  induction l with
  | nil => intro s hs; exact ⟨s, rfl, hs⟩
  | cons i rest ih =>
    intro s hs
    obtain ⟨s1, h1, hp1⟩ := hbody i s hs
    simp only [loop_over, h1]
    exact ih s1 hp1

/-- C26: for every x, y, colour, framebuffer and clip state,
`draw_rectangle(x,y,w,h,color)` with w <= 0 or h <= 0 returns with the
whole state, and so the framebuffer, unchanged. -/
theorem draw_rectangle_empty (s : State) (x y w h : Int) (color : Nat)
    (hwh : w ≤ 0 ∨ h ≤ 0) : draw_rectangle s x y w h color = some s := by
  unfold draw_rectangle for_loop
  rcases hwh with hw | hh
  · apply loop_over_id
    intro i s1
    rw [Int.toNat_of_nonpos hw]
    rfl
  · rw [Int.toNat_of_nonpos hh]
    rfl

/-- Witness of C26: a rectangle of width 0 and height 5 on the 4x2
framebuffer. -/
theorem draw_rectangle_empty_witness :
    ((0 : Int) ≤ 0 ∨ (5 : Int) ≤ 0) ∧ draw_rectangle stateNeg 1 0 0 5 0xFFFFFF = some stateNeg :=
  ⟨Or.inl (le_refl 0), draw_rectangle_empty stateNeg 1 0 0 5 0xFFFFFF (Or.inl (le_refl 0))⟩

/-- C27: for every character whose unsigned byte value `c mod 256` is
greater than 126 (127 and every byte >= 128, the negative chars),
`draw_char` of `mukitty.c` and of `main.c` gives the same result as
`draw_char` with `' '` (32) at the same position and colour; every
character with byte value 0..126 is drawn from its own entry
`font_8x8[c mod 256]` of the font table. -/
theorem draw_char_fallback (font : Nat → Nat → Nat) (s : State) (fb : List Nat) (x y : Int)
    (c : Int) (size color : Nat) :
    (126 < c % 256 →
      draw_char font s x y c color = draw_char font s x y 32 color ∧
      draw_char_main font fb x y c size color = draw_char_main font fb x y 32 size color) ∧
    (c % 256 ≤ 126 →
      draw_char font s x y c color = draw_glyph (font (c % 256).toNat) s x y color ∧
      draw_char_main font fb x y c size color
        = draw_glyph_main (font (c % 256).toNat) fb x y size color) := by
  constructor
  · intro h
    have e : glyph_code c = glyph_code 32 := by
      have h1 : (c % 256).toNat > 126 := by omega
      simp only [glyph_code, if_pos h1]
      rfl
    simp only [draw_char, draw_char_main, e, and_self]
  · intro h
    have e : glyph_code c = (c % 256).toNat := by
      have h1 : ¬ (c % 256).toNat > 126 := by omega
      simp only [glyph_code, if_neg h1]
    simp only [draw_char, draw_char_main, e, and_self]

/-- The loop of `draw_text` of `mukitty.c` runs exactly the `draw_char` calls
of `draw_text_calls`. -/
theorem draw_text_loop_calls (font : Nat → Nat → Nat) (x : Int) (color : Nat) :
    ∀ (str : List Int) (s : State) (cx cy : Int),
      draw_text_loop font x color s cx cy str
        = draw_calls font color s (draw_text_calls x cx cy str) := by
  intro str
  induction str with
  | nil => intro s cx cy; rfl
  | cons c cs ih =>
    intro s cx cy
    simp only [draw_text_loop, draw_text_calls]
    split
    · rfl
    · split
      · exact ih s x (cy + 8)
      · simp only [draw_calls]
        split
        · rfl
        · exact ih _ _ _

/-- C29 (code at the failing input): for the string "A\rB" (65, 13, 66)
`draw_text` of `mukitty.c` calls `draw_char` three times, at the cursors
(x,y), (x+8,y) and (x+16,y): the `'\r'` is drawn as a glyph and advances
the cursor, and `B` lands in the third cell; `draw_text` of `main.c` on the
same string (scale 1, start (0,0)) draws `A` and `B` both at (0,0).  A
`'\n'` draws nothing and moves the cursor to (x, y+8). -/
theorem draw_text_carriage_return (font : Nat → Nat → Nat) (s : State) (x y : Int)
    (color : Nat) :
    draw_text font s x y (some [65, 13, 66]) color
      = draw_calls font color s [(x, y, 65), (x + 8, y, 13), (x + 8 + 8, y, 66)] ∧
    draw_text_calls x x y [65, 13, 66] = [(x, y, 65), (x + 8, y, 13), (x + 8 + 8, y, 66)] ∧
    draw_text_main_calls 0 1 0 0 [65, 13, 66] = [(0, 0, 65), (0, 0, 66)] ∧
    draw_text_calls x x y [65, 10, 66] = [(x, y, 65), (x, y + 8, 66)] := by
  have e : draw_text_calls x x y [65, 13, 66]
      = [(x, y, 65), (x + 8, y, 13), (x + 8 + 8, y, 66)] := by
    simp [draw_text_calls]
  refine ⟨?_, e, by decide, by simp [draw_text_calls]⟩
  rw [← e]
  exact draw_text_loop_calls font x color _ s x y

theorem to_int32_char_width (size : Nat) (hs : 8 * size < 2147483648) :
    to_int32 (8 * (size : Int)) = 8 * (size : Int) := by
  unfold to_int32
  omega

theorem crt_set_pixel_main_length (w h : Int) (fb : List Nat) (x y : Int) (color : Nat)
    (hlen : (fb.length : Int) = w * h * 3) :
    ∃ fb', crt_set_pixel_main w h fb x y color = some fb' ∧ fb'.length = fb.length := by
  unfold crt_set_pixel_main
  by_cases hout : x < 0 ∨ x ≥ w ∨ y < 0 ∨ y ≥ h
  · rw [if_pos hout]
    exact ⟨fb, rfl, rfl⟩
  · rw [if_neg hout]
    obtain ⟨hb0, hb1⟩ := pixel_offset_bounds w h x y (by omega) (by omega) (by omega) (by omega)
    simp only []
    rw [if_pos ⟨hb0, by rw [hlen]; exact hb1⟩]
    exact ⟨_, rfl, store3_length _ _ _ _ _⟩

/-- `draw_char` of `main.c` returns and keeps the length of a framebuffer of
`SCREEN_W * SCREEN_H * 3` bytes: no byte outside the buffer is written. -/
theorem draw_char_main_length (font : Nat → Nat → Nat) (fb : List Nat) (x y c : Int)
    (size color : Nat) (hlen : (fb.length : Int) = SCREEN_W * SCREEN_H * 3) :
    ∃ fb', draw_char_main font fb x y c size color = some fb' ∧ fb'.length = fb.length := by
  unfold draw_char_main draw_glyph_main for_loop
  have key : ∀ (l : List Nat) (body : Nat → List Nat → Option (List Nat)),
      (∀ i g, g.length = fb.length → ∃ g', body i g = some g' ∧ g'.length = fb.length) →
      ∀ g, g.length = fb.length → ∃ g', loop_over l body g = some g' ∧ g'.length = fb.length :=
    fun l body hb g hg => loop_over_inv (fun g => g.length = fb.length) body hb l g hg
  apply key _ _ _ fb rfl
  intro row g1 hg1
  apply key _ _ _ g1 hg1
  intro col g2 hg2
  split
  · apply key _ _ _ g2 hg2
    intro dy g3 hg3
    apply key _ _ _ g3 hg3
    intro dx g4 hg4
    obtain ⟨g', h1, h2⟩ := crt_set_pixel_main_length SCREEN_W SCREEN_H g4
      (to_int32 (x + col * size + dx)) (to_int32 (y + row * size + dy)) color
      (by rw [hg4]; exact hlen)
    exact ⟨g', h1, by rw [h2, hg4]⟩
  · exact ⟨g2, rfl, hg2⟩

/-- The loop of `draw_text` of `main.c` returns and keeps the length of the
framebuffer. -/
theorem draw_text_main_loop_length (font : Nat → Nat → Nat) (x : Int) (size color : Nat)
    (L : Nat) (hL : (L : Int) = SCREEN_W * SCREEN_H * 3) :
    ∀ (str : List Int) (fb : List Nat) (cx cy : Int), fb.length = L →
      ∃ fb', draw_text_main_loop font x size color fb cx cy str = some fb' ∧
        fb'.length = L := by
  intro str
  induction str with
  | nil => intro fb cx cy hfb; exact ⟨fb, rfl, hfb⟩
  | cons c cs ih =>
    intro fb cx cy hfb
    simp only [draw_text_main_loop]
    by_cases h0 : c = 0
    · rw [if_pos h0]; exact ⟨fb, rfl, hfb⟩
    · rw [if_neg h0]
      by_cases h10 : c = 10
      · simp only [if_pos h10]
        split
        · exact ⟨fb, rfl, hfb⟩
        · exact ih fb _ _ hfb
      · by_cases h13 : c = 13
        · simp only [if_neg h10, if_pos h13]
          split
          · exact ⟨fb, rfl, hfb⟩
          · exact ih fb _ _ hfb
        · obtain ⟨fb1, h1, hl1⟩ := draw_char_main_length font fb cx cy c size color
            (by rw [hfb]; exact hL)
          simp only [if_neg h10, if_neg h13, h1]
          by_cases hw : cx + to_int32 (8 * (size : Int)) + to_int32 (8 * (size : Int)) > SCREEN_W
          · rw [if_pos hw]
            simp only []
            split
            · exact ⟨fb1, rfl, by rw [hl1, hfb]⟩
            · exact ih fb1 _ _ (by rw [hl1, hfb])
          · rw [if_neg hw]
            simp only []
            split
            · exact ⟨fb1, rfl, by rw [hl1, hfb]⟩
            · exact ih fb1 _ _ (by rw [hl1, hfb])

/-- The loop of `draw_text` of `main.c` runs exactly the `draw_char` calls of
`draw_text_main_calls`. -/
theorem draw_text_main_loop_calls (font : Nat → Nat → Nat) (x : Int) (size color : Nat) :
    ∀ (str : List Int) (fb : List Nat) (cx cy : Int),
      draw_text_main_loop font x size color fb cx cy str
        = draw_calls_main font size color fb (draw_text_main_calls x size cx cy str) := by
  intro str
  induction str with
  | nil => intro fb cx cy; rfl
  | cons c cs ih =>
    intro fb cx cy
    simp only [draw_text_main_loop, draw_text_main_calls]
    by_cases h0 : c = 0
    · simp only [if_pos h0]; rfl
    · rw [if_neg h0, if_neg h0]
      by_cases h10 : c = 10
      · simp only [if_pos h10]
        split
        · rfl
        · exact ih fb _ _
      · by_cases h13 : c = 13
        · simp only [if_neg h10, if_pos h13]
          split
          · rfl
          · exact ih fb _ _
        · simp only [if_neg h10, if_neg h13, draw_calls_main]
          cases hd : draw_char_main font fb cx cy c size color with
          | none => rfl
          | some fb1 =>
            simp only []
            by_cases hw : cx + to_int32 (8 * (size : Int)) + to_int32 (8 * (size : Int))
                > SCREEN_W
            · rw [if_pos hw, if_pos hw]
              simp only []
              split
              · rfl
              · exact ih fb1 _ _
            · rw [if_neg hw, if_neg hw]
              simp only []
              split
              · rfl
              · exact ih fb1 _ _

/-- From a cursor row that fits, every glyph of `draw_text` of `main.c` is
drawn at a cursor row that fits. -/
theorem draw_text_main_calls_rows (x : Int) (size : Nat) :
    ∀ (str : List Int) (cx cy : Int), cy + to_int32 (8 * (size : Int)) ≤ SCREEN_H →
      ∀ call ∈ draw_text_main_calls x size cx cy str,
        call.2.1 + to_int32 (8 * (size : Int)) ≤ SCREEN_H := by
  intro str
  induction str with
  | nil => intro cx cy _ call hc; exact absurd hc (List.not_mem_nil _)
  | cons c cs ih =>
    intro cx cy hcy call hc
    simp only [draw_text_main_calls] at hc
    split_ifs at hc
    all_goals first
      | exact absurd hc (List.not_mem_nil _)
      | exact ih _ _ (by omega) call hc
      | (rcases List.mem_cons.mp hc with rfl | hc <;> first
          | exact hcy
          | exact absurd hc (List.not_mem_nil _)
          | exact ih _ _ (by omega) call hc)

/-- Every glyph of `draw_text` of `main.c` after the first call is drawn at
a cursor row that fits. -/
theorem draw_text_main_calls_tail (x : Int) (size : Nat) (str : List Int) (cx cy : Int) :
    ∀ call ∈ (draw_text_main_calls x size cx cy str).tail,
      call.2.1 + to_int32 (8 * (size : Int)) ≤ SCREEN_H := by
  intro call hc
  cases str with
  | nil => exact absurd hc (List.not_mem_nil _)
  | cons c cs =>
    simp only [draw_text_main_calls] at hc
    split_ifs at hc
    all_goals first
      | exact absurd hc (List.not_mem_nil _)
      | exact draw_text_main_calls_rows x size cs _ _ (by omega) call hc
      | exact draw_text_main_calls_rows x size cs _ _ (by omega) call (List.mem_of_mem_tail hc)

/-- From a cursor row that does not fit, `draw_text` of `main.c` draws at
most one glyph. -/
theorem draw_text_main_calls_bad_start (x : Int) (size : Nat) (str : List Int) (cx cy : Int)
    (hch : 0 ≤ to_int32 (8 * (size : Int)))
    (hbad : SCREEN_H < cy + to_int32 (8 * (size : Int))) :
    (draw_text_main_calls x size cx cy str).length ≤ 1 := by
  cases str with
  | nil => simp [draw_text_main_calls]
  | cons c cs =>
    simp only [draw_text_main_calls]
    split_ifs
    all_goals first
      | exact Nat.zero_le 1
      | exact Nat.le_refl 1
      | (exfalso; omega)

/-- From a cursor column that fits, with a start column that fits, every
glyph of `draw_text` of `main.c` is drawn at a cursor column that fits. -/
theorem draw_text_main_calls_cols (x : Int) (size : Nat)
    (hx : x + to_int32 (8 * (size : Int)) ≤ SCREEN_W) :
    ∀ (str : List Int) (cx cy : Int), cx + to_int32 (8 * (size : Int)) ≤ SCREEN_W →
      ∀ call ∈ draw_text_main_calls x size cx cy str,
        call.1 + to_int32 (8 * (size : Int)) ≤ SCREEN_W := by
  intro str
  induction str with
  | nil => intro cx cy _ call hc; exact absurd hc (List.not_mem_nil _)
  | cons c cs ih =>
    intro cx cy hcx call hc
    simp only [draw_text_main_calls] at hc
    split_ifs at hc
    all_goals first
      | exact absurd hc (List.not_mem_nil _)
      | exact ih _ _ hx call hc
      | (rcases List.mem_cons.mp hc with rfl | hc <;> first
          | exact hcx
          | exact absurd hc (List.not_mem_nil _)
          | exact ih _ _ hx call hc
          | exact ih _ _ (by omega) call hc)

/-- From a cursor column that is not negative, with a start column that is
not negative, every glyph of `draw_text` of `main.c` is drawn at a cursor
column that is not negative. -/
theorem draw_text_main_calls_cols_nonneg (x : Int) (size : Nat) (hx : 0 ≤ x)
    (hcw : 0 ≤ to_int32 (8 * (size : Int))) :
    ∀ (str : List Int) (cx cy : Int), 0 ≤ cx →
      ∀ call ∈ draw_text_main_calls x size cx cy str, 0 ≤ call.1 := by
  intro str
  induction str with
  | nil => intro cx cy _ call hc; exact absurd hc (List.not_mem_nil _)
  | cons c cs ih =>
    intro cx cy hcx call hc
    simp only [draw_text_main_calls] at hc
    split_ifs at hc
    all_goals first
      | exact absurd hc (List.not_mem_nil _)
      | exact ih _ _ hx call hc
      | (rcases List.mem_cons.mp hc with rfl | hc <;> first
          | exact hcx
          | exact absurd hc (List.not_mem_nil _)
          | exact ih _ _ hx call hc
          | exact ih _ _ (by omega) call hc)

theorem screenBlack_length : (screenBlack.length : Int) = SCREEN_W * SCREEN_H * 3 := by
  unfold screenBlack
  rw [List.length_replicate]
  rfl

/-- C28 (amended): in `main.c`, for every string, start position and scale
with `8 * size` in the range of `int`, on a framebuffer of
`SCREEN_W * SCREEN_H * 3` bytes, `draw_text` returns and keeps the length of
the framebuffer (no byte outside the buffer is written); it runs exactly the
`draw_char` calls of `draw_text_main_calls`; every call after the first is
at a cursor row cy with cy + 8*size <= SCREEN_H; from a start row that fits
every call is at such a row; from a start row y with y + 8*size > SCREEN_H
at most one glyph is drawn, and that one, the first character when it is
not `'\n'` or `'\r'`, is drawn at the start position (x, y) itself, all
remaining characters being dropped.  The cursor sums are taken in exact
integers. -/
theorem draw_text_main_stops (font : Nat → Nat → Nat) (fb : List Nat) (x y : Int)
    (str : List Int) (size color : Nat)
    (hlen : (fb.length : Int) = SCREEN_W * SCREEN_H * 3) (hs : 8 * size < 2147483648) :
    (∃ fb', draw_text_main font fb x y (some str) size color = some fb' ∧
      fb'.length = fb.length) ∧
    draw_text_main font fb x y (some str) size color
      = draw_calls_main font size color fb (draw_text_main_calls x size x y str) ∧
    (∀ call ∈ (draw_text_main_calls x size x y str).tail,
      call.2.1 + 8 * (size : Int) ≤ SCREEN_H) ∧
    (y + 8 * (size : Int) ≤ SCREEN_H →
      ∀ call ∈ draw_text_main_calls x size x y str, call.2.1 + 8 * (size : Int) ≤ SCREEN_H) ∧
    (SCREEN_H < y + 8 * (size : Int) →
      (draw_text_main_calls x size x y str).length ≤ 1 ∧
      ∀ c rest, str = c :: rest → c ≠ 0 → c ≠ 10 → c ≠ 13 →
        draw_text_main_calls x size x y str = [(x, y, c)]) := by
  have hw := to_int32_char_width size hs
  refine ⟨?_, ?_, ?_, ?_, ?_⟩
  · exact draw_text_main_loop_length font x size color fb.length hlen str fb x y rfl
  · exact draw_text_main_loop_calls font x size color str fb x y
  · intro call hc
    have h := draw_text_main_calls_tail x size str x y call hc
    rw [hw] at h
    exact h
  · intro hy call hc
    have h := draw_text_main_calls_rows x size str x y (by rw [hw]; exact hy) call hc
    rw [hw] at h
    exact h
  · intro hbad
    refine ⟨draw_text_main_calls_bad_start x size str x y (by rw [hw]; omega)
      (by rw [hw]; exact hbad), ?_⟩
    intro c rest hstr h0 h10 h13
    subst hstr
    simp only [draw_text_main_calls, if_neg h0, if_neg h10, if_neg h13, hw]
    have hn : (0 : Int) ≤ 8 * (size : Int) := by omega
    by_cases hwrap : x + 8 * (size : Int) + 8 * (size : Int) > SCREEN_W
    · rw [if_pos hwrap, if_pos (by omega)]
    · rw [if_neg hwrap, if_pos (by omega)]

/-- Witness of C28: the string "A\nB" at start (0, 296) with scale 1 on the
black framebuffer. -/
theorem draw_text_main_stops_witness :
    (screenBlack.length : Int) = SCREEN_W * SCREEN_H * 3 ∧ 8 * 1 < 2147483648 ∧
    ((∃ fb', draw_text_main (fun _ _ => 255) screenBlack 0 296 (some [65, 10, 66]) 1 0xFFFFFF
        = some fb' ∧ fb'.length = screenBlack.length) ∧
    draw_text_main (fun _ _ => 255) screenBlack 0 296 (some [65, 10, 66]) 1 0xFFFFFF
      = draw_calls_main (fun _ _ => 255) 1 0xFFFFFF screenBlack
          (draw_text_main_calls 0 1 0 296 [65, 10, 66]) ∧
    (∀ call ∈ (draw_text_main_calls 0 1 0 296 [65, 10, 66]).tail,
      call.2.1 + 8 * ((1 : Nat) : Int) ≤ SCREEN_H) ∧
    (296 + 8 * ((1 : Nat) : Int) ≤ SCREEN_H →
      ∀ call ∈ draw_text_main_calls 0 1 0 296 [65, 10, 66],
        call.2.1 + 8 * ((1 : Nat) : Int) ≤ SCREEN_H) ∧
    (SCREEN_H < 296 + 8 * ((1 : Nat) : Int) →
      (draw_text_main_calls 0 1 0 296 [65, 10, 66]).length ≤ 1 ∧
      ∀ c rest, [65, 10, 66] = c :: rest → c ≠ 0 → c ≠ 10 → c ≠ 13 →
        draw_text_main_calls 0 1 0 296 [65, 10, 66] = [(0, 296, c)])) :=
  ⟨screenBlack_length, by decide,
    draw_text_main_stops (fun _ _ => 255) screenBlack 0 296 [65, 10, 66] 1 0xFFFFFF
      screenBlack_length (by decide)⟩

/-- C28 (counterexample to the original wording): at start (0, SCREEN_H - 4)
= (0, 296) with scale 1, `draw_text` of `main.c` on "A\nB" calls `draw_char`
for `A` at cursor row 296, although 296 + 8 > SCREEN_H: the height test
comes after the character, not before it.  Nothing else is drawn. -/
theorem draw_text_main_first_glyph_past_height :
    draw_text_main_calls 0 1 0 296 [65, 10, 66] = [(0, 296, 65)] ∧
    (296 : Int) + 8 * 1 > SCREEN_H ∧
    ¬ (∀ call ∈ draw_text_main_calls 0 1 0 296 [65, 10, 66],
        call.2.1 + 8 * 1 ≤ SCREEN_H) := by
  have e : draw_text_main_calls 0 1 0 296 [65, 10, 66] = [(0, 296, 65)] := by decide
  refine ⟨e, by decide, ?_⟩
  rw [e]
  intro h
  exact absurd (h (0, 296, 65) (List.mem_singleton.mpr rfl)) (by decide)

/-- C30: in `draw_text` of `main.c`, for every string and every start
column x with 0 <= x and x + 8*size <= SCREEN_W, the function runs exactly
the `draw_char` calls of `draw_text_main_calls`, every one of them at a
cursor column cx with 0 <= cx and cx + 8*size <= SCREEN_W; after a glyph at
(cx, cy) whose successor would not fit (cx + 8*size + 8*size > SCREEN_W) the
text continues from the start column x of the next glyph row,
(x, cy + 8*size), and otherwise from (cx + 8*size, cy), unless the height
test ends the text. -/
theorem draw_text_main_wraps (font : Nat → Nat → Nat) (fb : List Nat) (x y : Int)
    (str : List Int) (size color : Nat)
    (hx0 : 0 ≤ x) (hx : x + 8 * (size : Int) ≤ SCREEN_W) :
    draw_text_main font fb x y (some str) size color
      = draw_calls_main font size color fb (draw_text_main_calls x size x y str) ∧
    (∀ call ∈ draw_text_main_calls x size x y str,
      0 ≤ call.1 ∧ call.1 + 8 * (size : Int) ≤ SCREEN_W) ∧
    (∀ (cx cy c : Int) (rest : List Int), c ≠ 0 → c ≠ 10 → c ≠ 13 →
      (cx + 8 * (size : Int) + 8 * (size : Int) > SCREEN_W →
        draw_text_main_calls x size cx cy (c :: rest)
          = (cx, cy, c) ::
              (if cy + 8 * (size : Int) + 8 * (size : Int) > SCREEN_H then []
               else draw_text_main_calls x size x (cy + 8 * (size : Int)) rest)) ∧
      (cx + 8 * (size : Int) + 8 * (size : Int) ≤ SCREEN_W →
        draw_text_main_calls x size cx cy (c :: rest)
          = (cx, cy, c) ::
              (if cy + 8 * (size : Int) > SCREEN_H then []
               else draw_text_main_calls x size (cx + 8 * (size : Int)) cy rest))) := by
  have hs : 8 * size < 2147483648 := by
    unfold SCREEN_W at hx
    omega
  have hw := to_int32_char_width size hs
  refine ⟨draw_text_main_loop_calls font x size color str fb x y, ?_, ?_⟩
  · intro call hc
    refine ⟨draw_text_main_calls_cols_nonneg x size hx0 (by rw [hw]; omega) str x y hx0 call hc,
      ?_⟩
    have h := draw_text_main_calls_cols x size (by rw [hw]; exact hx) str x y
      (by rw [hw]; exact hx) call hc
    rw [hw] at h
    exact h
  · intro cx cy c rest h0 h10 h13
    constructor
    · intro hwrap
      simp only [draw_text_main_calls, if_neg h0, if_neg h10, if_neg h13, hw]
      rw [if_pos hwrap]
    · intro hfit
      simp only [draw_text_main_calls, if_neg h0, if_neg h10, if_neg h13, hw]
      rw [if_neg (by omega)]

/-- Witness of C30: fifty-one letters `A` from start (0, 0) with scale 1;
the fiftieth is drawn at column 392 and the fifty-first at (0, 8). -/
theorem draw_text_main_wraps_witness :
    (0 : Int) ≤ 0 ∧ (0 : Int) + 8 * ((1 : Nat) : Int) ≤ SCREEN_W ∧
    (draw_text_main_calls 0 1 0 0 (List.replicate 51 65)).getLast? = some (0, 8, 65) ∧
    ∀ call ∈ draw_text_main_calls 0 1 0 0 (List.replicate 51 65),
      0 ≤ call.1 ∧ call.1 + 8 * ((1 : Nat) : Int) ≤ SCREEN_W :=
  ⟨le_refl 0, by decide, by decide,
    (draw_text_main_wraps (fun _ _ => 255) screenBlack 0 0 (List.replicate 51 65) 1 0 (le_refl 0)
      (by decide)).2.1⟩

/-! ### `set_clip_rect` -/

/-- C31: `set_clip_rect(x,y,w,h)` leaves clipping disabled if and only if w
and h both equal the sentinel 0x1000000, and then leaves the stored
rectangle unchanged; for every other argument it stores exactly (x,y,w,h)
and enables clipping, and afterwards `crt_set_pixel` returns with the state
unchanged for every write outside that rectangle.  Nothing but `clip_rect`
changes. -/
theorem set_clip_rect_sentinel (s : State) (x y w h : Int) :
    ((set_clip_rect s x y w h).clip_rect.enabled = false ↔
      (w = 0x1000000 ∧ h = 0x1000000)) ∧
    (w = 0x1000000 ∧ h = 0x1000000 →
      (set_clip_rect s x y w h).clip_rect = { s.clip_rect with enabled := false }) ∧
    (¬ (w = 0x1000000 ∧ h = 0x1000000) →
      (set_clip_rect s x y w h).clip_rect = { x := x, y := y, w := w, h := h, enabled := true } ∧
      ∀ (px py : Int) (color : Nat), (px < x ∨ py < y ∨ px ≥ x + w ∨ py ≥ y + h) →
        crt_set_pixel (set_clip_rect s x y w h) px py color
          = some (set_clip_rect s x y w h)) ∧
    (set_clip_rect s x y w h).Config = s.Config ∧
    (set_clip_rect s x y w h).fb = s.fb ∧
    (set_clip_rect s x y w h).frame_number = s.frame_number ∧
    (set_clip_rect s x y w h).out = s.out := by
  by_cases hs : w = 0x1000000 ∧ h = 0x1000000
  · have e : set_clip_rect s x y w h
        = { s with clip_rect := { s.clip_rect with enabled := false } } := by
      simp only [set_clip_rect, if_pos hs]
    rw [e]
    exact ⟨⟨fun _ => hs, fun _ => rfl⟩, fun _ => rfl, fun hn => absurd hs hn, rfl, rfl, rfl, rfl⟩
  · have e : set_clip_rect s x y w h
        = { s with clip_rect := { x := x, y := y, w := w, h := h, enabled := true } } := by
      simp only [set_clip_rect, if_neg hs]
    rw [e]
    refine ⟨⟨fun he => Bool.noConfusion he, fun hn => absurd hn hs⟩, fun hn => absurd hn hs,
      fun _ => ⟨rfl, ?_⟩, rfl, rfl, rfl, rfl⟩
    intro px py color hout
    unfold crt_set_pixel
    split
    · rfl
    · rw [if_pos ⟨rfl, hout⟩]

/-! ### `base64_encode` and RFC 4648 -/

theorem table_char : ∀ v, v < 64 → base64_table.getD v 0 = rfc4648_char v := by
  decide

theorem rfc4648_char_ne_pad (v : Nat) : rfc4648_char v ≠ 0x3D := by
  unfold rfc4648_char
  split_ifs <;> omega

theorem encode_groups_rfc4648 : ∀ data : List Nat, (∀ x ∈ data, x < 256) →
    encode_groups data = rfc4648_encode data
  | [], _ => rfl
  | [a], h => by
    have ha : a < 256 := h a (by simp)
    rw [encode_groups, encode_group_eq a 0 0 false false ha (by omega) (by omega),
      table_char _ (by omega), table_char _ (by omega)]
    simp only [rfc4648_encode]
    have e1 : a * 16 / 64 = a / 4 := by omega
    have e2 : a * 16 % 64 = a % 4 * 16 + 0 / 16 := by omega
    rw [e1, e2]
    rfl
  | [a, b], h => by
    have ha : a < 256 := h a (by simp)
    have hb : b < 256 := h b (by simp)
    rw [encode_groups, encode_group_eq a b 0 true false ha hb (by omega),
      table_char _ (by omega), table_char _ (by omega)]
    simp only [rfc4648_encode, if_true]
    rw [table_char _ (by omega)]
    have e1 : (a * 256 + b) * 4 / 4096 = a / 4 := by omega
    have e2 : (a * 256 + b) * 4 / 64 % 64 = a % 4 * 16 + b / 16 := by omega
    have e3 : (a * 256 + b) * 4 % 64 = b % 16 * 4 + 0 / 64 := by omega
    rw [e1, e2, e3]
    rfl
  | a :: b :: c :: rest, h => by
    have ha : a < 256 := h a (by simp)
    have hb : b < 256 := h b (by simp)
    have hc : c < 256 := h c (by simp)
    have ih := encode_groups_rfc4648 rest (fun x hx => h x (by simp [hx]))
    rw [encode_groups, encode_group_eq a b c true true ha hb hc,
      table_char _ (by omega), table_char _ (by omega), ih]
    simp only [rfc4648_encode, if_true]
    rw [table_char _ (by omega), table_char _ (by omega)]
    have e1 : (a * 65536 + b * 256 + c) / 262144 = a / 4 := by omega
    have e2 : (a * 65536 + b * 256 + c) / 4096 % 64 = a % 4 * 16 + b / 16 := by omega
    have e3 : (a * 65536 + b * 256 + c) / 64 % 64 = b % 16 * 4 + c / 64 := by omega
    have e4 : (a * 65536 + b * 256 + c) % 64 = c % 64 := by omega
    rw [e1, e2, e3, e4]
    rfl

/-- The padding of the RFC 4648 encoding: `=` stands only at the end, twice
when one byte is left over and once when two are. -/
theorem rfc4648_encode_padding : ∀ data : List Nat,
    ∃ body, rfc4648_encode data = body ++ List.replicate ((3 - data.length % 3) % 3) 0x3D ∧
      0x3D ∉ body
  | [] => ⟨[], rfl, List.not_mem_nil _⟩
  | [a] => ⟨[rfc4648_char (a * 16 / 64), rfc4648_char (a * 16 % 64)], rfl, by
      intro hm
      rcases List.mem_cons.mp hm with h | hm
      · exact rfc4648_char_ne_pad _ h.symm
      · rcases List.mem_cons.mp hm with h | hm
        · exact rfc4648_char_ne_pad _ h.symm
        · exact absurd hm (List.not_mem_nil _)⟩
  | [a, b] => ⟨[rfc4648_char ((a * 256 + b) * 4 / 4096), rfc4648_char ((a * 256 + b) * 4 / 64 % 64),
        rfc4648_char ((a * 256 + b) * 4 % 64)], rfl, by
      intro hm
      rcases List.mem_cons.mp hm with h | hm
      · exact rfc4648_char_ne_pad _ h.symm
      · rcases List.mem_cons.mp hm with h | hm
        · exact rfc4648_char_ne_pad _ h.symm
        · rcases List.mem_cons.mp hm with h | hm
          · exact rfc4648_char_ne_pad _ h.symm
          · exact absurd hm (List.not_mem_nil _)⟩
  | a :: b :: c :: rest => by
    obtain ⟨body, hb, hn⟩ := rfc4648_encode_padding rest
    refine ⟨rfc4648_char ((a * 65536 + b * 256 + c) / 262144)
      :: rfc4648_char ((a * 65536 + b * 256 + c) / 4096 % 64)
      :: rfc4648_char ((a * 65536 + b * 256 + c) / 64 % 64)
      :: rfc4648_char ((a * 65536 + b * 256 + c) % 64) :: body, ?_, ?_⟩
    · have e : (a :: b :: c :: rest).length % 3 = rest.length % 3 := by
        simp only [List.length_cons]
        omega
      rw [e]
      simp only [rfc4648_encode, hb, List.cons_append]
    · intro hm
      rcases List.mem_cons.mp hm with h | hm
      · exact rfc4648_char_ne_pad _ h.symm
      · rcases List.mem_cons.mp hm with h | hm
        · exact rfc4648_char_ne_pad _ h.symm
        · rcases List.mem_cons.mp hm with h | hm
          · exact rfc4648_char_ne_pad _ h.symm
          · rcases List.mem_cons.mp hm with h | hm
            · exact rfc4648_char_ne_pad _ h.symm
            · exact hn hm

/-- C32: for every sequence `data` of n bytes, `base64_encode` writes (and
returns the count of) exactly 4 * ((n + 2) / 3) characters, where
(n + 2) / 3 is n / 3 rounded up; they are the RFC 4648 standard-alphabet
base64 encoding of `data`, with `=` only as padding at the end: two when
n mod 3 = 1, one when n mod 3 = 2, none when n mod 3 = 0.  For a framebuffer
of `Config.width * Config.height * 3` bytes the number of characters written
is the `encoded_size` that `kitty_update_display` allocates for, and the
function returns: the scratch buffer is not overrun. -/
theorem base64_encode_rfc4648 (data : List Nat) (hbytes : ∀ x ∈ data, x < 256) :
    (base64_encode data data.length).length = 4 * ((data.length + 2) / 3) ∧
    (data.length ≤ 3 * ((data.length + 2) / 3) ∧
      3 * ((data.length + 2) / 3) < data.length + 3) ∧
    base64_encode data data.length = rfc4648_encode data ∧
    (∃ body, base64_encode data data.length
        = body ++ List.replicate ((3 - data.length % 3) % 3) 0x3D ∧ 0x3D ∉ body) ∧
    (∀ s : State, FbReady s →
      (frame_blob s).length
        = (4 * ((size_t (s.Config.width * s.Config.height * 3) + 2) % 2 ^ 64 / 3)) % 2 ^ 64 ∧
      ∃ s', kitty_update_display true s = some s') := by
  have heq : base64_encode data data.length = rfc4648_encode data := by
    rw [base64_encode_eq, encode_groups_rfc4648 data hbytes]
  refine ⟨base64_encode_length data data.length, ⟨by omega, by omega⟩, heq, ?_, ?_⟩
  · rw [heq]
    exact rfc4648_encode_padding data
  · intro s hs
    obtain ⟨buf, hfb, hlen, hint⟩ := hs
    obtain ⟨h1, h2, _⟩ := FbReady_sizes s buf hlen hint
    obtain ⟨_, h4⟩ := frame_blob_eq s buf hfb hlen hint
    refine ⟨by rw [h4, h1, h2], ?_⟩
    obtain ⟨s', hs', _⟩ := kitty_frame s ⟨buf, hfb, hlen, hint⟩
    exact ⟨s', hs'⟩

/-- Witness of C32: the two bytes "Ma" (77, 97) are encoded as "TWE=". -/
theorem base64_encode_rfc4648_witness :
    (∀ x ∈ [77, 97], x < 256) ∧
    base64_encode [77, 97] 2 = [84, 87, 69, 61] ∧
    base64_encode [77, 97] [77, 97].length = rfc4648_encode [77, 97] :=
  ⟨by decide, by decide, (base64_encode_rfc4648 [77, 97] (by decide)).2.2.1⟩

/-! ### `init_config` -/

theorem isPrefixOf_iff_append (n h : List Char) :
    n.isPrefixOf h = true ↔ ∃ post, h = n ++ post := by
  rw [List.isPrefixOf_iff_prefix]
  constructor
  · rintro ⟨t, ht⟩
    exact ⟨t, ht.symm⟩
  · rintro ⟨t, ht⟩
    exact ⟨t, ht.symm⟩

/-- `strstr` finds the needle exactly when it occurs in the haystack. -/
theorem strstr_iff (needle : List Char) : ∀ hay : List Char,
    strstr hay needle = true ↔ ∃ pre post, hay = pre ++ needle ++ post := by
  intro hay
  induction hay with
  | nil =>
    simp only [strstr, List.isEmpty_iff]
    constructor
    · intro h
      exact ⟨[], [], by rw [h]; rfl⟩
    · rintro ⟨pre, post, h⟩
      have h1 := congrArg List.length h
      simp only [List.length_nil, List.length_append] at h1
      exact List.length_eq_zero.mp (by omega)
  | cons c rest ih =>
    simp only [strstr, Bool.or_eq_true, isPrefixOf_iff_append, ih]
    constructor
    · rintro (⟨post, h⟩ | ⟨pre, post, h⟩)
      · exact ⟨[], post, by rw [h]; rfl⟩
      · exact ⟨c :: pre, post, by rw [h]; rfl⟩
    · rintro ⟨pre, post, h⟩
      cases pre with
      | nil => exact Or.inl ⟨post, by rw [h]; rfl⟩
      | cons p pre1 =>
        right
        refine ⟨pre1, post, ?_⟩
        simp only [List.cons_append] at h
        exact (List.cons.inj h).2

theorem strstr_occurs (needle t : String) :
    strstr t.data needle.data = true ↔ occurs_in needle t := by
  rw [strstr_iff]
  rfl

/-- C33: `init_config` of `mukitty.c` returns with `ghostty_mode` set if and
only if TERM is set and contains "ghostty"; it returns with `kitty_mode` set
if and only if TERM is set and contains "kitty" and not "ghostty"; it ends
the process with status 1 if and only if TERM is unset or contains neither,
and with no other status; whenever it returns, exactly one of
`ghostty_mode` and `kitty_mode` is true. -/
theorem init_config_dialect (term : Option String) (rand : Nat) (s : State) :
    ((∃ s', init_config term rand s = InitOutcome.returned s' ∧
        s'.Config.ghostty_mode = true) ↔
      ∃ t, term = some t ∧ occurs_in "ghostty" t) ∧
    ((∃ s', init_config term rand s = InitOutcome.returned s' ∧
        s'.Config.kitty_mode = true) ↔
      ∃ t, term = some t ∧ occurs_in "kitty" t ∧ ¬ occurs_in "ghostty" t) ∧
    ((∃ s', init_config term rand s = InitOutcome.exited 1 s') ↔
      term = none ∨ ∃ t, term = some t ∧ ¬ occurs_in "ghostty" t ∧ ¬ occurs_in "kitty" t) ∧
    (∀ st s', init_config term rand s = InitOutcome.exited st s' → st = 1) ∧
    (∀ s', init_config term rand s = InitOutcome.returned s' →
      s'.Config.ghostty_mode = !s'.Config.kitty_mode) := by
  cases term with
  | none =>
    simp only [init_config]
    refine ⟨⟨?_, ?_⟩, ⟨?_, ?_⟩, ⟨fun _ => by left; trivial, fun _ => ⟨_, rfl⟩⟩, ?_, ?_⟩
    · rintro ⟨s', h, _⟩
      cases h
    · rintro ⟨t, h, _⟩
      cases h
    · rintro ⟨s', h, _⟩
      cases h
    · rintro ⟨t, h, _⟩
      cases h
    · intro st s' h
      cases h
      rfl
    · intro s' h
      cases h
  | some t =>
    have hg := strstr_occurs "ghostty" t
    have hk := strstr_occurs "kitty" t
    by_cases g : strstr t.data "ghostty".data = true
    · have og := hg.mp g
      simp only [init_config, if_pos g]
      refine ⟨⟨fun _ => ⟨t, rfl, og⟩, fun _ => ⟨_, rfl, rfl⟩⟩, ⟨?_, ?_⟩, ⟨?_, ?_⟩, ?_, ?_⟩
      · rintro ⟨s', h, hm⟩
        cases h
        cases hm
      · rintro ⟨t1, h, _, hn⟩
        cases h
        exact absurd og hn
      · rintro ⟨s', h⟩
        cases h
      · rintro (h | ⟨t1, h, hn, _⟩)
        · cases h
        · cases h
          exact absurd og hn
      · intro st s' h
        cases h
      · intro s' h
        cases h
        rfl
    · have og : ¬ occurs_in "ghostty" t := fun h => g (hg.mpr h)
      by_cases k : strstr t.data "kitty".data = true
      · have ok := hk.mp k
        simp only [init_config, if_neg g, if_pos k]
        refine ⟨⟨?_, ?_⟩, ⟨fun _ => ⟨t, rfl, ok, og⟩, fun _ => ⟨_, rfl, rfl⟩⟩, ⟨?_, ?_⟩, ?_, ?_⟩
        · rintro ⟨s', h, hm⟩
          cases h
          cases hm
        · rintro ⟨t1, h, ho⟩
          cases h
          exact absurd ho og
        · rintro ⟨s', h⟩
          cases h
        · rintro (h | ⟨t1, h, _, hn⟩)
          · cases h
          · cases h
            exact absurd ok hn
        · intro st s' h
          cases h
        · intro s' h
          cases h
          rfl
      · have ok : ¬ occurs_in "kitty" t := fun h => k (hk.mpr h)
        simp only [init_config, if_neg g, if_neg k]
        refine ⟨⟨?_, ?_⟩, ⟨?_, ?_⟩, ⟨fun _ => Or.inr ⟨t, rfl, og, ok⟩, fun _ => ⟨_, rfl⟩⟩, ?_, ?_⟩
        · rintro ⟨s', h, _⟩
          cases h
        · rintro ⟨t1, h, ho⟩
          cases h
          exact absurd ho og
        · rintro ⟨s', h, _⟩
          cases h
        · rintro ⟨t1, h, ho, _⟩
          cases h
          exact absurd ho ok
        · intro st s' h
          cases h
          rfl
        · intro s' h
          cases h

/-- With TERM "xterm-kitty" the classic dialect is selected, with
"xterm-ghostty" the animate one, and with "xterm-256color" the process
exits. -/
theorem init_config_terms :
    strstr "xterm-kitty".data "ghostty".data = false ∧
    strstr "xterm-kitty".data "kitty".data = true ∧
    strstr "xterm-ghostty".data "ghostty".data = true ∧
    strstr "xterm-256color".data "ghostty".data = false ∧
    strstr "xterm-256color".data "kitty".data = false := by
  decide

/-! ### The characters of a payload -/

theorem table_alphabet : ∀ v, v < 64 → is_base64_char (base64_table.getD v 0) := by
  decide

theorem masked_alphabet (t : Nat) : is_base64_char (base64_table.getD (t &&& 0x3F) 0) :=
  table_alphabet _ (Nat.lt_succ_of_le Nat.and_le_right)

/-- Every character the loop of `base64_encode` appends is a character of
the alphabet or `=`. -/
theorem base64_loop_chars (data : List Nat) (n : Nat) : ∀ (fuel i : Nat) (enc : List Nat),
    (∀ c ∈ enc, is_base64_char c ∨ c = 0x3D) →
    ∀ c ∈ base64_loop data n fuel i enc, is_base64_char c ∨ c = 0x3D := by
  intro fuel
  induction fuel with
  | zero => intro i enc h; exact h
  | succ f ih =>
    intro i enc h
    simp only [base64_loop]
    by_cases hi : i < n
    · rw [if_pos hi]
      apply ih
      intro c hc
      rcases List.mem_append.mp hc with hc | hc
      · exact h c hc
      · rcases List.mem_cons.mp hc with rfl | hc
        · exact Or.inl (masked_alphabet _)
        · rcases List.mem_cons.mp hc with rfl | hc
          · exact Or.inl (masked_alphabet _)
          · rcases List.mem_cons.mp hc with rfl | hc
            · split
              · exact Or.inl (masked_alphabet _)
              · exact Or.inr rfl
            · rcases List.mem_cons.mp hc with rfl | hc
              · split
                · exact Or.inl (masked_alphabet _)
                · exact Or.inr rfl
              · exact absurd hc (List.not_mem_nil _)
    · rw [if_neg hi]
      exact h

theorem base64_encode_chars (data : List Nat) (n : Nat) :
    ∀ c ∈ base64_encode data n, is_base64_char c ∨ c = 0x3D :=
  base64_loop_chars data n n 0 [] (fun _ hc => absurd hc (List.not_mem_nil _))

/-- C36: every byte `base64_encode` writes is one of the 64 alphabet
characters or `=`; for a framebuffer of `Config.width * Config.height * 3`
bytes `kitty_update_display` returns, and no payload of a data packet it
emits contains ESC (27), `\` (92) or `;` (59): every payload byte is a
character of the alphabet or `=`, so the terminator ESC `\` does not occur
inside a payload. -/
theorem kitty_update_display_payload_chars (s : State) (h : FbReady s) :
    (∀ (data : List Nat) (n : Nat), ∀ c ∈ base64_encode data n,
      is_base64_char c ∨ c = 0x3D) ∧
    ∃ s', kitty_update_display true s = some s' ∧
      ∀ p ∈ data_packets (emitted s s'), ∀ c ∈ p.payload,
        (is_base64_char c ∨ c = 0x3D) ∧ c ≠ 27 ∧ c ≠ 92 ∧ c ≠ 59 := by
  refine ⟨base64_encode_chars, ?_⟩
  obtain ⟨s', hs', _, _, hp, _⟩ := kitty_frame s h
  refine ⟨s', hs', ?_⟩
  intro p hpm c hc
  rw [hp] at hpm
  simp only [frame_packets, List.mem_map, List.mem_range] at hpm
  obtain ⟨k, _, rfl⟩ := hpm
  have hmem : c ∈ frame_blob s :=
    List.mem_of_mem_drop (List.mem_of_mem_take hc)
  have hch := base64_encode_chars _ _ c hmem
  refine ⟨hch, ?_, ?_, ?_⟩
  all_goals
    intro he
    subst he
    revert hch
    decide

/-- Witness of C36: the 1x1 framebuffer, classic dialect, frame 1. -/
theorem kitty_update_display_payload_chars_witness :
    FbReady (stateOne false 1) ∧
    ∃ s', kitty_update_display true (stateOne false 1) = some s' ∧
      ∀ p ∈ data_packets (emitted (stateOne false 1) s'), ∀ c ∈ p.payload,
        (is_base64_char c ∨ c = 0x3D) ∧ c ≠ 27 ∧ c ≠ 92 ∧ c ≠ 59 :=
  ⟨FbReady_stateOne false 1,
    (kitty_update_display_payload_chars (stateOne false 1) (FbReady_stateOne false 1)).2⟩

/-! ### Several mouse reports in one chunk -/

/-- A chunk that begins with a complete SGR mouse report of at most 63
bytes is decoded as that report, whatever follows it. -/
theorem process_input_sgr_extra (cfg : ConfigT) (bs xs ys : List Nat) (e : Nat)
    (rest : List Nat)
    (hb : is_digits bs) (hx : is_digits xs) (hy : is_digits ys)
    (he : isdigit e = false) (he0 : e ≠ 0) (hlen : (sgr_chunk bs xs ys e).length ≤ 63) :
    process_input cfg (sgr_chunk bs xs ys e ++ rest)
      = mouse_events cfg (decimal_value bs) (decimal_value xs) (decimal_value ys) e := by
  have hbl : 1 ≤ bs.length := List.length_pos.mpr hb.1
  have hxl : 1 ≤ xs.length := List.length_pos.mpr hx.1
  have hyl : 1 ≤ ys.length := List.length_pos.mpr hy.1
  have hl : (sgr_chunk bs xs ys e).length = bs.length + xs.length + ys.length + 6 := by
    simp [sgr_chunk]; omega
  have htake : (sgr_chunk bs xs ys e ++ rest).take 63
      = sgr_chunk bs xs ys e ++ rest.take (63 - (sgr_chunk bs xs ys e).length) := by
    rw [List.take_append_eq_append_take, List.take_of_length_le hlen]
  have h3 : (sgr_chunk bs xs ys e ++ rest.take (63 - (sgr_chunk bs xs ys e).length)).take 3
      = [27, 91, 60] := by
    simp [sgr_chunk]
  have hnz : ∀ c ∈ sgr_chunk bs xs ys e, c ≠ 0 := by
    intro c hc
    simp only [sgr_chunk, List.mem_append, List.mem_cons, List.mem_singleton,
      List.not_mem_nil, or_false] at hc
    rcases hc with ((((((h | h | h) | h) | h) | h) | h) | h) | h
    · omega
    · omega
    · omega
    · have := hb.2 c h; omega
    · omega
    · have := hx.2 c h; omega
    · omega
    · have := hy.2 c h; omega
    · omega
  have htw : (sgr_chunk bs xs ys e ++ rest.take (63 - (sgr_chunk bs xs ys e).length)).takeWhile
        (fun c => decide (c ≠ 0))
      = sgr_chunk bs xs ys e
        ++ (rest.take (63 - (sgr_chunk bs xs ys e).length)).takeWhile
          (fun c => decide (c ≠ 0)) := by
    rw [List.takeWhile_append_of_pos]
    intro c hc
    simpa using hnz c hc
  have hscan := sscanf_mouse_sgr bs xs ys e
    ((rest.take (63 - (sgr_chunk bs xs ys e).length)).takeWhile (fun c => decide (c ≠ 0)))
    hb hx hy he
  have hlen2 : (sgr_chunk bs xs ys e ++ rest.take (63 - (sgr_chunk bs xs ys e).length)).length
      ≥ bs.length + xs.length + ys.length + 6 := by
    rw [List.length_append, hl]
    omega
  have hlen3 : (sgr_chunk bs xs ys e ++ rest).length ≠ 0 := by
    rw [List.length_append, hl]
    omega
  unfold process_input
  rw [if_neg hlen3]
  simp only [htake]
  rw [if_neg (by omega), if_pos ⟨by omega, h3⟩, htw, hscan]

/-- C38: a chunk that begins with a complete SGR mouse report of at most 63
bytes (decimal button, x, y and a final character that is not a digit, as
`M` or `m`), followed by any further bytes (one or more further reports, as
one read may deliver), is decoded as its first report alone: the result
equals the result for the first report, so no later report yields an event;
with non-zero cell counts the call returns, with at most one `MouseMove`
call and at most one button or scroll call, and no other call. -/
theorem process_input_back_to_back (cfg : ConfigT) (bs xs ys : List Nat) (e : Nat)
    (rest : List Nat)
    (hb : is_digits bs) (hx : is_digits xs) (hy : is_digits ys)
    (he : isdigit e = false) (he0 : e ≠ 0) (hlen : (sgr_chunk bs xs ys e).length ≤ 63) :
    process_input cfg (sgr_chunk bs xs ys e ++ rest)
      = process_input cfg (sgr_chunk bs xs ys e) ∧
    (cfg.width_chars ≠ 0 → cfg.height_chars ≠ 0 →
      ∃ r, process_input cfg (sgr_chunk bs xs ys e ++ rest) = some r ∧
        (r.calls.filter is_mousemove).length ≤ 1 ∧
        (r.calls.filter is_button_or_scroll).length ≤ 1 ∧
        r.calls.length = (r.calls.filter is_mousemove).length
          + (r.calls.filter is_button_or_scroll).length) := by
  have h1 := process_input_sgr_extra cfg bs xs ys e rest hb hx hy he he0 hlen
  have h2 := process_input_sgr_extra cfg bs xs ys e [] hb hx hy he he0 hlen
  rw [List.append_nil] at h2
  refine ⟨by rw [h1, h2], ?_⟩
  intro hwc hhc
  obtain ⟨tail, hm, ht⟩ := mouse_events_shape cfg (decimal_value bs) (decimal_value xs)
    (decimal_value ys) e (cells_nonzero cfg hwc hhc)
  rw [h1, hm]
  refine ⟨_, rfl, ?_⟩
  simp only []
  by_cases hmv : Int.land (decimal_value bs : Int) 32 ≠ 0
  · rw [if_pos hmv]
    rcases ht with rfl | ⟨dx, dy, rfl⟩ | ⟨btn, rfl⟩ | ⟨btn, rfl⟩ <;>
      simp [is_mousemove, is_button_or_scroll]
  · rw [if_neg hmv]
    rcases ht with rfl | ⟨dx, dy, rfl⟩ | ⟨btn, rfl⟩ | ⟨btn, rfl⟩ <;>
      simp [is_mousemove, is_button_or_scroll]

/-- Witness of C38: the press `ESC [ < 0 ; 10 ; 5 M` followed directly by the
release `ESC [ < 0 ; 11 ; 5 m` on the 20x10 cell display: the press alone is
reported. -/
theorem process_input_back_to_back_witness :
    is_digits [48] ∧ is_digits [49, 48] ∧ is_digits [53] ∧ isdigit 77 = false ∧ (77 : Nat) ≠ 0 ∧
    (sgr_chunk [48] [49, 48] [53] 77).length ≤ 63 ∧
    sgr_chunk [48] [49, 48] [53] 77 ++ sgr_chunk [48] [49, 49] [53] 109
      = [27, 91, 60, 48, 59, 49, 48, 59, 53, 77, 27, 91, 60, 48, 59, 49, 49, 59, 53, 109] ∧
    process_input configCells (sgr_chunk [48] [49, 48] [53] 77) =
      some ⟨0, [MuInput.mousedown 36 32 MuMouse.MU_MOUSE_LEFT]⟩ ∧
    process_input configCells
        (sgr_chunk [48] [49, 48] [53] 77 ++ sgr_chunk [48] [49, 49] [53] 109)
      = process_input configCells (sgr_chunk [48] [49, 48] [53] 77) :=
  ⟨by decide, by decide, by decide, by decide, by decide, by decide, by decide, by decide,
    (process_input_back_to_back configCells [48] [49, 48] [53] 77
      (sgr_chunk [48] [49, 49] [53] 109) (by decide) (by decide) (by decide) (by decide)
      (by decide) (by decide)).1⟩

/-! ### The frame counter -/

theorem kitty_update_display_frame_number (m : Bool) (s s' : State)
    (h : kitty_update_display m s = some s') :
    s'.frame_number
      = if m = true ∧ s.frame_number = 0 then 1 else s.frame_number := by
  unfold kitty_update_display at h
  simp only [] at h
  split at h
  · rename_i hm
    cases h
    rw [if_neg (fun hc => by rw [hm] at hc; exact Bool.noConfusion hc.1)]
  · rename_i hm
    have hmt : m = true := by
      cases m
      · exact absurd rfl hm
      · rfl
    split at h
    · split at h
      · split at h
        · cases h
        · split at h
          · rename_i h0
            cases h
            show s.frame_number + 1 = _
            rw [h0]
            simp [hmt]
          · rename_i h0
            cases h
            show s.frame_number = _
            simp [h0]
      · cases h
    · cases h

theorem crt_set_pixel_frame_number (s s' : State) (x y : Int) (c : Nat)
    (h : crt_set_pixel s x y c = some s') : s'.frame_number = s.frame_number := by
  unfold crt_set_pixel at h
  split at h
  · cases h; rfl
  · split at h
    · cases h; rfl
    · simp only [] at h
      split at h
      · cases h
      · split at h
        · cases h; rfl
        · cases h

theorem updateWindowSize_frame_number (a : Bool) (s s' : State) (w h : Int)
    (hs : updateWindowSize a s w h = some s') :
    ((s.fb.isSome = true ∧ w = s.Config.width_chars ∧ h = s.Config.height_chars) ∧ s' = s) ∨
    (¬ (s.fb.isSome = true ∧ w = s.Config.width_chars ∧ h = s.Config.height_chars) ∧
      s'.frame_number = 0) := by
  unfold updateWindowSize at hs
  split at hs
  · rename_i hnoop
    cases hs
    exact Or.inl ⟨hnoop, rfl⟩
  · rename_i hchg
    split at hs
    · cases hs
    · simp only [] at hs
      split at hs
      · cases hs
      · cases hs
        exact Or.inr ⟨hchg, rfl⟩

theorem step_frame_number (s s' : State) (op : Op)
    (hinv : s.frame_number = 0 ∨ s.frame_number = 1) (h : step s op = some s') :
    s'.frame_number = 0 ∨ s'.frame_number = 1 := by
  cases op with
  | resize a w h' =>
    rcases updateWindowSize_frame_number a s s' w h' h with ⟨_, e⟩ | ⟨_, e⟩
    · rw [e]; exact hinv
    · exact Or.inl e
  | set_pixel x y c =>
    rw [crt_set_pixel_frame_number s s' x y c h]
    exact hinv
  | set_clip x y w h' =>
    simp only [step, Option.some.injEq] at h
    rw [← h]
    unfold set_clip_rect
    split <;> exact hinv
  | transmit m =>
    rw [kitty_update_display_frame_number m s s' h]
    split
    · exact Or.inr rfl
    · exact hinv

theorem run_frame_number : ∀ (ops : List Op) (s s' : State),
    (s.frame_number = 0 ∨ s.frame_number = 1) → run s ops = some s' →
    (s'.frame_number = 0 ∨ s'.frame_number = 1) := by
  intro ops
  induction ops with
  | nil =>
    intro s s' hinv h
    simp only [run, Option.some.injEq] at h
    rw [← h]
    exact hinv
  | cons op ops ih =>
    intro s s' hinv h
    simp only [run] at h
    split at h
    · cases h
    · rename_i s1 hs1
      exact ih s1 s' (step_frame_number s s1 op hinv hs1) h

/-- C39: in every state reached from start-up by resizes, pixel writes, clip
commands and transmissions, `frame_number` is 0 or 1.  From such a state a
size-changing `updateWindowSize` that returns sets it to 0 and one that
changes no size leaves the whole state as it is; a `kitty_update_display`
whose scratch buffer was allocated sets it to 1 (from 0 and from 1 alike),
one whose allocation failed leaves it as it is; `crt_set_pixel` and
`set_clip_rect` leave it as it is.  So it is 0 from start-up or a
size-changing resize until the next transmission, and 1 from then on. -/
theorem frame_number_zero_or_one (g : Bool) (ops : List Op) (s : State)
    (h : run (stateStart g) ops = some s) :
    (s.frame_number = 0 ∨ s.frame_number = 1) ∧
    (stateStart g).frame_number = 0 ∧
    (∀ s', kitty_update_display true s = some s' → s'.frame_number = 1) ∧
    (∀ s', kitty_update_display false s = some s' → s'.frame_number = s.frame_number) ∧
    (∀ a w hh s', updateWindowSize a s w hh = some s' →
      ((s.fb.isSome = true ∧ w = s.Config.width_chars ∧ hh = s.Config.height_chars) ∧ s' = s) ∨
      (¬ (s.fb.isSome = true ∧ w = s.Config.width_chars ∧ hh = s.Config.height_chars) ∧
        s'.frame_number = 0)) ∧
    (∀ x y c s', crt_set_pixel s x y c = some s' → s'.frame_number = s.frame_number) ∧
    (∀ x y w hh, (set_clip_rect s x y w hh).frame_number = s.frame_number) := by
  have hinv := run_frame_number ops (stateStart g) s (Or.inl rfl) h
  refine ⟨hinv, rfl, ?_, ?_, ?_, ?_, ?_⟩
  · intro s' hs'
    rw [kitty_update_display_frame_number true s s' hs']
    rcases hinv with h0 | h1
    · rw [if_pos ⟨rfl, h0⟩]
    · rw [if_neg (fun hc => by rw [h1] at hc; exact absurd hc.2 (by decide)), h1]
  · intro s' hs'
    rw [kitty_update_display_frame_number false s s' hs']
    rw [if_neg (fun hc => Bool.noConfusion hc.1)]
  · intro a w hh s' hs'
    exact updateWindowSize_frame_number a s s' w hh hs'
  · intro x y c s' hs'
    exact crt_set_pixel_frame_number s s' x y c hs'
  · intro x y w hh
    unfold set_clip_rect
    split <;> rfl

set_option maxRecDepth 20000 in
/-- Witness of C39: start-up, a resize to 1x1 cells, a transmission, a pixel
write and a second transmission. -/
theorem frame_number_zero_or_one_witness :
    (run (stateStart true)
      [Op.resize true 1 1, Op.transmit true, Op.set_pixel 1 1 0x102030,
        Op.transmit true]).isSome = true ∧
    ∀ s, run (stateStart true)
        [Op.resize true 1 1, Op.transmit true, Op.set_pixel 1 1 0x102030,
          Op.transmit true] = some s →
      (s.frame_number = 0 ∨ s.frame_number = 1) :=
  ⟨by decide, fun s h =>
    (frame_number_zero_or_one true
      [Op.resize true 1 1, Op.transmit true, Op.set_pixel 1 1 0x102030, Op.transmit true]
      s h).1⟩

/-! ### Input before the first resize -/

/-- With non-zero cell counts `process_input` returns on every input. -/
theorem process_input_returns (cfg : ConfigT) (pending : List Nat)
    (hwc : cfg.width_chars ≠ 0) (hhc : cfg.height_chars ≠ 0) :
    ∃ r, process_input cfg pending = some r := by
  unfold process_input
  split
  · exact ⟨_, rfl⟩
  · simp only []
    split
    · split_ifs <;> exact ⟨_, rfl⟩
    · split
      · split
        · rename_i button x y e _
          obtain ⟨r, hr, _⟩ := mouse_events_returns cfg button x y e hwc hhc
          exact ⟨r, hr⟩
        · exact ⟨_, rfl⟩
      · exact ⟨_, rfl⟩

/-- C37 (code at the failing input): `init` with TERM "xterm-kitty" returns
and leaves `Config.width_chars` and `Config.height_chars` at their initial
value 0 (`init_config` of `mukitty.c` sets the dialect and the id only);
`handleInputs` called before the first `begin` on the mouse report
`ESC [ < 0 ; 1 ; 1 M` divides by `Config.width_chars = 0`; so does
`handleInputs` after a `begin` for a terminal of 80 columns and 1 row, which
sets `Config.height_chars = 0`.  With non-zero cell counts `process_input`
returns on every input. -/
theorem handleInputs_before_begin :
    init_config (some "xterm-kitty") 7 stateZero = InitOutcome.returned (stateStart false) ∧
    (stateStart false).Config.width_chars = 0 ∧
    (stateStart false).Config.height_chars = 0 ∧
    handleInputs (stateStart false) [27, 91, 60, 48, 59, 49, 59, 49, 77] = none ∧
    (∃ s, muBegin_resize true (stateStart false) 80 1 = some s ∧
      s.Config.width_chars = 80 ∧ s.Config.height_chars = 0 ∧
      handleInputs s [27, 91, 60, 48, 59, 49, 59, 49, 77] = none) ∧
    (∀ (s : State) (pending : List Nat), s.Config.width_chars ≠ 0 → s.Config.height_chars ≠ 0 →
      ∃ r, handleInputs s pending = some r) := by
  refine ⟨by decide, rfl, rfl, by decide,
    ⟨{ Config := { ghostty_mode := false, kitty_mode := true, width_chars := 80,
                   height_chars := 0, width := 320, height := 0, render_id := 7 },
       clip_rect := { x := 0, y := 0, w := 0, h := 0, enabled := false },
       fb := some [], frame_number := 0, out := [], err := [] },
      by decide, rfl, rfl, by decide⟩, ?_⟩
  intro s pending hwc hhc
  exact process_input_returns s.Config pending hwc hhc

/-! ### Painting pixels -/

theorem Painted_congr (w h : Int) (color : Nat) (A B : Int → Int → Prop) (old new : List Nat)
    (hAB : ∀ px py, A px py ↔ B px py) (hp : Painted w h color A old new) :
    Painted w h color B old new := by
  have e : A = B := funext fun px => funext fun py => propext (hAB px py)
  rw [← e]
  exact hp

theorem Painted_refl (w h : Int) (color : Nat) (old : List Nat) :
    Painted w h color (fun _ _ => False) old old :=
  ⟨rfl, fun _ _ _ _ _ _ => ⟨fun hf => hf.elim, fun _ => rfl⟩⟩

/-- Two different pixels inside a framebuffer have different offsets. -/
theorem pixel_index_ne (w px py a b : Int) (hpx : 0 ≤ px) (hpxw : px < w)
    (ha : 0 ≤ a) (haw : a < w) (hne : ¬ (px = a ∧ py = b)) :
    px + py * w ≠ a + b * w := by
  intro he
  rcases lt_trichotomy py b with hlt | heq | hgt
  · have h1 : (py + 1) * w ≤ b * w := Int.mul_le_mul_of_nonneg_right (by omega) (by omega)
    have h2 : (py + 1) * w = py * w + w := by ring
    omega
  · subst heq
    exact hne ⟨by omega, rfl⟩
  · have h1 : (b + 1) * w ≤ py * w := Int.mul_le_mul_of_nonneg_right (by omega) (by omega)
    have h2 : (b + 1) * w = b * w + w := by ring
    omega

/-- Storing a colour at a pixel inside the framebuffer paints that pixel. -/
theorem store3_painted (w h : Int) (color : Nat) (A : Int → Int → Prop)
    (old buf : List Nat) (a b : Int)
    (hlen : (old.length : Int) = w * h * 3) (hp : Painted w h color A old buf)
    (ha : 0 ≤ a) (haw : a < w) (hb : 0 ≤ b) (hbh : b < h) :
    Painted w h color (fun px py => A px py ∨ (px = a ∧ py = b)) old
      (store3 buf (a * 3 + b * w * 3).toNat
        ((color >>> 16) &&& 0xff) ((color >>> 8) &&& 0xff) (color &&& 0xff)) := by
  obtain ⟨hl, hpix⟩ := hp
  obtain ⟨hb0, hb1⟩ := pixel_offset_bounds w h a b ha haw hb hbh
  have hfit : (a * 3 + b * w * 3).toNat + 3 ≤ buf.length := by
    have : a * 3 + b * w * 3 + 3 ≤ (buf.length : Int) := by rw [hl, hlen]; exact hb1
    omega
  refine ⟨by rw [store3_length, hl], ?_⟩
  intro px py hpx hpxw hpy hpyh
  by_cases hsame : px = a ∧ py = b
  · obtain ⟨rfl, rfl⟩ := hsame
    obtain ⟨e0, e1, e2⟩ := store3_get_stored buf (px * 3 + py * w * 3).toNat
      ((color >>> 16) &&& 0xff) ((color >>> 8) &&& 0xff) (color &&& 0xff) hfit
    have hc : pixel_at w (store3 buf (px * 3 + py * w * 3).toNat
        ((color >>> 16) &&& 0xff) ((color >>> 8) &&& 0xff) (color &&& 0xff)) px py
        = color_rgb color := by
      simp only [pixel_at, color_rgb, List.getD_eq_getElem?_getD, e0, e1, e2, Option.getD_some]
    exact ⟨fun _ => hc, fun hn => absurd (Or.inr ⟨rfl, rfl⟩) hn⟩
  · have hne := pixel_index_ne w px py a b hpx hpxw ha haw hsame
    obtain ⟨hq0, _⟩ := pixel_offset_bounds w h px py hpx hpxw hpy hpyh
    have e1 : px * 3 + py * w * 3 = 3 * (px + py * w) := by ring
    have e2 : a * 3 + b * w * 3 = 3 * (a + b * w) := by ring
    rw [e1] at hq0
    rw [e2] at hb0
    have hk : pixel_at w (store3 buf (a * 3 + b * w * 3).toNat
        ((color >>> 16) &&& 0xff) ((color >>> 8) &&& 0xff) (color &&& 0xff)) px py
        = pixel_at w buf px py := by
      simp only [pixel_at, List.getD_eq_getElem?_getD, e1, e2]
      rw [store3_get_other _ _ _ _ _ _ (by omega) (by omega) (by omega),
        store3_get_other _ _ _ _ _ _ (by omega) (by omega) (by omega),
        store3_get_other _ _ _ _ _ _ (by omega) (by omega) (by omega)]
    obtain ⟨hin, hout⟩ := hpix px py hpx hpxw hpy hpyh
    constructor
    · rintro (hA | hab)
      · rw [hk]; exact hin hA
      · exact absurd hab hsame
    · intro hn
      rw [hk]
      exact hout (fun hA => hn (Or.inl hA))

/-- `crt_set_pixel` of `main.c` returns and paints its pixel. -/
theorem crt_set_pixel_main_painted (w h : Int) (color : Nat) (A : Int → Int → Prop)
    (old buf : List Nat) (a b : Int)
    (hlen : (old.length : Int) = w * h * 3) (hp : Painted w h color A old buf) :
    ∃ buf', crt_set_pixel_main w h buf a b color = some buf' ∧
      Painted w h color (fun px py => A px py ∨ (px = a ∧ py = b)) old buf' := by
  unfold crt_set_pixel_main
  by_cases hout : a < 0 ∨ a ≥ w ∨ b < 0 ∨ b ≥ h
  · rw [if_pos hout]
    refine ⟨buf, rfl, hp.1, ?_⟩
    intro px py hpx hpxw hpy hpyh
    obtain ⟨hin, hkeep⟩ := hp.2 px py hpx hpxw hpy hpyh
    constructor
    · rintro (hA | ⟨rfl, rfl⟩)
      · exact hin hA
      · omega
    · intro hn
      exact hkeep (fun hA => hn (Or.inl hA))
  · rw [if_neg hout]
    obtain ⟨hb0, hb1⟩ := pixel_offset_bounds w h a b (by omega) (by omega) (by omega) (by omega)
    simp only []
    rw [if_pos ⟨hb0, by rw [hp.1, hlen]; exact hb1⟩]
    exact ⟨_, rfl, store3_painted w h color A old buf a b hlen hp (by omega) (by omega)
      (by omega) (by omega)⟩

/-- A loop whose body adds the points `B i` to the painted set adds the
points of every index it runs over. -/
theorem loop_over_painted {σ : Type} (Inv : (Int → Int → Prop) → σ → Prop)
    (B : Nat → Int → Int → Prop) (body : Nat → σ → Option σ)
    (hbody : ∀ i A s, Inv A s →
      ∃ s', body i s = some s' ∧ Inv (fun px py => A px py ∨ B i px py) s') :
    ∀ (l : List Nat) (A : Int → Int → Prop) (s : σ), Inv A s →
      ∃ s', loop_over l body s = some s' ∧
        Inv (fun px py => A px py ∨ ∃ i ∈ l, B i px py) s' := by
  intro l
  induction l with
  | nil =>
    intro A s hs
    refine ⟨s, rfl, ?_⟩
    have e : (fun px py => A px py ∨ ∃ i ∈ ([] : List Nat), B i px py) = A := by
      funext px py
      simp
    rw [e]
    exact hs
  | cons i rest ih =>
    intro A s hs
    obtain ⟨s1, h1, hp1⟩ := hbody i A s hs
    obtain ⟨s2, h2, hp2⟩ := ih _ s1 hp1
    refine ⟨s2, by simp only [loop_over, h1]; exact h2, ?_⟩
    have e : (fun px py => (A px py ∨ B i px py) ∨ ∃ j ∈ rest, B j px py)
        = (fun px py => A px py ∨ ∃ j ∈ i :: rest, B j px py) := by
      funext px py
      simp only [List.mem_cons, exists_eq_or_imp, or_assoc]
    rw [← e]
    exact hp2

/-- `draw_char` of `main.c` returns and paints the pixels its four loops
address: for every set bit (`row`, `col`) of the glyph and every `dy`, `dx`
below `size`, the pixel at the coordinates as the code computes them. -/
theorem draw_glyph_main_painted (glyph : Nat → Nat) (fb : List Nat) (x y : Int)
    (size color : Nat) (hlen : (fb.length : Int) = SCREEN_W * SCREEN_H * 3) :
    ∃ fb', draw_glyph_main glyph fb x y size color = some fb' ∧
      Painted SCREEN_W SCREEN_H color
        (fun px py => ∃ row ∈ List.range 8, ∃ col ∈ List.range 8,
          glyph row &&& (0x80 >>> col) ≠ 0 ∧
          ∃ dy ∈ List.range size, ∃ dx ∈ List.range size,
            px = to_int32 (x + col * size + dx) ∧ py = to_int32 (y + row * size + dy))
        fb fb' := by
  have hdx : ∀ (row col dy : Nat) (A : Int → Int → Prop) (b : List Nat),
      Painted SCREEN_W SCREEN_H color A fb b →
      ∃ b', for_loop size (fun dx fb4 =>
          crt_set_pixel_main SCREEN_W SCREEN_H fb4
            (to_int32 (x + col * size + dx)) (to_int32 (y + row * size + dy)) color) b = some b' ∧
        Painted SCREEN_W SCREEN_H color
          (fun px py => A px py ∨ ∃ dx ∈ List.range size,
            px = to_int32 (x + col * size + dx) ∧ py = to_int32 (y + row * size + dy)) fb b' := by
    intro row col dy A b hb
    exact loop_over_painted (fun A b => Painted SCREEN_W SCREEN_H color A fb b)
      (fun dx px py => px = to_int32 (x + col * size + dx) ∧ py = to_int32 (y + row * size + dy))
      _ (fun dx A' b1 h1 => crt_set_pixel_main_painted SCREEN_W SCREEN_H color A' fb b1 _ _ hlen h1)
      (List.range size) A b hb
  have hdy : ∀ (row col : Nat) (A : Int → Int → Prop) (b : List Nat),
      Painted SCREEN_W SCREEN_H color A fb b →
      ∃ b', for_loop size (fun dy fb3 => for_loop size (fun dx fb4 =>
          crt_set_pixel_main SCREEN_W SCREEN_H fb4
            (to_int32 (x + col * size + dx)) (to_int32 (y + row * size + dy)) color) fb3) b
          = some b' ∧
        Painted SCREEN_W SCREEN_H color
          (fun px py => A px py ∨ ∃ dy ∈ List.range size, ∃ dx ∈ List.range size,
            px = to_int32 (x + col * size + dx) ∧ py = to_int32 (y + row * size + dy)) fb b' := by
    intro row col A b hb
    exact loop_over_painted (fun A b => Painted SCREEN_W SCREEN_H color A fb b)
      (fun dy px py => ∃ dx ∈ List.range size,
        px = to_int32 (x + col * size + dx) ∧ py = to_int32 (y + row * size + dy))
      _ (fun dy A' b1 h1 => hdx row col dy A' b1 h1) (List.range size) A b hb
  have hcol : ∀ (row : Nat) (A : Int → Int → Prop) (b : List Nat),
      Painted SCREEN_W SCREEN_H color A fb b →
      ∃ b', for_loop 8 (fun col fb2 =>
          if glyph row &&& (0x80 >>> col) ≠ 0 then
            for_loop size (fun dy fb3 => for_loop size (fun dx fb4 =>
              crt_set_pixel_main SCREEN_W SCREEN_H fb4
                (to_int32 (x + col * size + dx)) (to_int32 (y + row * size + dy)) color) fb3) fb2
          else some fb2) b = some b' ∧
        Painted SCREEN_W SCREEN_H color
          (fun px py => A px py ∨ ∃ col ∈ List.range 8, glyph row &&& (0x80 >>> col) ≠ 0 ∧
            ∃ dy ∈ List.range size, ∃ dx ∈ List.range size,
              px = to_int32 (x + col * size + dx) ∧ py = to_int32 (y + row * size + dy)) fb b' := by
    intro row A b hb
    refine loop_over_painted (fun A b => Painted SCREEN_W SCREEN_H color A fb b)
      (fun col px py => glyph row &&& (0x80 >>> col) ≠ 0 ∧
        ∃ dy ∈ List.range size, ∃ dx ∈ List.range size,
          px = to_int32 (x + col * size + dx) ∧ py = to_int32 (y + row * size + dy))
      _ ?_ (List.range 8) A b hb
    intro col A' b1 h1
    by_cases hbit : glyph row &&& (0x80 >>> col) ≠ 0
    · simp only [if_pos hbit]
      obtain ⟨b2, h2, hp2⟩ := hdy row col A' b1 h1
      refine ⟨b2, h2, Painted_congr _ _ _ _ _ _ _ ?_ hp2⟩
      intro px py
      constructor
      · rintro (hA | hB)
        · exact Or.inl hA
        · exact Or.inr ⟨hbit, hB⟩
      · rintro (hA | ⟨_, hB⟩)
        · exact Or.inl hA
        · exact Or.inr hB
    · simp only [if_neg hbit]
      refine ⟨b1, rfl, Painted_congr _ _ _ _ _ _ _ ?_ h1⟩
      intro px py
      constructor
      · intro hA
        exact Or.inl hA
      · rintro (hA | ⟨hb', _⟩)
        · exact hA
        · exact absurd hb' hbit
  obtain ⟨fb', h1, hp⟩ := loop_over_painted (fun A b => Painted SCREEN_W SCREEN_H color A fb b)
    (fun row px py => ∃ col ∈ List.range 8, glyph row &&& (0x80 >>> col) ≠ 0 ∧
      ∃ dy ∈ List.range size, ∃ dx ∈ List.range size,
        px = to_int32 (x + col * size + dx) ∧ py = to_int32 (y + row * size + dy))
    _ (fun row A' b1 h1 => hcol row A' b1 h1) (List.range 8) (fun _ _ => False) fb
    (Painted_refl _ _ _ _)
  refine ⟨fb', h1, Painted_congr _ _ _ _ _ _ _ ?_ hp⟩
  intro px py
  constructor
  · rintro (hf | h)
    · exact hf.elim
    · exact h
  · intro h
    exact Or.inr h

theorem block_div (q : Int) (s col d : Nat) (hs : 1 ≤ s) (hd : d < s)
    (h : q = (col : Int) * s + d) : (q / (s : Int)).toNat = col := by
  have hs0 : (s : Int) ≠ 0 := by omega
  have e : q / (s : Int) = col := by
    rw [h, add_comm, Int.add_mul_ediv_right _ _ hs0, Int.ediv_eq_zero_of_lt (by omega) (by omega)]
    omega
  rw [e]
  rfl

theorem block_split (q : Int) (s : Nat) (hs : 1 ≤ s) (h0 : 0 ≤ q) (h1 : q < 8 * (s : Int)) :
    (q / (s : Int)).toNat < 8 ∧ (q % (s : Int)).toNat < s ∧
    q = ((q / (s : Int)).toNat : Int) * s + ((q % (s : Int)).toNat : Int) := by
  have hs0 : (0 : Int) < s := by omega
  have hd0 : 0 ≤ q / (s : Int) := Int.ediv_nonneg h0 (le_of_lt hs0)
  have hd1 : q / (s : Int) < 8 := Int.ediv_lt_of_lt_mul hs0 h1
  have hm0 : 0 ≤ q % (s : Int) := Int.emod_nonneg q (by omega)
  have hm1 : q % (s : Int) < s := Int.emod_lt_of_pos q hs0
  have hsplit : (s : Int) * (q / (s : Int)) + q % (s : Int) = q := Int.ediv_add_emod q s
  refine ⟨by omega, by omega, ?_⟩
  rw [Int.toNat_of_nonneg hd0, Int.toNat_of_nonneg hm0, mul_comm]
  exact hsplit.symm

/-- A coordinate the code computes in `uint32_t` arithmetic is the exact sum
when the start coordinate is an `int`, the glyph is at most `2 ^ 31` pixels
wide, and the result lies in the framebuffer. -/
theorem block_coordinate (x p : Int) (size col d : Nat) (h8 : 8 * size ≤ 2147483648)
    (hx : fits_int x) (hp0 : 0 ≤ p) (hp1 : p < 2147483648) (hcol : col < 8) (hd : d < size) :
    p = to_int32 (x + col * size + d) ↔ p - x = (col : Int) * size + d := by
  have hcs : (col : Int) * size ≤ 7 * size :=
    Int.mul_le_mul_of_nonneg_right (by omega) (by omega)
  have hcs0 : 0 ≤ (col : Int) * size := Int.mul_nonneg (by omega) (by omega)
  unfold fits_int at hx
  unfold to_int32
  generalize (col : Int) * size = cs at hcs hcs0 ⊢
  omega

/-- C35 (amended): in `main.c`, on a framebuffer of `SCREEN_W * SCREEN_H * 3`
bytes, for every character, every position (x, y) in the range of `int` and
every scale with 1 <= size and 8 * size <= 2^31, `draw_char` returns, keeps
the length of the buffer, and sets a pixel (px,py) inside the framebuffer to
`color` exactly when 0 <= px-x < 8*size, 0 <= py-y < 8*size and bit
(0x80 >> floor((px-x)/size)) of row floor((py-y)/size) of the character's
glyph is set; every other pixel inside the framebuffer keeps its bytes. -/
theorem draw_char_main_pixels (font : Nat → Nat → Nat) (fb : List Nat) (x y c : Int)
    (size color : Nat) (hlen : (fb.length : Int) = SCREEN_W * SCREEN_H * 3)
    (hs : 1 ≤ size) (h8 : 8 * size ≤ 2147483648) (hx : fits_int x) (hy : fits_int y) :
    ∃ fb', draw_char_main font fb x y c size color = some fb' ∧ fb'.length = fb.length ∧
      ∀ px py, 0 ≤ px → px < SCREEN_W → 0 ≤ py → py < SCREEN_H →
        ((0 ≤ px - x ∧ px - x < 8 * (size : Int) ∧ 0 ≤ py - y ∧ py - y < 8 * (size : Int) ∧
            font (glyph_code c) ((py - y) / (size : Int)).toNat
              &&& (0x80 >>> ((px - x) / (size : Int)).toNat) ≠ 0) →
          pixel_at SCREEN_W fb' px py = color_rgb color) ∧
        (¬ (0 ≤ px - x ∧ px - x < 8 * (size : Int) ∧ 0 ≤ py - y ∧ py - y < 8 * (size : Int) ∧
            font (glyph_code c) ((py - y) / (size : Int)).toNat
              &&& (0x80 >>> ((px - x) / (size : Int)).toNat) ≠ 0) →
          pixel_at SCREEN_W fb' px py = pixel_at SCREEN_W fb px py) := by
  obtain ⟨fb', h1, hl, hp⟩ := draw_glyph_main_painted (font (glyph_code c)) fb x y size color hlen
  refine ⟨fb', h1, hl, ?_⟩
  intro px py hpx hpxw hpy hpyh
  have hpx1 : px < 2147483648 := by unfold SCREEN_W at hpxw; omega
  have hpy1 : py < 2147483648 := by unfold SCREEN_H at hpyh; omega
  have hiff : (∃ row ∈ List.range 8, ∃ col ∈ List.range 8,
        font (glyph_code c) row &&& (0x80 >>> col) ≠ 0 ∧
        ∃ dy ∈ List.range size, ∃ dx ∈ List.range size,
          px = to_int32 (x + col * size + dx) ∧ py = to_int32 (y + row * size + dy)) ↔
      (0 ≤ px - x ∧ px - x < 8 * (size : Int) ∧ 0 ≤ py - y ∧ py - y < 8 * (size : Int) ∧
        font (glyph_code c) ((py - y) / (size : Int)).toNat
          &&& (0x80 >>> ((px - x) / (size : Int)).toNat) ≠ 0) := by
    constructor
    · rintro ⟨row, hrow, col, hcol, hbit, dy, hdy, dx, hdx, ex, ey⟩
      rw [List.mem_range] at hrow hcol hdy hdx
      have ex1 := (block_coordinate x px size col dx h8 hx hpx hpx1 hcol hdx).mp ex
      have ey1 := (block_coordinate y py size row dy h8 hy hpy hpy1 hrow hdy).mp ey
      have hc := block_div (px - x) size col dx hs hdx ex1
      have hr := block_div (py - y) size row dy hs hdy ey1
      have hcs : (col : Int) * size ≤ 7 * size :=
        Int.mul_le_mul_of_nonneg_right (by omega) (by omega)
      have hcs0 : 0 ≤ (col : Int) * size := Int.mul_nonneg (by omega) (by omega)
      have hrs : (row : Int) * size ≤ 7 * size :=
        Int.mul_le_mul_of_nonneg_right (by omega) (by omega)
      have hrs0 : 0 ≤ (row : Int) * size := Int.mul_nonneg (by omega) (by omega)
      rw [hc, hr]
      exact ⟨by omega, by omega, by omega, by omega, hbit⟩
    · rintro ⟨h0, h1', h2, h3, hbit⟩
      obtain ⟨hc8, hdxs, ex⟩ := block_split (px - x) size hs h0 h1'
      obtain ⟨hr8, hdys, ey⟩ := block_split (py - y) size hs h2 h3
      refine ⟨_, List.mem_range.mpr hr8, _, List.mem_range.mpr hc8, hbit,
        _, List.mem_range.mpr hdys, _, List.mem_range.mpr hdxs, ?_, ?_⟩
      · exact (block_coordinate x px size _ _ h8 hx hpx hpx1 hc8 hdxs).mpr ex
      · exact (block_coordinate y py size _ _ h8 hy hpy hpy1 hr8 hdys).mpr ey
  obtain ⟨hin, hkeep⟩ := hp px py hpx hpxw hpy hpyh
  exact ⟨fun h => hin (hiff.mpr h), fun h => hkeep (fun hA => h (hiff.mp hA))⟩

/-- Witness of C35: the letter `A` at (0, 0) with scale 2 on the black
framebuffer, for a font whose rows are all 0x81. -/
theorem draw_char_main_pixels_witness :
    (screenBlack.length : Int) = SCREEN_W * SCREEN_H * 3 ∧ 1 ≤ 2 ∧ 8 * 2 ≤ 2147483648 ∧
    fits_int 0 ∧ fits_int 0 ∧
    ∃ fb', draw_char_main (fun _ _ => 0x81) screenBlack 0 0 65 2 0xFFFFFF = some fb' ∧
      fb'.length = screenBlack.length ∧
      ∀ px py, 0 ≤ px → px < SCREEN_W → 0 ≤ py → py < SCREEN_H →
        ((0 ≤ px - 0 ∧ px - 0 < 8 * ((2 : Nat) : Int) ∧ 0 ≤ py - 0 ∧
            py - 0 < 8 * ((2 : Nat) : Int) ∧
            (fun _ _ => 0x81) (glyph_code 65) ((py - 0) / ((2 : Nat) : Int)).toNat
              &&& (0x80 >>> ((px - 0) / ((2 : Nat) : Int)).toNat) ≠ 0) →
          pixel_at SCREEN_W fb' px py = color_rgb 0xFFFFFF) ∧
        (¬ (0 ≤ px - 0 ∧ px - 0 < 8 * ((2 : Nat) : Int) ∧ 0 ≤ py - 0 ∧
            py - 0 < 8 * ((2 : Nat) : Int) ∧
            (fun _ _ => 0x81) (glyph_code 65) ((py - 0) / ((2 : Nat) : Int)).toNat
              &&& (0x80 >>> ((px - 0) / ((2 : Nat) : Int)).toNat) ≠ 0) →
          pixel_at SCREEN_W fb' px py = pixel_at SCREEN_W screenBlack px py) :=
  ⟨screenBlack_length, by decide, by decide, by decide, by decide,
    draw_char_main_pixels (fun _ _ => 0x81) screenBlack 0 0 65 2 0xFFFFFF screenBlack_length
      (by decide) (by decide) (by decide) (by decide)⟩

/-- C35 (counterexample to the original wording): with scale 2^29 + 1 the
`uint32_t` sum `x + col * size + dx` wraps: at (0, 0), for a glyph whose
row 0 is 0x01 (only the rightmost column set), column 7 and
dx = 2^29 - 7 give 7 * (2^29 + 1) + 2^29 - 7 = 2^32, which is pixel column 0.  `draw_char` of
`main.c` sets pixel (0, 0) of the black framebuffer to white, although the
bit 0x80 >> floor(0 / size) = 0x80 of row 0 is not set. -/
theorem draw_char_main_scale_wraps :
    ∃ fb', draw_char_main (fun _ row => if row = 0 then 0x01 else 0) screenBlack 0 0 65
        536870913 0xFFFFFF = some fb' ∧
      pixel_at SCREEN_W screenBlack 0 0 = [0, 0, 0] ∧
      pixel_at SCREEN_W fb' 0 0 = [255, 255, 255] ∧
      ¬ ((fun (_ : Nat) (row : Nat) => if row = 0 then 0x01 else 0) (glyph_code 65)
            (((0 : Int) - 0) / ((536870913 : Nat) : Int)).toNat
          &&& (0x80 >>> (((0 : Int) - 0) / ((536870913 : Nat) : Int)).toNat) ≠ 0) := by
  obtain ⟨fb', h1, _, hp⟩ := draw_glyph_main_painted
    ((fun (_ : Nat) (row : Nat) => if row = 0 then 0x01 else 0) (glyph_code 65))
    screenBlack 0 0 536870913 0xFFFFFF screenBlack_length
  refine ⟨fb', h1, by decide, ?_, by decide⟩
  have hA := (hp 0 0 (by decide) (by decide) (by decide) (by decide)).1
    ⟨0, List.mem_range.mpr (by decide), 7, List.mem_range.mpr (by decide), by decide,
      0, List.mem_range.mpr (by decide), 536870905, List.mem_range.mpr (by decide),
      by decide, by decide⟩
  rw [hA]
  decide

/-! ### `armalloc` -/

theorem round_size_max : round_size 18446744073709551615 = 0 := by decide

/-- Clearing the low three bits of a 64-bit number rounds it down to a
multiple of 8. -/
theorem and_mask_eq (n : Nat) (hn : n < 2 ^ 64) : n &&& 0xFFFFFFFFFFFFFFF8 = n / 8 * 8 := by
  apply Nat.eq_of_testBit_eq
  intro i
  have hm : (0xFFFFFFFFFFFFFFF8 : Nat) = 2 ^ 3 * (2 ^ 61 - 1) := by norm_num
  have h8 : n / 8 * 8 = 2 ^ 3 * (n / 2 ^ 3) := by norm_num [Nat.mul_comm]
  rw [Nat.testBit_and, hm, h8, Nat.testBit_mul_pow_two, Nat.testBit_mul_pow_two,
    Nat.testBit_two_pow_sub_one, ← Nat.shiftRight_eq_div_pow, Nat.testBit_shiftRight]
  by_cases h3 : 3 ≤ i
  · have e : 3 + (i - 3) = i := by omega
    simp only [h3, decide_True, Bool.true_and, e]
    by_cases h64 : i < 64
    · have : i - 3 < 61 := by omega
      simp [this]
    · have hlt : n < 2 ^ i := lt_of_lt_of_le hn (Nat.pow_le_pow_right (by omega) (by omega))
      rw [Nat.testBit_eq_false_of_lt hlt]
      simp
  · simp [h3]

theorem round_size_eq (size : Nat) (h : size + 7 < 2 ^ 64) :
    round_size size = (size + 7) / 8 * 8 := by
  unfold round_size
  rw [Nat.mod_eq_of_lt h, and_mask_eq _ h]

theorem armalloc_size_max (junk : Nat → Nat) :
    armalloc true junk ⟨[]⟩ 18446744073709551615
      = some (some ⟨0, 0⟩,
          ⟨[{ count := 0, capacity := 4072, items := ((List.range 4096).map junk).drop 24 }]⟩) := by
  simp [armalloc, round_size_max, malloc_block, arena_take, fresh_region, REGION_HEADER,
    ALL_REGION_MIN_SIZE]

/-- Lines 37-40 of `armalloc` on a last region with room for `n` bytes. -/
theorem arena_take_spec (rs : List ArenaRegion) (e : ArenaRegion) (n : Nat)
    (hfit : e.count + n ≤ e.capacity) (hcap : e.capacity = e.items.length)
    (hlt : e.capacity < 2 ^ 63) :
    ∃ e', arena_take (rs ++ [e]) n = some (some ⟨rs.length, e.count⟩, ⟨rs ++ [e']⟩) ∧
      e'.count = e.count + n ∧ e'.capacity = e.capacity ∧
      e'.items.length = e.items.length ∧
      (e'.items.drop e.count).take n = List.replicate n 0 ∧
      e'.items.take e.count = e.items.take e.count := by
  have hlen : (e.items.take e.count).length = e.count := by
    rw [List.length_take]
    omega
  refine ⟨{ e with count := (e.count + n) % 2 ^ 64,
                   items := e.items.take e.count ++ List.replicate n 0
                     ++ e.items.drop (e.count + n) }, ?_, ?_, rfl, ?_, ?_, ?_⟩
  · unfold arena_take
    rw [List.getLast?_concat]
    simp only []
    rw [if_pos (by omega), List.dropLast_concat]
    simp
  · show (e.count + n) % 2 ^ 64 = e.count + n
    omega
  · show (e.items.take e.count ++ List.replicate n 0 ++ e.items.drop (e.count + n)).length
      = e.items.length
    simp only [List.length_append, List.length_take, List.length_replicate, List.length_drop]
    omega
  · show ((e.items.take e.count ++ List.replicate n 0 ++ e.items.drop (e.count + n)).drop
      e.count).take n = List.replicate n 0
    rw [List.append_assoc, List.drop_left' hlen, List.take_left' (List.length_replicate _ _)]
  · show (e.items.take e.count ++ List.replicate n 0 ++ e.items.drop (e.count + n)).take
      e.count = e.items.take e.count
    rw [List.append_assoc, List.take_left' hlen]

/-- After lines 37-40 of `armalloc` on a last region with room for `n`
bytes the arena is consistent and the block handed out is new. -/
theorem arena_take_granted (a1 : ArenaAllocator) (rs : List ArenaRegion) (e : ArenaRegion)
    (n : Nat) (hfit : e.count + n ≤ e.capacity) (hcap : e.capacity = e.items.length)
    (hlt : e.capacity < 2 ^ 63)
    (hrs : ∀ r ∈ rs, r.count ≤ r.capacity ∧ r.capacity = r.items.length ∧ r.capacity < 2 ^ 63)
    (hold : a1.regions = rs ++ [e] ∨ a1.regions = rs) :
    ∃ a2, arena_take (rs ++ [e]) n = some (some ⟨rs.length, e.count⟩, a2) ∧
      ArenaWF a2 ∧ BlockGranted a1 a2 ⟨rs.length, e.count⟩ n := by
  obtain ⟨e', htake, hcount, hcap', hlen', hzero, hkeep⟩ := arena_take_spec rs e n hfit hcap hlt
  refine ⟨⟨rs ++ [e']⟩, htake, ?_, ?_, ?_, ?_, ?_⟩
  · intro r hr
    rcases List.mem_append.mp hr with hr | hr
    · exact hrs r hr
    · rw [List.mem_singleton] at hr
      subst hr
      exact ⟨by omega, by omega, by omega⟩
  · show rs.length + 1 = (rs ++ [e']).length
    simp
  · unfold block_bytes
    show (match (rs ++ [e'])[rs.length]? with
      | none => none
      | some r => if e.count + n ≤ r.items.length then some ((r.items.drop e.count).take n)
          else none) = some (List.replicate n 0)
    rw [List.getElem?_concat_length]
    simp only []
    rw [if_pos (by omega), hzero]
  · exact ⟨e', List.getElem?_concat_length rs e', hcount, by omega⟩
  · intro i r1 hi
    show ∃ r2, (rs ++ [e'])[i]? = some r2 ∧ r2.items.take r1.count = r1.items.take r1.count ∧
      (i = rs.length → r1.count ≤ e.count)
    by_cases hlt' : i < rs.length
    · have h1 : rs[i]? = some r1 := by
        rcases hold with h | h
        · rw [h, List.getElem?_append_left hlt'] at hi
          exact hi
        · rw [h] at hi
          exact hi
      exact ⟨r1, by rw [List.getElem?_append_left hlt']; exact h1, rfl, fun h => by omega⟩
    · rcases hold with h | h
      · rw [h] at hi
        by_cases heq : i = rs.length
        · subst heq
          rw [List.getElem?_concat_length] at hi
          cases hi
          exact ⟨e', List.getElem?_concat_length rs e', hkeep, fun _ => le_refl _⟩
        · rw [List.getElem?_eq_none (by simp; omega)] at hi
          cases hi
      · rw [h, List.getElem?_eq_none (by omega)] at hi
        cases hi

/-- For a request of 1 to `2 ^ 62` bytes on a consistent arena, `armalloc`
returns; it returns `NULL` with the arena unchanged only when `malloc`
fails, and otherwise hands out a new zero-filled block of the rounded size,
which is at least the size asked for, and leaves the arena consistent. -/
theorem armalloc_granted (ok : Bool) (junk : Nat → Nat) (a : ArenaAllocator) (size : Nat)
    (hwf : ArenaWF a) (h0 : 0 < size) (hmax : size ≤ 2 ^ 62) :
    (∃ p a', armalloc ok junk a size = some (some p, a') ∧ ArenaWF a' ∧
      size ≤ round_size size ∧ BlockGranted a a' p (round_size size)) ∨
    (ok = false ∧ armalloc ok junk a size = some (none, a)) := by
  have hr := round_size_eq size (by omega)
  have hge : size ≤ round_size size := by rw [hr]; omega
  have hle : round_size size ≤ size + 7 := by rw [hr]; omega
  generalize round_size size = n at hr hge hle ⊢
  have hfresh : ∀ rs : List ArenaRegion, a.regions = rs →
      (∃ p a', (match malloc_block ok junk
            ((REGION_HEADER + (if n > ALL_REGION_MIN_SIZE then n else ALL_REGION_MIN_SIZE))
              % 2 ^ 64) with
          | none => some (none, a)
          | some block =>
            if block.length < REGION_HEADER then none
            else arena_take (a.regions ++ [fresh_region
              ((REGION_HEADER + (if n > ALL_REGION_MIN_SIZE then n else ALL_REGION_MIN_SIZE))
                % 2 ^ 64) block]) n) = some (some p, a') ∧ ArenaWF a' ∧
        size ≤ n ∧ BlockGranted a a' p n) ∨
      (ok = false ∧ (match malloc_block ok junk
            ((REGION_HEADER + (if n > ALL_REGION_MIN_SIZE then n else ALL_REGION_MIN_SIZE))
              % 2 ^ 64) with
          | none => some (none, a)
          | some block =>
            if block.length < REGION_HEADER then none
            else arena_take (a.regions ++ [fresh_region
              ((REGION_HEADER + (if n > ALL_REGION_MIN_SIZE then n else ALL_REGION_MIN_SIZE))
                % 2 ^ 64) block]) n) = some (none, a)) := by
    intro rs hrs
    have hmx : ∃ m, (if n > ALL_REGION_MIN_SIZE then n else ALL_REGION_MIN_SIZE) = m ∧
        n ≤ m ∧ m ≤ 2 ^ 62 + 4072 := by
      refine ⟨_, rfl, ?_, ?_⟩
      · split
        · exact le_refl _
        · rename_i h
          exact Nat.le_of_not_gt h
      · unfold ALL_REGION_MIN_SIZE REGION_HEADER
        split <;> omega
    obtain ⟨m, hm, hnm, hm2⟩ := hmx
    rw [hm]
    have hrsz : (REGION_HEADER + m) % 2 ^ 64 = 24 + m := by
      unfold REGION_HEADER
      omega
    rw [hrsz]
    cases ok with
    | false =>
      right
      refine ⟨rfl, ?_⟩
      simp [malloc_block]
    | true =>
      left
      have hmb : malloc_block true junk (24 + m) = some ((List.range (24 + m)).map junk) := by
        unfold malloc_block
        rw [if_pos ⟨rfl, by omega⟩]
      rw [hmb]
      simp only []
      have hbl : ((List.range (24 + m)).map junk).length = 24 + m := by simp
      rw [if_neg (by rw [hbl]; unfold REGION_HEADER; omega)]
      have hitems : (fresh_region (24 + m) ((List.range (24 + m)).map junk)).items.length = m := by
        simp only [fresh_region, REGION_HEADER, List.length_drop, hbl]
        omega
      have hcapf : (fresh_region (24 + m) ((List.range (24 + m)).map junk)).capacity = m := by
        simp only [fresh_region, REGION_HEADER]
        omega
      obtain ⟨a2, h2, hwf2, hg2⟩ := arena_take_granted a a.regions
        (fresh_region (24 + m) ((List.range (24 + m)).map junk)) n
        (by rw [hcapf]; simp only [fresh_region]; omega) (by rw [hcapf, hitems])
        (by rw [hcapf]; omega) hwf (Or.inr rfl)
      exact ⟨_, a2, h2, hwf2, hge, hg2⟩
  unfold armalloc
  rw [if_neg (by omega)]
  simp only []
  rw [show round_size size = n from by rw [hr]; exact (round_size_eq size (by omega))] at *
  cases hlast : a.regions.getLast? with
  | none =>
    simp only [if_true]
    exact hfresh a.regions rfl
  | some e =>
    obtain ⟨rs, hrs⟩ := List.getLast?_eq_some_iff.mp hlast
    have he := hwf e (by rw [hrs]; simp)
    by_cases hfull : (e.count + n) % 2 ^ 64 > e.capacity
    · simp only [hfull, decide_True, if_true]
      exact hfresh a.regions rfl
    · simp only [hfull, decide_False]
      rw [if_neg (by decide)]
      left
      have hnw : (e.count + n) % 2 ^ 64 = e.count + n := by omega
      rw [hnw] at hfull
      obtain ⟨a2, h2, hwf2, hg2⟩ := arena_take_granted a rs e n (by omega) he.2.1 he.2.2
        (fun r hr => hwf r (by rw [hrs]; exact List.mem_append_left _ hr)) (Or.inl hrs)
      rw [hrs]
      exact ⟨_, a2, h2, hwf2, hge, hg2⟩

/-- C40 (code at the failing input): on the empty arena,
`armalloc(a, SIZE_MAX)` (size 2^64 - 1) rounds the size to 0 in `size_t`
arithmetic, sets up a region of capacity 4072 and returns the non-NULL
pointer to offset 0 of its `items` with `count` still 0: the block of the
size asked for does not lie inside the region, and the next call
`armalloc(a, 8)` returns the same pointer.  `armalloc(a, 0)` returns `NULL`
and leaves the arena unchanged.  For a request of 1 to 2^62 bytes on a
consistent arena (the empty arena, also after `arfree`, is consistent, and
`armalloc` keeps it so), a successful `armalloc` hands out a zero-filled block of the rounded
size, at least the size asked for, inside the capacity of the last region
and above every block handed out earlier, whose bytes it leaves alone; it
returns `NULL` only when `malloc` fails. -/
theorem armalloc_size_overflow (junk : Nat → Nat) :
    (∃ a1 a2 r, armalloc true junk ⟨[]⟩ 18446744073709551615 = some (some ⟨0, 0⟩, a1) ∧
      a1.regions = [r] ∧ r.count = 0 ∧ r.capacity = 4072 ∧ r.items.length = 4072 ∧
      block_bytes a1 ⟨0, 0⟩ 18446744073709551615 = none ∧
      armalloc true junk a1 8 = some (some ⟨0, 0⟩, a2)) ∧
    (∀ ok a, armalloc ok junk a 0 = some (none, a)) ∧
    ArenaWF ⟨[]⟩ ∧ (∀ a, arfree a = ⟨[]⟩) ∧
    (∀ ok a size, ArenaWF a → 0 < size → size ≤ 2 ^ 62 →
      (∃ p a', armalloc ok junk a size = some (some p, a') ∧ ArenaWF a' ∧
        size ≤ round_size size ∧ BlockGranted a a' p (round_size size)) ∨
      (ok = false ∧ armalloc ok junk a size = some (none, a))) := by
  refine ⟨?_, fun ok a => by simp [armalloc], fun r hr => absurd hr (List.not_mem_nil _),
    fun _ => rfl, fun ok a size hwf h0 hmax => armalloc_granted ok junk a size hwf h0 hmax⟩
  have hlen : (((List.range 4096).map junk).drop 24).length = 4072 := by simp
  have hp := armalloc_size_max junk
  generalize ((List.range 4096).map junk).drop 24 = items at hp hlen
  obtain ⟨e', htake, _⟩ := arena_take_spec []
    { count := 0, capacity := 4072, items := items } 8
    (by show 0 + 8 ≤ 4072; omega) (by show 4072 = _; rw [hlen])
    (by show (4072 : Nat) < 2 ^ 63; norm_num)
  refine ⟨⟨[{ count := 0, capacity := 4072, items := items }]⟩, ⟨[] ++ [e']⟩,
    { count := 0, capacity := 4072, items := items }, hp, rfl, rfl, rfl, hlen, ?_, ?_⟩
  · unfold block_bytes
    simp only [List.getElem?_cons_zero, hlen]
    rw [if_neg (by omega)]
  · have h8 : round_size 8 = 8 := by decide
    unfold armalloc
    rw [if_neg (by omega)]
    simp only [h8, List.getLast?_singleton]
    rw [if_neg (by decide)]
    exact htake

end Mukitty
